import Mathlib

/-!
# Cisco 8000 FPGA kernel modules: block-table walker (drivers/cisco/mfd.c)

A shallow embedding of the MFD cell synthesizer.  Machine integers are
naturals reduced modulo the width where the C arithmetic can wrap; a register
transport is a function from register offset to a read result; C functions
that can fail return `Except`.

Conventions of the embedding:
* `struct resource`, `struct mfd_cell` are records; a pointer into the arena
  laid out by `_init_metadata` (`cell->resources`, `meta->intr`,
  `cell->name`) is replaced by the value it points to, and the cursors
  `meta->res`, `meta->match`, `meta->name_bufp` are kept as the number of
  slots they have advanced (`res_used`, `match_used`, `name_used`).
* `meta->cells[0 .. ncells)` is the list `cells` and `meta->ncells` its
  length: writing `cells[ncells]` and then `ncells++` appends a cell.
* `resource_size_t` and `unsigned long long` are 64 bits, `u32` 32 bits, the
  CPU is little-endian (x86-64 / arm64 targets of the driver).
* Log output (`dev_err`, `dev_info`, `dev_msg`) is not modelled.
-/

namespace CiscoMfd

/-! ## Constants -/

/-- Value of `CISCO_FPGA_MAGIC` (fpga.h). -/
def CISCO_FPGA_MAGIC : Nat := 0xc15c0595

/-- Value of `CISCO_FPGA_MAX_IRQS_LT_V8` (fpga.h). -/
def CISCO_FPGA_MAX_IRQS_LT_V8 : Nat := 10

/-- Value of `CISCO_FPGA_MAX_IRQS_V8` (fpga.h). -/
def CISCO_FPGA_MAX_IRQS_V8 : Nat := 12

/-- Filter bit `CISCO_MFD_CELLS_FILTER_PCI` (mfd.h). -/
def CISCO_MFD_CELLS_FILTER_PCI : Nat := 0x1

/-- Filter bit `CISCO_MFD_CELLS_FILTER_REGMAP` (mfd.h). -/
def CISCO_MFD_CELLS_FILTER_REGMAP : Nat := 0x2

/-- Filter bit `CISCO_MFD_CELLS_FILTER_PASSIVE_SLOT` (mfd.h). -/
def CISCO_MFD_CELLS_FILTER_PASSIVE_SLOT : Nat := 0x4

/-- Linux `PLATFORM_DEVID_NONE` (linux/platform_device.h). -/
def PLATFORM_DEVID_NONE : Int := -1

/-- Linux `PLATFORM_DEVID_AUTO` (linux/platform_device.h). -/
def PLATFORM_DEVID_AUTO : Int := -2

/-- Linux `PLATFORM_NAME_SIZE` (linux/mod_devicetable.h). -/
def PLATFORM_NAME_SIZE : Nat := 20

/-- Linux `IORESOURCE_IRQ` (linux/ioport.h). -/
def IORESOURCE_IRQ : Nat := 0x400

/-- Linux errno `ENXIO`. -/
def ENXIO : Int := 6

/-- Linux errno `ENOMEM`. -/
def ENOMEM : Int := 12

/-- Linux errno `ENODEV`. -/
def ENODEV : Int := 19

/-- Linux errno `EINVAL`. -/
def EINVAL : Int := 22

/-- Number of entries of `meta->block_offset` (mfd.h: `u16 block_offset[256]`),
the value of `ARRAY_SIZE(meta->block_offset)`. -/
def BLOCK_OFFSET_ENTRIES : Nat := 256

/-- Ways a call can end without returning a value: an errno (returned as a
negative `int` or through `ERR_PTR`), a `BUG_ON` that fired, or a read past
the end of a C array (undefined behaviour in C, a fault here). -/
inductive Fail where
  | errno (e : Int)
  | bug
  | fault
  deriving DecidableEq, Repr

/-! ## Capability table and lookup -/

/-- One row of the table: `struct cisco_fpga_blk`. -/
structure cisco_fpga_blk where
  id : Int
  name : Option String
  compatible : Option String
  num_irqs : Nat
  irq_set : Nat
  filter : Nat
  deriving DecidableEq, Repr

/-- The static table `cisco_fpga_blks[]`, row for row. -/
def cisco_fpga_blks : List cisco_fpga_blk := [
  ⟨7, some "mdio", some "cisco-fpga-mdio", 0, 0x00,
    CISCO_MFD_CELLS_FILTER_PCI ||| CISCO_MFD_CELLS_FILTER_REGMAP⟩,
  ⟨8, some "i2c-pex", some "cisco-fpga-i2c-pex", 0, 0x00,
    CISCO_MFD_CELLS_FILTER_REGMAP⟩,
  ⟨11, some "spi", some "cisco-fpga-spi", 1, 0x01,
    CISCO_MFD_CELLS_FILTER_PCI⟩,
  ⟨25, some "led-ng", some "cisco-fpga-led-ng", 0, 0x00,
    CISCO_MFD_CELLS_FILTER_REGMAP⟩,
  ⟨33, some "wdt", some "cisco-fpga-wdt", 1, 0x02,
    CISCO_MFD_CELLS_FILTER_PCI⟩,
  ⟨33, some "wdt", some "cisco-fpga-wdt", 0, 0x00,
    CISCO_MFD_CELLS_FILTER_REGMAP⟩,
  ⟨34, some "uxbar", some "cisco-fpga-uxbar", 1, 0x04,
    CISCO_MFD_CELLS_FILTER_REGMAP ||| CISCO_MFD_CELLS_FILTER_PASSIVE_SLOT⟩,
  ⟨35, some "info", some "cisco-fpga-info", 0, 0x00,
    CISCO_MFD_CELLS_FILTER_REGMAP ||| CISCO_MFD_CELLS_FILTER_PASSIVE_SLOT⟩,
  ⟨37, some "gpio", some "cisco-fpga-gpio", 1, 0x08,
    CISCO_MFD_CELLS_FILTER_PCI⟩,
  ⟨37, some "gpio", some "cisco-fpga-gpio", 0, 0x00,
    CISCO_MFD_CELLS_FILTER_REGMAP⟩,
  ⟨50, some "poller", some "cisco-fpga-poller", 0, 0x00,
    CISCO_MFD_CELLS_FILTER_PCI⟩,
  ⟨57, some "xil", some "cisco-fpga-xil", 0, 0x00,
    CISCO_MFD_CELLS_FILTER_PCI ||| CISCO_MFD_CELLS_FILTER_REGMAP ||| CISCO_MFD_CELLS_FILTER_PASSIVE_SLOT⟩,
  ⟨59, some "spi", some "cisco-fpga-spi", 1, 0x10,
    CISCO_MFD_CELLS_FILTER_PCI⟩,
  ⟨72, some "i2c-smb", some "cisco-fpga-i2c", 0, 0x00,
    CISCO_MFD_CELLS_FILTER_PCI ||| CISCO_MFD_CELLS_FILTER_REGMAP⟩,
  ⟨80, some "i2c-ext", some "cisco-fpga-i2c-ext", 0, 0x00,
    CISCO_MFD_CELLS_FILTER_REGMAP⟩,
  ⟨89, some "pseq", some "cisco-fpga-pseq", 0, 0x00,
    CISCO_MFD_CELLS_FILTER_PCI ||| CISCO_MFD_CELLS_FILTER_REGMAP ||| CISCO_MFD_CELLS_FILTER_PASSIVE_SLOT⟩,
  ⟨93, some "p2pm-m", some "cisco-fpga-p2pm-m", 1, 0x20,
    CISCO_MFD_CELLS_FILTER_PCI⟩,
  ⟨94, some "p2pm-s", some "cisco-fpga-p2pm-s", 0, 0x00,
    CISCO_MFD_CELLS_FILTER_REGMAP ||| CISCO_MFD_CELLS_FILTER_PASSIVE_SLOT⟩,
  ⟨96, some "pwm", some "cisco-bmc-pwm", 0, 0x00,
    CISCO_MFD_CELLS_FILTER_REGMAP⟩,
  ⟨98, some "bmc-led", some "cisco-bmc-led", 0, 0x00,
    CISCO_MFD_CELLS_FILTER_REGMAP⟩,
  ⟨99, some "msd", some "cisco-fpga-msd", 0, 0x00,
    CISCO_MFD_CELLS_FILTER_REGMAP⟩,
  ⟨104, some "fs", some "cisco-fpga-fs", 0, 0x00,
    CISCO_MFD_CELLS_FILTER_PCI ||| CISCO_MFD_CELLS_FILTER_PASSIVE_SLOT ||| CISCO_MFD_CELLS_FILTER_REGMAP⟩,
  ⟨105, some "rptime", some "cisco-fpga-rptime", 0, 0x00,
    CISCO_MFD_CELLS_FILTER_REGMAP⟩,
  ⟨111, some "cspi", some "cisco-fpga-cspi", 0, 0x00,
    CISCO_MFD_CELLS_FILTER_REGMAP ||| CISCO_MFD_CELLS_FILTER_PCI⟩,
  ⟨123, some "misc-intrs", some "cisco-fpga-misc-intrs", 0, 0,
    CISCO_MFD_CELLS_FILTER_REGMAP⟩,
  ⟨124, some "bmc-uart", some "cisco-bmc-uart", 0, 0x00,
    CISCO_MFD_CELLS_FILTER_REGMAP⟩,
  ⟨125, some "lrstr", some "cisco-fpga-lrstr", 0, 0x00,
    CISCO_MFD_CELLS_FILTER_REGMAP ||| CISCO_MFD_CELLS_FILTER_PASSIVE_SLOT⟩,
  ⟨132, some "led", some "cisco-fpga-led", 0, 0x00,
    CISCO_MFD_CELLS_FILTER_PCI⟩,
  ⟨133, some "i2c-pex-tod", some "cisco-fpga-i2c-pex-tod", 0, 0x00,
    CISCO_MFD_CELLS_FILTER_PCI⟩,
  ⟨138, some "retimer-dl", some "cisco-fpga-retimer-dl", 0, 0x00,
    CISCO_MFD_CELLS_FILTER_PCI ||| CISCO_MFD_CELLS_FILTER_REGMAP⟩,
  ⟨140, some "bmc-p2pm-m-lite", some "cisco-bmc-p2pm-m-lite", 0, 0x00,
    CISCO_MFD_CELLS_FILTER_REGMAP⟩,
  ⟨152, some "pzctl", some "cisco-fpga-pzctl", 0, 0x00,
    CISCO_MFD_CELLS_FILTER_PCI ||| CISCO_MFD_CELLS_FILTER_PASSIVE_SLOT ||| CISCO_MFD_CELLS_FILTER_REGMAP⟩,
  ⟨166, some "slpc-m", some "cisco-fpga-slpc-m", 1, 0x40,
    CISCO_MFD_CELLS_FILTER_PCI ||| CISCO_MFD_CELLS_FILTER_REGMAP⟩,
  ⟨167, some "slpc-s", some "cisco-fpga-slpc-s", 0, 0,
    CISCO_MFD_CELLS_FILTER_REGMAP⟩,
  ⟨0, none, some "", 0, 0x00,
    CISCO_MFD_CELLS_FILTER_PASSIVE_SLOT⟩,
  ⟨0, some "cisco-fpga-uio", some "cisco-fpga-uio", 0, 0x00,
    CISCO_MFD_CELLS_FILTER_PCI⟩,
  ⟨0, some "cisco-bmc-uio", some "cisco-bmc-uio", 0, 0x00,
    CISCO_MFD_CELLS_FILTER_REGMAP⟩,
  ⟨0, some "cisco-unknown-uio", some "cisco-unknown-uio", 0, 0x00,
    0⟩]

/-- The static row `_irq_blk = { 38, "intr", 0, 0, 0 }`. -/
def _irq_blk : cisco_fpga_blk := ⟨38, some "intr", none, 0, 0, 0⟩

/-- First loop of `cisco_fpga_blk_match`: `while (blk->id) { if match return blk; blk++; }`.
The argument is the part of the table from `blk` on.  Result: `none` when the
pointer runs past the end of the table, `some (Sum.inl b)` when row `b` is
returned, `some (Sum.inr rest)` when the loop ends at a row with id 0 and
`rest` is the table from that row on. -/
def blk_match_ids (id : Int) (filter : Nat) :
    List cisco_fpga_blk → Option (cisco_fpga_blk ⊕ List cisco_fpga_blk)
  | [] => none
  | blk :: rest =>
    if blk.id ≠ 0 then
      if blk.id = id ∧ (blk.filter &&& filter) ≠ 0 then some (Sum.inl blk)
      else blk_match_ids id filter rest
    else some (Sum.inr (blk :: rest))

/-- Second loop of `cisco_fpga_blk_match`: `while (blk->filter) { if (blk->filter & filter) break; blk++; }`,
returning the row `blk` points at when the loop ends (`none` past the end of
the table). -/
def blk_match_fallback (filter : Nat) : List cisco_fpga_blk → Option cisco_fpga_blk
  | [] => none
  | blk :: rest =>
    if blk.filter ≠ 0 then
      if (blk.filter &&& filter) ≠ 0 then some blk
      else blk_match_fallback filter rest
    else some blk

/-- The lookup `cisco_fpga_blk_match(id, filter, scratch)`.  A returned table
row and a returned `scratch` copy are both given by value. -/
def cisco_fpga_blk_match (id : Int) (filter : Nat) : Option cisco_fpga_blk :=
  match blk_match_ids id filter cisco_fpga_blks with
  | none => none
  | some (Sum.inl blk) => some blk
  | some (Sum.inr rest) =>
    match blk_match_fallback filter rest with
    | none => none
    | some blk => some { blk with id := id }

/-! ## Register transport and block headers -/

/-- A register transport: `regmap_read(r, reg, &v)` gives either a negative
errno (`Except.error`) or the 32-bit value of the register at offset `reg`. -/
abbrev Regmap := Nat → Except Int Nat

/-- The word loop of `_blkread`: read `n` consecutive 32-bit registers
starting at `reg`, stopping at the first error.  `regmap_read` takes an
`unsigned int` register offset. -/
def _blkread_words (r : Regmap) : Nat → Nat → Except Int (List Nat)
  | _, 0 => Except.ok []
  | reg, n + 1 =>
    match r (reg % 2 ^ 32) with
    | Except.error e => Except.error e
    | Except.ok v =>
      match _blkread_words r (reg + 4) n with
      | Except.error e => Except.error e
      | Except.ok vs => Except.ok (v % 2 ^ 32 :: vs)

/-- Routine `_blkread(r, reg, dst, len)`: `-EINVAL` when `len` is not a
multiple of 4, otherwise the `len / 4` words read. -/
def _blkread (r : Regmap) (reg len : Nat) : Except Int (List Nat) :=
  if len % 4 ≠ 0 then Except.error (-EINVAL) else _blkread_words r reg (len / 4)

/-- The header `struct blkhdr` (fpga.h), 20 bytes. -/
structure blkhdr where
  maj : Nat
  id : Nat
  offset : Nat
  minorVer : Nat
  fpgaNum : Nat
  instNum : Nat
  arraySz : Nat
  cfgRegsNum : Nat
  sw0 : Nat
  sw1 : Nat
  magic : Nat
  deriving DecidableEq, Repr

/-- Size of `struct blkhdr` in bytes. -/
def SIZEOF_BLKHDR : Nat := 20

/-- Size of `struct info_rom` in bytes (header, 12 words, empty flexible
array), which is also `offsetof(struct info_rom, block_offset)`. -/
def SIZEOF_INFO_ROM : Nat := 68

/-- Bit-field layout of `struct blkhdr` over the five words read into it
(first-declared field in the low bits, as in hdr.h). -/
def blkhdr_of_words (ws : List Nat) : blkhdr :=
  let w0 := ws.getD 0 0
  let w1 := ws.getD 1 0
  { maj := w0 % 64
    id := (w0 / 64) % 256
    offset := (w0 / 16384) % 262144
    minorVer := w1 % 32
    fpgaNum := (w1 / 32) % 16
    instNum := (w1 / 512) % 128
    arraySz := (w1 / 65536) % 256
    cfgRegsNum := (w1 / 16777216) % 256
    sw0 := ws.getD 2 0
    sw1 := ws.getD 3 0
    magic := ws.getD 4 0 }

/-- The part of `struct info_rom` (fpga.h) the walker uses. -/
structure info_rom where
  hdr : blkhdr
  rev_min : Nat
  rev_maj : Nat
  rev_dbg : Nat
  build : Nat
  num_blocks : Nat
  deriving DecidableEq, Repr

/-- Layout of `struct info_rom` over the 17 words read into it. -/
def info_rom_of_words (ws : List Nat) : info_rom :=
  { hdr := blkhdr_of_words ws
    rev_min := ws.getD 8 0 % 65536
    rev_maj := (ws.getD 8 0 / 65536) % 256
    rev_dbg := (ws.getD 8 0 / 16777216) % 256
    build := ws.getD 9 0
    num_blocks := ws.getD 16 0 }

/-- Reading one block header: `_blkread(r, absoff, &hdr, sizeof(hdr))`. -/
def read_hdr (r : Regmap) (absoff : Nat) : Except Int blkhdr :=
  match _blkread r absoff SIZEOF_BLKHDR with
  | Except.error e => Except.error e
  | Except.ok ws => Except.ok (blkhdr_of_words ws)

/-- The 32-bit words read into `u16 block_offset[]` on a little-endian CPU:
each word fills two consecutive entries, low half first. -/
def u16_of_words : List Nat → List Nat
  | [] => []
  | w :: ws => (w % 65536) :: ((w / 65536) % 65536) :: u16_of_words ws

/-! ## Resources, cells and metadata -/

/-- The fields of Linux `struct resource` that the walker copies or sets. -/
structure resource where
  start : Nat
  end_ : Nat
  name : Option String
  flags : Nat
  desc : Nat
  deriving DecidableEq, Repr

/-- A zero-filled `struct resource`, as in memory returned by `kzalloc`. -/
def resource_zero : resource := ⟨0, 0, none, 0, 0⟩

/-- The fields of Linux `struct mfd_cell` that the walker sets.
`resources` holds the `num_resources` consecutive slots of `meta->res` that
`cell->resources` points at; `acpi_match_adr` is `cell->acpi_match->adr`. -/
structure mfd_cell where
  name : Option String
  id : Int
  resources : List resource
  acpi_match_adr : Nat
  of_reg : Nat
  of_compatible : Option String
  use_of_reg : Bool
  platform_data : Nat
  pdata_size : Nat
  deriving DecidableEq, Repr

/-- Field `cell->num_resources`. -/
def mfd_cell.num_resources (c : mfd_cell) : Nat := c.resources.length

/-- The descriptor `struct child_metadata` (mfd.h). -/
structure child_metadata where
  adr : Nat
  id : Int
  name : Option String
  name_suffix : Option String
  ignore_cell : Nat
  block_id : Nat
  have_block_id : Nat
  deriving DecidableEq, Repr

/-- The structure `struct cell_metadata` (mfd.h).  `cells` holds
`meta->cells[0 .. ncells)` and `child` holds `meta->child[0 .. nchildren)`, so
that `ncells` and `nchildren` are the lengths of these lists; `res_used`,
`match_used` and `name_used` count the slots by which `meta->res`,
`meta->match` and `meta->name_bufp` have advanced. -/
structure cell_metadata where
  default_id : Int
  max_cells : Nat
  debug : Nat
  name_used : Nat
  cells : List mfd_cell
  res_used : Nat
  intr : Option resource
  resource_template : resource
  match_used : Nat
  pdata : Nat
  pdata_size : Nat
  block_offset : List Nat
  max_irqs : Nat
  child : List child_metadata
  deriving DecidableEq, Repr

/-- Field `meta->ncells`: the number of cells in `meta->cells[]` so far. -/
def cell_metadata.ncells (m : cell_metadata) : Nat := m.cells.length

/-- Field `meta->nchildren`: the number of entries of `meta->child[]` in use. -/
def cell_metadata.nchildren (m : cell_metadata) : Nat := m.child.length

/-! ## Firmware description -/

/-- What the firmware node of one child yields: the address (`_ADR` under
ACPI, `reg` under devicetree; `none` when it cannot be evaluated) and each
optional property (`none` when reading the property fails). -/
structure fw_child where
  adr : Option Nat
  devid : Option Nat
  devid_none : Option Nat
  devid_auto : Option Nat
  device_name : Option String
  ignore_cell : Option Nat
  block_id : Option Nat
  deriving DecidableEq, Repr

/-- What the firmware node of the parent device yields. -/
structure fw_node where
  devid : Option Nat
  devid_none : Option Nat
  device_name_suffix : Option String
  children : List fw_child
  deriving DecidableEq, Repr

/-- Conversion of a `u32` to `int` (assignment `meta_child->id = v`). -/
def int_of_u32 (v : Nat) : Int :=
  if v % 2 ^ 32 < 2 ^ 31 then ((v % 2 ^ 32 : Nat) : Int) else ((v % 2 ^ 32 : Nat) : Int) - 2 ^ 32

/-- Body of the `fwnode_for_each_child_node` loop of `_init_metadata` for a
child whose address `adr` was obtained. -/
def init_child (default_id : Int) (default_suffix : Option String) (c : fw_child)
    (adr : Nat) : child_metadata :=
  let id : Int :=
    match c.devid with
    | some v => int_of_u32 v
    | none =>
      if c.devid_none.any (fun v => v ≠ 0) then PLATFORM_DEVID_NONE
      else if c.devid_auto.any (fun v => v ≠ 0) then PLATFORM_DEVID_AUTO
      else default_id
  let have_id : Bool := c.block_id.any (fun v => v < 256)
  { adr := adr
    id := id
    name := c.device_name
    name_suffix := if c.device_name.isSome then none else default_suffix
    ignore_cell := if c.ignore_cell.any (fun v => v ≠ 0) then 1 else 0
    block_id := if have_id then c.block_id.getD 0 else 0
    have_block_id := if have_id then 1 else 0 }

/-- The `fwnode_for_each_child_node` loop of `_init_metadata`: children whose
address cannot be evaluated are not recorded. -/
def init_children (default_id : Int) (default_suffix : Option String) :
    List fw_child → List child_metadata
  | [] => []
  | c :: cs =>
    match c.adr with
    | some adr =>
      init_child default_id default_suffix c adr :: init_children default_id default_suffix cs
    | none => init_children default_id default_suffix cs

/-- Routine `_init_metadata(dev, ncells, resource_template, pdata, pdata_size, debug)`.
`fw` is the firmware node of `dev` (`none`: no fwnode) and `kzalloc_ok` tells
whether the allocation succeeds. -/
def _init_metadata (fw : Option fw_node) (kzalloc_ok : Bool) (ncells : Nat)
    (resource_template : resource) (pdata pdata_size debug : Nat) :
    Except Fail cell_metadata :=
  let ncells := (ncells + 1) % 2 ^ 32
  if ¬ kzalloc_ok then Except.error (Fail.errno (-ENOMEM))
  else if ncells ≥ BLOCK_OFFSET_ENTRIES then Except.error (Fail.errno (-EINVAL))
  else
    let meta : cell_metadata :=
      { default_id := PLATFORM_DEVID_AUTO
        max_cells := ncells
        debug := debug
        name_used := 0
        cells := []
        res_used := 0
        intr := none
        resource_template := resource_template
        match_used := 0
        pdata := pdata
        pdata_size := pdata_size
        block_offset := List.replicate BLOCK_OFFSET_ENTRIES 0
        max_irqs := 0
        child := [] }
    match fw with
    | none => Except.ok meta
    | some parent =>
      let default_id : Int :=
        match parent.devid with
        | some v => int_of_u32 v
        | none =>
          if parent.devid_none.any (fun v => v ≠ 0) then PLATFORM_DEVID_NONE
          else meta.default_id
      let child := init_children default_id parent.device_name_suffix parent.children
      Except.ok { meta with default_id := default_id, child := child }

/-! ## Cell synthesis: `_fwnode_config` -/

/-- Kernel `ffs(x)`: 1-based position of the least significant set bit of a
32-bit value, 0 when no bit is set. -/
def ffs (x : Nat) : Nat :=
  match (List.range 32).find? (fun k => x.testBit k) with
  | some k => k + 1
  | none => 0

/-- Whether the character list `s` starts with `t`. -/
def starts_with : List Char → List Char → Bool
  | _, [] => true
  | [], _ :: _ => false
  | a :: s, b :: t => a == b && starts_with s t

/-- Whether `t` occurs in `s` (character lists). -/
def occurs_in : List Char → List Char → Bool
  | [], t => starts_with [] t
  | a :: s, t => starts_with (a :: s) t || occurs_in s t

/-- Test `strstr(hay, needle) != NULL`. -/
def strstr (hay needle : String) : Bool := occurs_in hay.data needle.data

/-- The text left in the name buffer by
`snprintf(buf, PLATFORM_NAME_SIZE, "%s%s", name, suffix)` followed by
`buf[PLATFORM_NAME_SIZE - 1] = 0`; the kernel prints a NULL `%s` argument as
`(null)`. -/
def snprintf_name (name : Option String) (suffix : String) : String :=
  String.mk (((name.getD "(null)").data ++ suffix.data).take (PLATFORM_NAME_SIZE - 1))

/-- The IRQ loop of `_fwnode_config`: `n` is the number of iterations left
(`blk->num_irqs - irq`); the result lists the IRQ resources appended after the
memory resource, each in a zero-filled slot of `meta->res`. -/
def irq_resources (max_irqs : Nat) : Nat → Nat → List resource
  | 0, _ => []
  | n + 1, irq_set =>
    let bit := ffs irq_set
    if bit = 0 then []
    else
      let hwirq := bit - 1
      if hwirq ≥ max_irqs then []
      else
        { resource_zero with start := hwirq, end_ := hwirq, flags := IORESOURCE_IRQ } ::
          irq_resources max_irqs n (irq_set &&& (0xffffffff - 2 ^ hwirq))

/-- Tail of `_fwnode_config` from the IRQ loop on, for a cell whose memory
resource, name and id have been set: append the IRQ resources, force the
AUTO id for a row with id 0 or a name containing `-uio`, and commit the cell
(`meta->match++`, `meta->res++`, `meta->ncells++`). -/
def fwnode_config_commit (meta : cell_metadata) (blk : cisco_fpga_blk) (cell : mfd_cell) :
    cell_metadata :=
  let irqs := irq_resources meta.max_irqs blk.num_irqs blk.irq_set
  let uio : Bool := blk.id = 0 || blk.name.any (fun n => strstr n "-uio")
  let cell := { cell with resources := cell.resources ++ irqs
                          id := if uio then PLATFORM_DEVID_AUTO else cell.id }
  { meta with cells := meta.cells ++ [cell]
              match_used := meta.match_used + 1
              res_used := meta.res_used + irqs.length + 1 }

/-- Routine `_fwnode_config(meta, blk, absoff, nxtoff, blk_id)`: the `int`
it returns and the updated metadata, or `Fail.bug` when
`BUG_ON(meta->intr != NULL)` fires.  (`IGNORE_UNKNOWN_CHILDREN` is 0, so the
test that uses it never returns.) -/
def _fwnode_config (meta : cell_metadata) (blk : cisco_fpga_blk) (absoff nxtoff : Nat)
    (blk_id : Int) : Except Fail (Int × cell_metadata) :=
  if meta.ncells ≥ meta.max_cells then Except.ok (1, meta)
  else
    let res : resource :=
      { meta.resource_template with start := absoff, end_ := (nxtoff + 2 ^ 64 - 1) % 2 ^ 64 }
    if blk.id = 38 then
      if meta.intr.isSome then Except.error Fail.bug
      else Except.ok (0, { meta with intr := some res, res_used := meta.res_used + 1 })
    else
      let cell : mfd_cell :=
        { name := blk.name
          id := PLATFORM_DEVID_AUTO
          resources := [res]
          acpi_match_adr := absoff
          of_reg := absoff
          of_compatible := blk.compatible
          use_of_reg := true
          platform_data := meta.pdata
          pdata_size := meta.pdata_size }
      match meta.child.find? (fun child => absoff = child.adr) with
      | none => Except.ok (0, fwnode_config_commit meta blk cell)
      | some child =>
        if child.ignore_cell ≠ 0 then Except.ok (1, meta)
        else if child.have_block_id ≠ 0 ∧ (child.block_id : Int) ≠ blk_id then Except.ok (1, meta)
        else
          match child.name, child.name_suffix with
          | some name, _ =>
            Except.ok (0, fwnode_config_commit meta blk { cell with id := child.id, name := some name })
          | none, some suffix =>
            Except.ok (0, fwnode_config_commit { meta with name_used := meta.name_used + 1 } blk
              { cell with id := child.id, name := some (snprintf_name blk.name suffix) })
          | none, none =>
            Except.ok (0, fwnode_config_commit meta blk { cell with id := child.id })

/-! ## Interrupt pre-scan: `_setup_max_irqs` -/

/-- The loop of `_setup_max_irqs`: `n` iterations are left, `i` is the table
index and `nxtoff` the running offset.  The magic test reads
`info->hdr.magic`, as the source does. -/
def setup_max_irqs_loop (r : Regmap) (meta : cell_metadata) (info : info_rom) :
    Nat → Nat → Nat → Except Fail cell_metadata
  | 0, _, _ => Except.ok { meta with max_irqs := 0 }
  | n + 1, i, nxtoff =>
    let absoff := nxtoff
    match meta.block_offset[i]? with
    | none => Except.error Fail.fault
    | some bo =>
      let nxtoff := (absoff + bo * 256) % 2 ^ 32
      match read_hdr r absoff with
      | Except.error e => Except.error (Fail.errno e)
      | Except.ok hdr =>
        if info.hdr.magic ≠ CISCO_FPGA_MAGIC then Except.error (Fail.errno (-ENODEV))
        else if hdr.id = 255 then Except.ok { meta with max_irqs := 0 }
        else if hdr.id = 38 then
          Except.ok { meta with max_irqs :=
            if hdr.maj < 8 then CISCO_FPGA_MAX_IRQS_LT_V8 else CISCO_FPGA_MAX_IRQS_V8 }
        else setup_max_irqs_loop r meta info n (i + 1) nxtoff

/-- Routine `_setup_max_irqs(dev, r, meta, info, debug)`. -/
def _setup_max_irqs (r : Regmap) (meta : cell_metadata) (info : info_rom) :
    Except Fail cell_metadata :=
  setup_max_irqs_loop r meta info info.num_blocks 0 0

/-! ## Main walk of `cisco_fpga_mfd_cells` -/

/-- Record of one iteration of the main walk, kept for stating properties
(it is not a C object): the table index, the byte offset at which the header
was read, and the cell written to `meta->cells[ncells]` by that iteration, if
one was emitted. -/
structure visit where
  idx : Nat
  absoff : Nat
  cell : Option mfd_cell
  deriving DecidableEq, Repr

/-- State after one iteration of the main loop: whether `break` was taken,
the new `nxtoff`, the metadata, and the cell emitted by the iteration. -/
structure walk_step where
  stop : Bool
  nxtoff : Nat
  meta : cell_metadata
  cell : Option mfd_cell
  deriving DecidableEq, Repr

/-- Body of the main loop `for (i = 1; i < info.num_blocks; i++)` of
`cisco_fpga_mfd_cells`, entered with the running offset `nxtoff`. -/
def walk_body (r : Regmap) (filter info_ver : Nat) (i nxtoff : Nat) (meta : cell_metadata) :
    Except Fail walk_step :=
  let absoff := nxtoff
  match meta.block_offset[i]? with
  | none => Except.error Fail.fault
  | some bo =>
    let nxtoff := (absoff + bo * 256) % 2 ^ 32
    match read_hdr r absoff with
    | Except.error e => Except.error (Fail.errno e)
    | Except.ok hdr =>
      if hdr.magic ≠ CISCO_FPGA_MAGIC then
        if info_ver ≥ 6 then
          if absoff ≠ 0x20000 then Except.ok ⟨false, nxtoff, meta, none⟩
          else
            match _fwnode_config meta _irq_blk absoff nxtoff 38 with
            | Except.error f => Except.error f
            | Except.ok (_, meta1) => Except.ok ⟨false, nxtoff, meta1, none⟩
        else Except.ok ⟨false, nxtoff, meta, none⟩
      else if hdr.id = 255 then Except.ok ⟨true, nxtoff, meta, none⟩
      else if hdr.id = 38 then
        match _fwnode_config meta _irq_blk absoff nxtoff hdr.id with
        | Except.error f => Except.error f
        | Except.ok (_, meta1) => Except.ok ⟨false, nxtoff, meta1, none⟩
      else
        match cisco_fpga_blk_match hdr.id filter with
        | none => Except.error Fail.fault
        | some blk =>
          if blk.name.isNone then Except.ok ⟨false, nxtoff, meta, none⟩
          else
            match _fwnode_config meta blk absoff nxtoff hdr.id with
            | Except.error f => Except.error f
            | Except.ok (ret, meta1) =>
              Except.ok ⟨false, nxtoff, meta1, if ret = 0 then meta1.cells[meta.ncells]? else none⟩

/-- The main loop: `n` iterations are left (`info.num_blocks - i`), `i` is
the table index, `nxtoff` the running offset, `vs` the visits so far. -/
def walk_loop (r : Regmap) (filter info_ver : Nat) :
    Nat → Nat → Nat → cell_metadata → List visit → Except Fail (cell_metadata × List visit)
  | 0, _, _, meta, vs => Except.ok (meta, vs)
  | n + 1, i, nxtoff, meta, vs =>
    match walk_body r filter info_ver i nxtoff meta with
    | Except.error f => Except.error f
    | Except.ok st =>
      if st.stop then Except.ok (st.meta, vs ++ [⟨i, nxtoff, st.cell⟩])
      else walk_loop r filter info_ver n (i + 1) st.nxtoff st.meta (vs ++ [⟨i, nxtoff, st.cell⟩])

/-! ## Deduplication pass -/

/-- Inner loop `for (j = i + 1; j < meta->ncells; ++j)` of the duplicate
search, run over the cells after cell `i`, whose name and id are `name` and
`cid`: the updated cells, and whether the local `id` was set to AUTO. -/
def dedup_inner (name : Option String) (cid : Int) : List mfd_cell → List mfd_cell × Bool
  | [] => ([], false)
  | c :: cs =>
    if name ≠ c.name then
      let rest := dedup_inner name cid cs
      (c :: rest.1, rest.2)
    else if cid = c.id then
      let rest := dedup_inner name cid cs
      ({ c with id := PLATFORM_DEVID_AUTO } :: rest.1, true)
    else
      let rest := dedup_inner name cid cs
      (c :: rest.1, rest.2)

/-- Outer loop `for (i = 0; i < meta->ncells; ++i)` of the duplicate search:
`n` iterations are left and the list holds the cells from index `i` on. -/
def dedup_outer : Nat → List mfd_cell → List mfd_cell
  | 0, cs => cs
  | _ + 1, [] => []
  | n + 1, cell :: cs =>
    if cell.id = PLATFORM_DEVID_AUTO then cell :: dedup_outer n cs
    else
      let inner := dedup_inner cell.name cell.id cs
      { cell with id := if inner.2 then PLATFORM_DEVID_AUTO else cell.id } :: dedup_outer n inner.1

/-- The duplicate search at the end of `cisco_fpga_mfd_cells`. -/
def dedup_pass (meta : cell_metadata) : cell_metadata :=
  { meta with cells := dedup_outer meta.ncells meta.cells }

/-! ## `cisco_fpga_mfd_cells` -/

/-- The table written by the pre-v6 branch
`for (i = 0; i < info.num_blocks; ++i) meta->block_offset[i] = 0x1000 >> 8;`
into the zero-filled `meta->block_offset`. -/
def synth_block_offset (num_blocks : Nat) : List Nat :=
  (List.range BLOCK_OFFSET_ENTRIES).map (fun i => if i < num_blocks then 0x1000 / 256 else 0)

/-- Routine `cisco_fpga_mfd_cells`, returning the metadata together with the
visits of the main walk.  `fw` and `kzalloc_ok` stand for what `dev` and the
allocator provide to `_init_metadata`. -/
def cisco_fpga_mfd_cells_visits (fw : Option fw_node) (kzalloc_ok : Bool) (r : Regmap)
    (resource_template : resource) (pdata pdata_size filter debug : Nat) :
    Except Fail (cell_metadata × List visit) :=
  match _blkread r 0 SIZEOF_INFO_ROM with
  | Except.error e => Except.error (Fail.errno e)
  | Except.ok ws =>
    let info := info_rom_of_words ws
    if info.hdr.magic ≠ CISCO_FPGA_MAGIC then Except.error (Fail.errno (-ENODEV))
    else
      let info_ver := info.hdr.maj
      let info : info_rom :=
        if info_ver < 6 then { info with num_blocks := BLOCK_OFFSET_ENTRIES - 1 } else info
      match _init_metadata fw kzalloc_ok info.num_blocks resource_template pdata pdata_size debug with
      | Except.error f => Except.error f
      | Except.ok meta =>
        let table : Except Int (List Nat) :=
          if info_ver ≥ 6 then
            match _blkread r SIZEOF_INFO_ROM (2 * BLOCK_OFFSET_ENTRIES) with
            | Except.error e => Except.error e
            | Except.ok tws => Except.ok (u16_of_words tws)
          else Except.ok (synth_block_offset info.num_blocks)
        match table with
        | Except.error e => Except.error (Fail.errno e)
        | Except.ok block_offset =>
          let meta := { meta with block_offset := block_offset }
          match cisco_fpga_blk_match info.hdr.id filter with
          | none => Except.error Fail.fault
          | some blk =>
            if blk.id ≠ 35 then Except.error (Fail.errno (- ENXIO))
            else
              match _setup_max_irqs r meta info with
              | Except.error f => Except.error f
              | Except.ok meta =>
                match meta.block_offset[0]? with
                | none => Except.error Fail.fault
                | some bo =>
                  let nxtoff := (0 + bo * 256) % 2 ^ 32
                  match _fwnode_config meta blk 0 nxtoff blk.id with
                  | Except.error f => Except.error f
                  | Except.ok (_, meta) =>
                    match walk_loop r filter info_ver (info.num_blocks - 1) 1 nxtoff meta [] with
                    | Except.error f => Except.error f
                    | Except.ok (meta, vs) => Except.ok (dedup_pass meta, vs)

/-- Routine `cisco_fpga_mfd_cells`: the returned `struct cell_metadata *`, or
the failure. -/
def cisco_fpga_mfd_cells (fw : Option fw_node) (kzalloc_ok : Bool) (r : Regmap)
    (resource_template : resource) (pdata pdata_size filter debug : Nat) :
    Except Fail cell_metadata :=
  match cisco_fpga_mfd_cells_visits fw kzalloc_ok r resource_template pdata pdata_size filter debug with
  | Except.error f => Except.error f
  | Except.ok res => Except.ok res.1

/-! # Specification-side definitions and concrete inputs -/

/-- Fallback row 1 of the table: the nameless PASSIVE_SLOT row. -/
def fallback_passive : cisco_fpga_blk :=
  ⟨0, none, some "", 0, 0x00, CISCO_MFD_CELLS_FILTER_PASSIVE_SLOT⟩

/-- Fallback row 2 of the table: `cisco-fpga-uio` for PCI parents. -/
def fallback_pci : cisco_fpga_blk :=
  ⟨0, some "cisco-fpga-uio", some "cisco-fpga-uio", 0, 0x00, CISCO_MFD_CELLS_FILTER_PCI⟩

/-- Fallback row 3 of the table: `cisco-bmc-uio` for regmap parents. -/
def fallback_regmap : cisco_fpga_blk :=
  ⟨0, some "cisco-bmc-uio", some "cisco-bmc-uio", 0, 0x00, CISCO_MFD_CELLS_FILTER_REGMAP⟩

/-- Fallback row 4 of the table: `cisco-unknown-uio`, filter 0. -/
def fallback_unknown : cisco_fpga_blk :=
  ⟨0, some "cisco-unknown-uio", some "cisco-unknown-uio", 0, 0x00, 0⟩

/-- The first fallback row whose filter intersects the caller's, in table
order (nameless PASSIVE_SLOT row, then `cisco-fpga-uio`, then
`cisco-bmc-uio`), or `cisco-unknown-uio` when none does. -/
def fallback_choice (filter : Nat) : cisco_fpga_blk :=
  if (CISCO_MFD_CELLS_FILTER_PASSIVE_SLOT &&& filter) ≠ 0 then fallback_passive
  else if (CISCO_MFD_CELLS_FILTER_PCI &&& filter) ≠ 0 then fallback_pci
  else if (CISCO_MFD_CELLS_FILTER_REGMAP &&& filter) ≠ 0 then fallback_regmap
  else fallback_unknown

/-- The lookup as the specification words it: the first row of the table with
the requested non-zero id whose filter intersects the caller's; failing that,
a copy of the chosen fallback row with the requested id. -/
def blk_match_spec (id : Int) (filter : Nat) : cisco_fpga_blk :=
  match cisco_fpga_blks.find?
      (fun b => decide (b.id = id ∧ id ≠ 0 ∧ (b.filter &&& filter) ≠ 0)) with
  | some b => b
  | none => { fallback_choice filter with id := id }

/-- Byte offset of table index `k` as the specification words it: 256 times
the sum of the first `k` entries of the block-offset table. -/
def cum_off (block_offset : List Nat) (k : Nat) : Nat := 256 * (block_offset.take k).sum

/-- The memory window `[absoff, nxtoff - 1]` cloned from the resource
template, with the subtraction done in 64-bit unsigned arithmetic. -/
def mem_window (template : resource) (absoff nxtoff : Nat) : resource :=
  { template with start := absoff, end_ := (nxtoff + 2 ^ 64 - 1) % 2 ^ 64 }

/-- The metadata fields that no step of the walk writes. -/
def same_frame (a b : cell_metadata) : Prop :=
  a.block_offset = b.block_offset ∧ a.max_cells = b.max_cells ∧ a.max_irqs = b.max_irqs ∧
  a.child = b.child ∧ a.resource_template = b.resource_template ∧ a.default_id = b.default_id ∧
  a.pdata = b.pdata ∧ a.pdata_size = b.pdata_size ∧ a.debug = b.debug

/-- Cell `c`, at index `i` of `cells`, has an explicit id and some other cell
of the list has the same name and the same id. -/
def has_duplicate (cells : List mfd_cell) (i : Nat) (c : mfd_cell) : Prop :=
  c.id ≠ PLATFORM_DEVID_AUTO ∧
    ∃ j c2, j ≠ i ∧ cells[j]? = some c2 ∧ c2.name = c.name ∧ c2.id = c.id

/-- A memory resource template (`IORESOURCE_MEM`) for the concrete inputs. -/
def demo_template : resource := ⟨0, 0, none, 0x200, 0⟩

/-- Register image of the scenario of the specification: info ROM of version 6
(block id 35) with `num_blocks = 3` and `block_offset = [1, 2, 1, 0, ...]`,
block 1 = gpio (id 37) at offset 0x100, block 2 = terminal (id 255) at offset
0x300; every other register reads 0. -/
def demo_rom : Regmap := fun reg =>
  Except.ok (
    if reg = 0x0 then 6 + 35 * 64
    else if reg = 0x10 then CISCO_FPGA_MAGIC
    else if reg = 0x40 then 3
    else if reg = 0x44 then 1 + 2 * 65536
    else if reg = 0x48 then 1
    else if reg = 0x100 then 1 + 37 * 64
    else if reg = 0x110 then CISCO_FPGA_MAGIC
    else if reg = 0x300 then 1 + 255 * 64
    else if reg = 0x310 then CISCO_FPGA_MAGIC
    else 0)

/-- Register image of an info ROM of header version 5 (block id 35, valid
magic); every other register reads 0. -/
def demo_rom_v5 : Regmap := fun reg =>
  Except.ok (
    if reg = 0x0 then 5 + 35 * 64
    else if reg = 0x10 then CISCO_FPGA_MAGIC
    else 0)

/-- Metadata with nothing in it, used as the value of a failed run. -/
def empty_metadata : cell_metadata :=
  { default_id := 0, max_cells := 0, debug := 0, name_used := 0, cells := [], res_used := 0,
    intr := none, resource_template := resource_zero, match_used := 0, pdata := 0,
    pdata_size := 0, block_offset := [], max_irqs := 0, child := [] }

/-- The metadata and visits of a run, empty when the run failed. -/
def run_result (x : Except Fail (cell_metadata × List visit)) : cell_metadata × List visit :=
  match x with
  | Except.ok res => res
  | Except.error _ => (empty_metadata, [])

/-- The run of `cisco_fpga_mfd_cells` on `demo_rom` for a PCI parent without
firmware node. -/
def demo_run_pci : Except Fail (cell_metadata × List visit) :=
  cisco_fpga_mfd_cells_visits none true demo_rom demo_template 0 0 CISCO_MFD_CELLS_FILTER_PCI 0

/-- The run of `cisco_fpga_mfd_cells` on `demo_rom` for a regmap parent
without firmware node. -/
def demo_run_regmap : Except Fail (cell_metadata × List visit) :=
  cisco_fpga_mfd_cells_visits none true demo_rom demo_template 0 0 CISCO_MFD_CELLS_FILTER_REGMAP 0

/-- The 17 words of the info ROM of `demo_rom`. -/
def demo_info_words : List Nat :=
  [6 + 35 * 64, 0, 0, 0, CISCO_FPGA_MAGIC, 0, 0, 0, 0, 0, 0, 0, 0, 0, 0, 0, 3]

/-- Register image like `demo_rom`, but block 1 at 0x100 carries id 200, an
id without a row in the capability table. -/
def demo_rom_unknown : Regmap := fun reg =>
  Except.ok (
    if reg = 0x0 then 6 + 35 * 64
    else if reg = 0x10 then CISCO_FPGA_MAGIC
    else if reg = 0x40 then 3
    else if reg = 0x44 then 1 + 2 * 65536
    else if reg = 0x48 then 1
    else if reg = 0x100 then 1 + 200 * 64
    else if reg = 0x110 then CISCO_FPGA_MAGIC
    else if reg = 0x300 then 1 + 255 * 64
    else if reg = 0x310 then CISCO_FPGA_MAGIC
    else 0)

/-- A small metadata for the concrete inputs: room for 4 cells, none emitted
yet, table `[1, 2, 1]`, 10 IRQ lines, no firmware children. -/
def demo_meta : cell_metadata :=
  { default_id := PLATFORM_DEVID_AUTO, max_cells := 4, debug := 0, name_used := 0, cells := [],
    res_used := 0, intr := none, resource_template := demo_template, match_used := 0, pdata := 0,
    pdata_size := 0, block_offset := [1, 2, 1], max_irqs := 10, child := [] }

/-- Register image with an interrupt block between two blocks: info ROM of
version 6 (`num_blocks = 4`, table `[1, 2, 1, 1, 0, ...]`), block 1 =
interrupt (id 38, major version 8) at 0x100, block 2 = gpio (id 37) at 0x300,
block 3 = terminal at 0x400. -/
def demo_rom_intr : Regmap := fun reg =>
  Except.ok (
    if reg = 0x0 then 6 + 35 * 64
    else if reg = 0x10 then CISCO_FPGA_MAGIC
    else if reg = 0x40 then 4
    else if reg = 0x44 then 1 + 2 * 65536
    else if reg = 0x48 then 1 + 1 * 65536
    else if reg = 0x100 then 8 + 38 * 64
    else if reg = 0x110 then CISCO_FPGA_MAGIC
    else if reg = 0x300 then 1 + 37 * 64
    else if reg = 0x310 then CISCO_FPGA_MAGIC
    else if reg = 0x400 then 1 + 255 * 64
    else if reg = 0x410 then CISCO_FPGA_MAGIC
    else 0)

/-- Register image like `demo_rom_intr`, but block 2 at 0x300 is a second
interrupt block (id 38) with valid magic. -/
def demo_rom_two_intr : Regmap := fun reg =>
  Except.ok (
    if reg = 0x0 then 6 + 35 * 64
    else if reg = 0x10 then CISCO_FPGA_MAGIC
    else if reg = 0x40 then 4
    else if reg = 0x44 then 1 + 2 * 65536
    else if reg = 0x48 then 1 + 1 * 65536
    else if reg = 0x100 then 8 + 38 * 64
    else if reg = 0x110 then CISCO_FPGA_MAGIC
    else if reg = 0x300 then 8 + 38 * 64
    else if reg = 0x310 then CISCO_FPGA_MAGIC
    else if reg = 0x400 then 1 + 255 * 64
    else if reg = 0x410 then CISCO_FPGA_MAGIC
    else 0)

/-- The value of a returning `_fwnode_config` call: its metadata, and
`empty_metadata` for a call that does not return. -/
def config_result (x : Except Fail (Int × cell_metadata)) : cell_metadata :=
  match x with
  | Except.ok res => res.2
  | Except.error _ => empty_metadata

/-- The gpio row of the capability table for PCI parents. -/
def gpio_pci_row : cisco_fpga_blk :=
  ⟨37, some "gpio", some "cisco-fpga-gpio", 1, 0x08, CISCO_MFD_CELLS_FILTER_PCI⟩

/-- The spi row (id 11) of the capability table. -/
def spi_row : cisco_fpga_blk :=
  ⟨11, some "spi", some "cisco-fpga-spi", 1, 0x01, CISCO_MFD_CELLS_FILTER_PCI⟩

/-- Byte offset at which the pre-scan and the main walk read table index `k`:
the cumulative offset reduced to 32 bits. -/
def table_off (block_offset : List Nat) (k : Nat) : Nat := cum_off block_offset k % 2 ^ 32

/-- The info ROM of `demo_rom_intr` as `cisco_fpga_mfd_cells` holds it. -/
def demo_info_intr : info_rom :=
  info_rom_of_words [6 + 35 * 64, 0, 0, 0, CISCO_FPGA_MAGIC, 0, 0, 0, 0, 0, 0, 0, 0, 0, 0, 0, 4]

/-- Metadata before the pre-scan of `demo_rom_intr`: table `[1, 2, 1, 1]`. -/
def demo_meta_intr : cell_metadata :=
  { demo_meta with block_offset := [1, 2, 1, 1], max_irqs := 0 }

/-- Register image like `demo_rom`, but block 0 carries id 37 (gpio) instead
of 35 (info). -/
def demo_rom_no_info : Regmap := fun reg =>
  Except.ok (
    if reg = 0x0 then 6 + 37 * 64
    else if reg = 0x10 then CISCO_FPGA_MAGIC
    else if reg = 0x40 then 3
    else if reg = 0x44 then 1 + 2 * 65536
    else if reg = 0x48 then 1
    else if reg = 0x100 then 1 + 37 * 64
    else if reg = 0x110 then CISCO_FPGA_MAGIC
    else if reg = 0x300 then 1 + 255 * 64
    else if reg = 0x310 then CISCO_FPGA_MAGIC
    else 0)

/-- The 17 words of block 0 of `demo_rom_no_info`. -/
def demo_no_info_words : List Nat :=
  [6 + 37 * 64, 0, 0, 0, CISCO_FPGA_MAGIC, 0, 0, 0, 0, 0, 0, 0, 0, 0, 0, 0, 3]

/-- Register image with an interrupt block followed by a region without magic
at byte offset 0x20000: info ROM of version 6 (`num_blocks = 4`, table
`[1, 511, 1, 1, ...]`), block 1 = interrupt (id 38, major version 8) at 0x100,
table index 2 at 0x20000 reads zeros (no magic), block 3 = terminal at
0x20100. -/
def demo_rom_intr_legacy : Regmap := fun reg =>
  Except.ok (
    if reg = 0x0 then 6 + 35 * 64
    else if reg = 0x10 then CISCO_FPGA_MAGIC
    else if reg = 0x40 then 4
    else if reg = 0x44 then 1 + 511 * 65536
    else if reg = 0x48 then 1 + 1 * 65536
    else if reg = 0x100 then 8 + 38 * 64
    else if reg = 0x110 then CISCO_FPGA_MAGIC
    else if reg = 0x20100 then 1 + 255 * 64
    else if reg = 0x20110 then CISCO_FPGA_MAGIC
    else 0)

/-- Metadata like `demo_meta` with the table `[512, 1, 1]`, under which table
index 1 lies at byte offset 0x20000. -/
def demo_meta_legacy : cell_metadata :=
  { demo_meta with block_offset := [512, 1, 1] }

/-- A child descriptor at address 0x100 with `ignore_cell` set. -/
def demo_child_ignore : child_metadata :=
  { adr := 0x100, id := PLATFORM_DEVID_AUTO, name := none, name_suffix := none,
    ignore_cell := 1, block_id := 0, have_block_id := 0 }

/-- A child descriptor at address 0x100 that expects block id 11 there. -/
def demo_child_expect : child_metadata :=
  { adr := 0x100, id := PLATFORM_DEVID_AUTO, name := none, name_suffix := none,
    ignore_cell := 0, block_id := 11, have_block_id := 1 }

/-- Metadata like `demo_meta` with the one child `demo_child_ignore`. -/
def demo_meta_ignore : cell_metadata :=
  { demo_meta with child := [demo_child_ignore] }

/-- Metadata like `demo_meta` with the one child `demo_child_expect`. -/
def demo_meta_expect : cell_metadata :=
  { demo_meta with child := [demo_child_expect] }

/-- The firmware children of the device (none without a firmware node). -/
def fw_children (fw : Option fw_node) : List fw_child :=
  match fw with
  | none => []
  | some parent => parent.children

/-- The first firmware child whose address is `a`. -/
def fw_child_at (fw : Option fw_node) (a : Nat) : Option fw_child :=
  (fw_children fw).find? (fun c => c.adr = some a)

/-- The name suffix that the children inherit from the parent node. -/
def fw_name_suffix (fw : Option fw_node) : Option String :=
  match fw with
  | none => none
  | some parent => parent.device_name_suffix

/-- The parent's default id as the specification words it: the parent's
`devid` value, `PLATFORM_DEVID_NONE` for a parent with `devid-none`, otherwise
`PLATFORM_DEVID_AUTO`. -/
def parent_default_id (fw : Option fw_node) : Int :=
  match fw with
  | none => PLATFORM_DEVID_AUTO
  | some parent =>
    match parent.devid with
    | some v => int_of_u32 v
    | none =>
      if parent.devid_none.any (fun v => v ≠ 0) then PLATFORM_DEVID_NONE
      else PLATFORM_DEVID_AUTO

/-- The configured id of a firmware child as the specification words it: its
`devid` value, `PLATFORM_DEVID_NONE` for `devid-none`, `PLATFORM_DEVID_AUTO`
for `devid-auto`, otherwise the parent's default id. -/
def child_configured_id (fw : Option fw_node) (c : fw_child) : Int :=
  match c.devid with
  | some v => int_of_u32 v
  | none =>
    if c.devid_none.any (fun v => v ≠ 0) then PLATFORM_DEVID_NONE
    else if c.devid_auto.any (fun v => v ≠ 0) then PLATFORM_DEVID_AUTO
    else parent_default_id fw

/-- The name of the cell emitted for the row named `bn` at offset `a`, as the
specification words it. -/
def cell_name_spec (fw : Option fw_node) (bn : String) (a : Nat) : String :=
  match fw_child_at fw a with
  | none => bn
  | some c =>
    match c.device_name with
    | some name => name
    | none =>
      match fw_name_suffix fw with
      | some suffix => String.mk ((bn.data ++ suffix.data).take (PLATFORM_NAME_SIZE - 1))
      | none => bn

/-- Whether the row is one of those that line 402 of mfd.c forces to the AUTO
id: a row with id 0 or with `-uio` in its name. -/
def is_uio_row (blk : cisco_fpga_blk) : Bool :=
  blk.id = 0 || blk.name.any (fun n => strstr n "-uio")

/-- The id (before deduplication) of the cell emitted for row `blk` at offset
`a`: AUTO for a UIO row or without a child at `a`, otherwise the configured id
of the first child at `a`. -/
def cell_id_spec (fw : Option fw_node) (blk : cisco_fpga_blk) (a : Nat) : Int :=
  if is_uio_row blk then PLATFORM_DEVID_AUTO
  else
    match fw_child_at fw a with
    | none => PLATFORM_DEVID_AUTO
    | some c => child_configured_id fw c

/-- A firmware node with the name suffix `-remote-linecard-7` whose only
child sits at address 0x100 and asks for `devid = 5`. -/
def demo_fw_devid : fw_node :=
  { devid := none, devid_none := none, device_name_suffix := some "-remote-linecard-7",
    children := [{ adr := some 0x100, devid := some 5, devid_none := none, devid_auto := none,
                   device_name := none, ignore_cell := none, block_id := none }] }

/-- The metadata that `_init_metadata` returns for `demo_fw_devid` and
`ncells = 3`. -/
def demo_meta_fw : cell_metadata :=
  { default_id := PLATFORM_DEVID_AUTO, max_cells := 4, debug := 0, name_used := 0, cells := [],
    res_used := 0, intr := none, resource_template := demo_template, match_used := 0, pdata := 0,
    pdata_size := 0, block_offset := List.replicate BLOCK_OFFSET_ENTRIES 0, max_irqs := 0,
    child := [{ adr := 0x100, id := 5, name := none, name_suffix := some "-remote-linecard-7",
                ignore_cell := 0, block_id := 0, have_block_id := 0 }] }

/-- The cursors of the single allocation after at most `k` blocks have been
handled: `ncells`, the match entries and the name-buffer slots consumed are at
most `k` and the resource slots consumed at most `2 * k`. -/
def cursors_within (k : Nat) (m : cell_metadata) : Prop :=
  m.ncells ≤ k ∧ m.res_used ≤ 2 * k ∧ m.match_used ≤ k ∧ m.name_used ≤ k

/-- Whether the header read at byte offset `a` makes the main walk call
`_fwnode_config` for the interrupt row: a header with valid magic and id 38,
or, in a ROM of version 6 or later, a header without valid magic at 0x20000. -/
def is_intr_region (r : Regmap) (info_ver a : Nat) : Bool :=
  match read_hdr r a with
  | Except.error _ => false
  | Except.ok hdr =>
    if hdr.magic ≠ CISCO_FPGA_MAGIC then decide (6 ≤ info_ver ∧ a = 0x20000)
    else decide (hdr.id = 38)

/-- The table indices among `i, ..., i + n - 1` whose offset is an interrupt
region. -/
def intr_indices (r : Regmap) (info_ver : Nat) (block_offset : List Nat) (i n : Nat) : List Nat :=
  (List.range' i n).filter (fun k => is_intr_region r info_ver (table_off block_offset k))

/-- Register image with a region without magic at byte offset 0x20000 followed
by an interrupt block: info ROM of version 6 (`num_blocks = 4`, table
`[512, 1, 1, 1, ...]`), table index 1 at 0x20000 reads zeros (no magic),
block 2 = interrupt (id 38, major version 8) at 0x20100, block 3 = terminal at
0x20200. -/
def demo_rom_legacy_intr : Regmap := fun reg =>
  Except.ok (
    if reg = 0x0 then 6 + 35 * 64
    else if reg = 0x10 then CISCO_FPGA_MAGIC
    else if reg = 0x40 then 4
    else if reg = 0x44 then 512 + 1 * 65536
    else if reg = 0x48 then 1 + 1 * 65536
    else if reg = 0x20100 then 8 + 38 * 64
    else if reg = 0x20110 then CISCO_FPGA_MAGIC
    else if reg = 0x20200 then 1 + 255 * 64
    else if reg = 0x20210 then CISCO_FPGA_MAGIC
    else 0)

/-- Register image of an info ROM of version 6 (block id 35, valid magic)
whose `num_blocks` word is `0xFFFFFFFF`; every other register, the offset
table included, reads 0. -/
def demo_rom_wrap : Regmap := fun reg =>
  Except.ok (
    if reg = 0x0 then 6 + 35 * 64
    else if reg = 0x10 then CISCO_FPGA_MAGIC
    else if reg = 0x40 then 0xFFFFFFFF
    else 0)

/-- Register image like `demo_rom_intr`, but the magic word of the interrupt
block at 0x100 (id 38, major version 8) reads 0 instead of
`CISCO_FPGA_MAGIC`. -/
def demo_rom_intr_bad_magic : Regmap := fun reg =>
  Except.ok (
    if reg = 0x0 then 6 + 35 * 64
    else if reg = 0x10 then CISCO_FPGA_MAGIC
    else if reg = 0x40 then 4
    else if reg = 0x44 then 1 + 2 * 65536
    else if reg = 0x48 then 1 + 1 * 65536
    else if reg = 0x100 then 8 + 38 * 64
    else if reg = 0x300 then 1 + 37 * 64
    else if reg = 0x310 then CISCO_FPGA_MAGIC
    else if reg = 0x400 then 1 + 255 * 64
    else if reg = 0x410 then CISCO_FPGA_MAGIC
    else 0)

/-- Register image like `demo_rom_no_info` (block 0 with valid magic,
`num_blocks = 3` and id 37), on a transport whose read of register 0x44, the
first word of the offset table, fails with status -5. -/
def demo_rom_no_info_table_fails : Regmap := fun reg =>
  if reg = 0x44 then Except.error (-5) else demo_rom_no_info reg

/-- Register image like `demo_rom` (block 0 with valid magic, `num_blocks = 3`
and id 35), on a transport whose read of register 0x100, the first word of
the header of block 1, fails with `-ENXIO`. -/
def demo_rom_read_enxio : Regmap := fun reg =>
  if reg = 0x100 then Except.error (- ENXIO) else demo_rom reg

/-- Whether the first firmware child at address `a` suppresses the cell of a
block with id `blk_id`: it carries `ignore-cell`, or a `block-id` different
from `blk_id`. -/
def child_suppresses (meta : cell_metadata) (a : Nat) (blk_id : Int) : Bool :=
  match meta.child.find? (fun child => a = child.adr) with
  | none => false
  | some child =>
    decide (child.ignore_cell ≠ 0) ||
      decide (child.have_block_id ≠ 0 ∧ (child.block_id : Int) ≠ blk_id)

/-- The name of the cell emitted for a row named `bn` at address `a`: with a
firmware child at `a`, the child's `device-name`, else `bn` followed by the
suffix the child inherited (cut to the size of the name buffer); `bn` itself
otherwise. -/
def child_cell_name (meta : cell_metadata) (bn : Option String) (a : Nat) : Option String :=
  match meta.child.find? (fun child => a = child.adr) with
  | none => bn
  | some child =>
    match child.name, child.name_suffix with
    | some name, _ => some name
    | none, some suffix => some (snprintf_name bn suffix)
    | none, none => bn

/-- The metadata `demo_meta` with the firmware child of `demo_meta_fw` at
address 0x100 (no `device-name`, suffix `-remote-linecard-7`, `devid = 5`). -/
def demo_meta_child : cell_metadata :=
  { demo_meta with child := demo_meta_fw.child }

end CiscoMfd

/-!
# Cisco 8000 FPGA kernel modules: I2C arbitration (drivers/cisco/i2c-arbitrate.c)

A shallow embedding of the multi-master arbitration of the FPGA I2C
controllers.  The hardware and the clock are an environment that answers each
register access and each reading of `jiffies`; the routines thread the
arbitration state and append to a log of the accesses and sleeps they make.
-/

namespace CiscoI2c

/-- Errno `ENODEV`. -/
def ENODEV : Int := 19

/-- The register offset `F(index) = offsetof(struct msd_regs_v5_t, arbi[index])`
(msd.h: `arbi[8]` starts at 0x500), as the `unsigned int` handed to the
regmap. -/
def F (index : Nat) : Nat := (0x500 + 4 * index) % 2 ^ 32

/-- Offset of `sw0` in `struct regblk_hdr_t` (hdr.h). -/
def OFFSETOF_SW0 : Nat := 0x08

/-- Offset of `sw1` in `struct regblk_hdr_t` (hdr.h). -/
def OFFSETOF_SW1 : Nat := 0x0c

/-- The structure `struct cisco_i2c_arbitrate` (i2c-arbitrate.h).  The field
`local` is spelled `local_`; the device pointer `info` is represented by the
environment (`arb_env.info_regmap`).  The `u64` statistics hold values below
`2 ^ 64`. -/
structure cisco_i2c_arbitrate where
  peer : Nat
  local_ : Nat
  index : Nat
  timeout_msecs : Nat
  peer_grant_msecs : Nat
  peer_retry_msecs : Nat
  timeout_jiffies : Nat
  peer_grant_jiffies : Nat
  peer_retry_jiffies : Nat
  disputed : Nat
  undisputed : Nat
  read_local_err : Nat
  write_local_err : Nat
  read_peer_err : Nat
  write_peer_err : Nat
  read_arb_err : Nat
  write_arb_err : Nat
  expires : Nat
  total_wait_msecs : Nat
  max_wait_msecs : Nat
  min_wait_msecs : Nat
  deriving DecidableEq, Repr

/-- The two register maps the routines talk to: `hw->regmap`, the map of the
I2C block itself, and the map of the arbitration block `hw->arb.info`. -/
inductive regmap_id where
  | hw
  | info
  deriving DecidableEq, Repr

/-- What a routine does to the outside, in program order (kept for stating
properties): a `regmap_read`, a `regmap_write`, or a
`schedule_timeout_uninterruptible`. -/
inductive arb_event where
  | reg_read (map : regmap_id) (reg : Nat)
  | reg_write (map : regmap_id) (reg val : Nat)
  | sleep (timeout : Nat)
  deriving DecidableEq, Repr

/-- What the outside answers during one call.  `info_regmap` tells whether
`dev_get_regmap(hw->arb.info, NULL)` is non-NULL.  `peer_read` is the outcome
of the read of the peer-request register and `arb_read k` the outcome of the
`k`-th read of the arbitration-owner register in the call, counted from 0
(`Except.error e`: `regmap_read` returned the non-zero status `e`;
`Except.ok v`: it returned 0 and stored `v`).  `local_write` and `arb_write`
are the statuses returned by the `regmap_write` to the local-request register
and to the owner register.  `jiffies k` is the value of `jiffies` once `k`
sleeps of the call have ended (register accesses take no time), and
`jiffies_to_msecs` is the kernel conversion of that name. -/
structure arb_env where
  info_regmap : Bool
  peer_read : Except Int Nat
  arb_read : Nat → Except Int Nat
  local_write : Int
  arb_write : Int
  jiffies : Nat → Nat
  jiffies_to_msecs : Nat → Nat

/-- Conversion of an `int` to `u32` (the assignments `arb = read_arb(...)` and
`arb = write_arb(...)`). -/
def u32_of_int (e : Int) : Nat := (e % 2 ^ 32).toNat

/-- Conversion of a `u32` to `int` (the assignment `e = v` of `read_arb`). -/
def int_of_u32 (v : Nat) : Int :=
  if v % 2 ^ 32 < 2 ^ 31 then ((v % 2 ^ 32 : Nat) : Int) else ((v % 2 ^ 32 : Nat) : Int) - 2 ^ 32

/-- One more on a `u64` counter. -/
def u64_inc (x : Nat) : Nat := (x + 1) % 2 ^ 64

/-- Routine `read_arb(fn, hw)` for the `k`-th read of the call: the `int` it
returns, the updated statistics and the register access it made. -/
def read_arb (env : arb_env) (k : Nat) (arb : cisco_i2c_arbitrate) :
    Int × cisco_i2c_arbitrate × List arb_event :=
  let res : Int × List arb_event :=
    if env.info_regmap then
      match env.arb_read k with
      | Except.error e => (e, [arb_event.reg_read regmap_id.info (F arb.index)])
      | Except.ok v => (int_of_u32 v, [arb_event.reg_read regmap_id.info (F arb.index)])
    else (-ENODEV, [])
  (res.1, if res.1 < 0 then { arb with read_arb_err := u64_inc arb.read_arb_err } else arb, res.2)

/-- Routine `write_arb(fn, hw)`: the `int` it returns, the updated statistics
and the register access it made. -/
def write_arb (env : arb_env) (arb : cisco_i2c_arbitrate) :
    Int × cisco_i2c_arbitrate × List arb_event :=
  let res : Int × List arb_event :=
    if env.info_regmap then
      (env.arb_write, [arb_event.reg_write regmap_id.info (F arb.index) 0])
    else (-ENODEV, [])
  (res.1, if res.1 < 0 then { arb with write_arb_err := u64_inc arb.write_arb_err } else arb, res.2)

/-- Kernel `time_before_eq(a, b)` on `unsigned long`: `(long)(b - a) >= 0`. -/
def time_before_eq (a b : Nat) : Bool := (b % 2 ^ 64 + 2 ^ 64 - a % 2 ^ 64) % 2 ^ 64 < 2 ^ 63

/-- Kernel `jiffies_delta_to_msecs(delta)` applied to the `unsigned long`
difference `now - start`: `jiffies_to_msecs(max(0L, delta))` with the
difference taken as a `long`; the result is an `unsigned int`. -/
def jiffies_delta_to_msecs (env : arb_env) (now start : Nat) : Nat :=
  let delta := (now % 2 ^ 64 + 2 ^ 64 - start % 2 ^ 64) % 2 ^ 64
  env.jiffies_to_msecs (if delta < 2 ^ 63 then delta else 0) % 2 ^ 32

/-- State of a call when it stops: whether it returned (`false`: the
iterations granted to the poll loop ran out first), the statistics, and the
accesses made so far. -/
structure arb_outcome where
  returned : Bool
  arb : cisco_i2c_arbitrate
  trace : List arb_event
  deriving DecidableEq, Repr

/-- State at the end of the poll loop: the last value of the local `arb`
(`none` when the granted iterations ran out), the number of sleeps done, the
statistics and the accesses made. -/
structure poll_outcome where
  last : Option Nat
  sleeps : Nat
  arb : cisco_i2c_arbitrate
  trace : List arb_event
  deriving DecidableEq, Repr

/-- The poll loop
`do { schedule_timeout_uninterruptible(timeout); timeout = peer_retry_jiffies; arb = read_arb(); } while (arb && time_before_eq(jiffies, expires));`
with at most `fuel` iterations; `k` sleeps have been done before and
`expires` is the local of that name. -/
def poll_loop (env : arb_env) (expires : Nat) :
    Nat → Nat → Nat → cisco_i2c_arbitrate → List arb_event → poll_outcome
  | 0, k, _, arb, tr => ⟨none, k, arb, tr⟩
  | fuel + 1, k, timeout, arb, tr =>
    let rd := read_arb env (k + 1) arb
    let v := u32_of_int rd.1
    let tr := tr ++ [arb_event.sleep timeout] ++ rd.2.2
    if v ≠ 0 ∧ time_before_eq (env.jiffies (k + 1)) expires then
      poll_loop env expires fuel (k + 1) arb.peer_retry_jiffies rd.2.1 tr
    else ⟨some v, k + 1, rd.2.1, tr⟩

/-- The statistics update after the poll loop (`if (arb) ... else ...`). -/
def record_wait (env : arb_env) (start : Nat) (last sleeps : Nat) (arb : cisco_i2c_arbitrate) :
    cisco_i2c_arbitrate :=
  if last ≠ 0 then { arb with expires := u64_inc arb.expires }
  else
    let msecs := jiffies_delta_to_msecs env (env.jiffies sleeps) start
    if msecs ≠ 0 then
      { arb with total_wait_msecs := (arb.total_wait_msecs + msecs) % 2 ^ 64
                 max_wait_msecs := max arb.max_wait_msecs msecs
                 min_wait_msecs := min arb.min_wait_msecs msecs }
    else arb

/-- The part of `obtain_arbitration` that follows the successful write of the
local request (from `if (!arb)` on), with at most `fuel` iterations of the
poll loop: `v` is the value of the local `arb`, `tr` the accesses made so
far. -/
def obtain_arbitration_wait (env : arb_env) (fuel : Nat) (v : Nat) (arb : cisco_i2c_arbitrate)
    (tr : List arb_event) : arb_outcome :=
  let wr : cisco_i2c_arbitrate × List arb_event :=
    if v = 0 then
      let w := write_arb env arb
      (w.2.1, w.2.2)
    else (arb, [])
  let arb := wr.1
  let tr := tr ++ wr.2
  let start := env.jiffies 0 % 2 ^ 64
  let expires := (start + arb.timeout_jiffies) % 2 ^ 64
  let p := poll_loop env expires fuel 0 arb.peer_grant_jiffies arb tr
  match p.last with
  | none => ⟨false, p.arb, p.trace⟩
  | some last => ⟨true, record_wait env start last p.sleeps p.arb, p.trace⟩

/-- Routine `obtain_arbitration(adapter)` on the arbitration state of the
adapter, with at most `fuel` iterations of the poll loop. -/
def obtain_arbitration (env : arb_env) (fuel : Nat) (arb : cisco_i2c_arbitrate) : arb_outcome :=
  let tr : List arb_event := [arb_event.reg_read regmap_id.hw arb.peer]
  let pr : Nat × cisco_i2c_arbitrate :=
    match env.peer_read with
    | Except.error _ => (0, { arb with read_peer_err := u64_inc arb.read_peer_err })
    | Except.ok v => (v % 2 ^ 32, arb)
  let peer := pr.1
  let rd := read_arb env 0 pr.2
  let v := u32_of_int rd.1
  let arb := rd.2.1
  let tr := tr ++ rd.2.2
  if v = 0 ∧ peer = 0 then ⟨true, { arb with undisputed := u64_inc arb.undisputed }, tr⟩
  else
    let arb := { arb with disputed := u64_inc arb.disputed }
    let tr := tr ++ [arb_event.reg_write regmap_id.hw arb.local_ 1]
    if env.local_write ≠ 0 then
      ⟨true, { arb with write_local_err := u64_inc arb.write_local_err }, tr⟩
    else obtain_arbitration_wait env fuel v arb tr

/-- Whether the event is an access to `hw->regmap`, the register map of the
I2C block, where the local-request and peer-request registers live. -/
def touches_hw : arb_event → Bool
  | arb_event.reg_read regmap_id.hw _ => true
  | arb_event.reg_write regmap_id.hw _ _ => true
  | _ => false

/-- Whether the event is a register write to `hw->regmap`. -/
def writes_hw : arb_event → Bool
  | arb_event.reg_write regmap_id.hw _ _ => true
  | _ => false

/-- Whether the event is a sleep. -/
def is_sleep : arb_event → Bool
  | arb_event.sleep _ => true
  | _ => false

/-- An arbitration state as `i2c_arbitrate` leaves it for a device without
`arbitration-request` and with the default durations at `HZ = 1000`: local
request in `sw0`, peer request in `sw1`, index 2, counters at 0. -/
def demo_arb : cisco_i2c_arbitrate :=
  { peer := OFFSETOF_SW1, local_ := OFFSETOF_SW0, index := 2, timeout_msecs := 1000,
    peer_grant_msecs := 100, peer_retry_msecs := 10, timeout_jiffies := 1000,
    peer_grant_jiffies := 100, peer_retry_jiffies := 10, disputed := 0, undisputed := 0,
    read_local_err := 0, write_local_err := 0, read_peer_err := 0, write_peer_err := 0,
    read_arb_err := 0, write_arb_err := 0, expires := 0, total_wait_msecs := 0,
    max_wait_msecs := 0, min_wait_msecs := 1000 }

/-- An outside where nobody competes: the peer-request register and the
owner register read 0, writes succeed, the clock starts at 5000 and advances
by 100 jiffies per sleep, one jiffy is one millisecond. -/
def demo_env_free : arb_env :=
  { info_regmap := true, peer_read := Except.ok 0, arb_read := fun _ => Except.ok 0,
    local_write := 0, arb_write := 0, jiffies := fun k => 5000 + 100 * k,
    jiffies_to_msecs := fun j => j }

/-- An outside like `demo_env_free` in which the first read of the owner
register fails with status -5 (`-EIO`) and the later reads return 0. -/
def demo_env_read_error : arb_env :=
  { demo_env_free with arb_read := fun k => if k = 0 then Except.error (-5) else Except.ok 0 }

/-- An outside like `demo_env_free` in which the owner register reads 1 at
first and on the first poll, and 0 from the second poll on. -/
def demo_env_busy : arb_env :=
  { demo_env_free with arb_read := fun k => if k < 2 then Except.ok 1 else Except.ok 0 }

/-- The value of the local `peer` of `obtain_arbitration` after the read of
the peer-request register (0 when the read fails). -/
def initial_peer (env : arb_env) : Nat :=
  match env.peer_read with
  | Except.error _ => 0
  | Except.ok v => v % 2 ^ 32

/-- The value of the local `arb` of `obtain_arbitration` after the first
`read_arb`. -/
def initial_arb (env : arb_env) (arb : cisco_i2c_arbitrate) : Nat :=
  u32_of_int (read_arb env 0 arb).1

/-- Whether the event is a register write to the map of the arbitration
block, where the owner register lives. -/
def writes_info : arb_event → Bool
  | arb_event.reg_write regmap_id.info _ _ => true
  | _ => false

/-- An outside like `demo_env_free` in which the peer-request register reads
1 while the owner register reads 0. -/
def demo_env_peer : arb_env :=
  { demo_env_free with peer_read := Except.ok 1 }

/-- An outside like `demo_env_peer` in which the clearing write of the owner
register fails with status -5. -/
def demo_env_peer_clear_fails : arb_env :=
  { demo_env_peer with arb_write := -5 }

/-- The value of the local `arb` after the `k`-th read of the owner register
of a call. -/
def poll_value (env : arb_env) (arb : cisco_i2c_arbitrate) (k : Nat) : Nat :=
  u32_of_int (read_arb env k arb).1

/-- The local `expires` of a call: `start + timeout_jiffies` on
`unsigned long`, with `start` the clock before the first sleep. -/
def expires_of (env : arb_env) (arb : cisco_i2c_arbitrate) : Nat :=
  (env.jiffies 0 % 2 ^ 64 + arb.timeout_jiffies) % 2 ^ 64

/-- Whether a call reaches the poll loop: it does not take the fast path and
its write of the local request is accepted. -/
def reaches_poll (env : arb_env) (arb : cisco_i2c_arbitrate) : Bool :=
  !(decide (initial_arb env arb = 0 ∧ initial_peer env = 0)) && decide (env.local_write = 0)

/-- The poll loop of a call, started on an empty trace. -/
def call_poll (env : arb_env) (fuel : Nat) (arb : cisco_i2c_arbitrate) : poll_outcome :=
  poll_loop env (expires_of env arb) fuel 0 arb.peer_grant_jiffies arb []

/-- The wait statistics of the arbitration state. -/
def wait_stats (arb : cisco_i2c_arbitrate) : Nat × Nat × Nat × Nat :=
  (arb.expires, arb.total_wait_msecs, arb.max_wait_msecs, arb.min_wait_msecs)

/-- The wait time of a call in milliseconds, as the code computes it, when the
call's poll loop ended with the owner register reading 0. -/
def free_wait (env : arb_env) (fuel : Nat) (arb : cisco_i2c_arbitrate) : Option Nat :=
  if reaches_poll env arb ∧ (call_poll env fuel arb).last = some 0 then
    some (jiffies_delta_to_msecs env (env.jiffies (call_poll env fuel arb).sleeps)
      (env.jiffies 0 % 2 ^ 64))
  else none

/-- The configuration part of the arbitration state: register offsets, index
and durations. -/
def arb_config (arb : cisco_i2c_arbitrate) : (Nat × Nat × Nat) × (Nat × Nat × Nat) × (Nat × Nat × Nat) :=
  ((arb.peer, arb.local_, arb.index),
    (arb.timeout_msecs, arb.peer_grant_msecs, arb.peer_retry_msecs),
    (arb.timeout_jiffies, arb.peer_grant_jiffies, arb.peer_retry_jiffies))

/-- An arbitration state like `demo_arb` with a peer-retry duration of 500 ms
(timeout 1000 ms, peer-grant 100 ms). -/
def demo_arb_retry : cisco_i2c_arbitrate :=
  { demo_arb with peer_retry_msecs := 500, peer_retry_jiffies := 500 }

/-- An outside for `demo_arb_retry` with exact sleeps: the clock reads 5000 at
the start, 5100 after the first sleep (100 jiffies) and 500 more after each
further sleep; the owner register reads 1 at first and on the first two
polls, and 0 on the third poll. -/
def demo_env_late : arb_env :=
  { demo_env_free with
    arb_read := fun k => if k < 3 then Except.ok 1 else Except.ok 0
    jiffies := fun k => if k = 0 then 5000 else 4600 + 500 * k }

/-- An outside like `demo_env_free` in which the owner register always
reads 1. -/
def demo_env_stuck : arb_env :=
  { demo_env_free with arb_read := fun _ => Except.ok 1 }

/-- Routine `release_arbitration(adapter)`: the updated statistics and the
register accesses made (the routine returns nothing).  Of the outside only
`local_write`, `arb_write` and `info_regmap` are used. -/
def release_arbitration (env : arb_env) (arb : cisco_i2c_arbitrate) :
    cisco_i2c_arbitrate × List arb_event :=
  let e := env.local_write
  let tr : List arb_event := [arb_event.reg_write regmap_id.hw arb.local_ 0]
  let w := write_arb env arb
  let tr := tr ++ w.2.2
  let arb := w.2.1
  (if e ≠ 0 then { arb with write_local_err := u64_inc arb.write_local_err } else arb, tr)

/-- An outside in which both register writes fail with status -5. -/
def demo_env_writes_fail : arb_env :=
  { demo_env_free with local_write := -5, arb_write := -5 }

/-- An outside like `demo_env_free` in which `dev_get_regmap` gives no
register map for the arbitration block. -/
def demo_env_no_regmap : arb_env :=
  { demo_env_free with info_regmap := false }

/-- Errno `EPROBE_DEFER`. -/
def EPROBE_DEFER : Int := 517

/-- What the firmware node and the driver core answer to `i2c_arbitrate`: the
outcome of each `device_property_read_u32` (`Except.error e`: status `e`),
the outcome of the look-up of the arbitration block (`some e`: the routine
returns `e` there, `none`: `hw->arb.info` is set), whether that device has a
register map, the status of `devm_add_action_or_reset`, and the kernel
conversion `msecs_to_jiffies`. -/
structure arbitrate_env where
  multi_master : Except Int Nat
  arbitration_request : Except Int Nat
  arbitration_index : Except Int Nat
  arbitration_timeout_msecs : Except Int Nat
  arbitration_peer_grant_msecs : Except Int Nat
  arbitration_peer_retry_msecs : Except Int Nat
  find_info : Option Int
  info_regmap : Bool
  add_action : Int
  msecs_to_jiffies : Nat → Nat

/-- What `i2c_arbitrate` leaves: its return value, whether
`adapter->lock_ops` is `&arb_lock_ops` (otherwise NULL), and the arbitration
state. -/
structure arbitrate_result where
  status : Int
  lock_ops : Bool
  arb : cisco_i2c_arbitrate
  deriving DecidableEq, Repr

/-- The value `e ? dflt : v` of a duration property. -/
def prop_or (p : Except Int Nat) (dflt : Nat) : Nat :=
  match p with
  | Except.error _ => dflt
  | Except.ok v => v % 2 ^ 32

/-- Whether `e || !v` holds after a property read. -/
def prop_unset (p : Except Int Nat) : Bool :=
  match p with
  | Except.error _ => true
  | Except.ok v => v % 2 ^ 32 = 0

/-- Routine `i2c_arbitrate(dev, adapter)` on the arbitration state of the
adapter. -/
def i2c_arbitrate (fw : arbitrate_env) (arb : cisco_i2c_arbitrate) : arbitrate_result :=
  if prop_unset fw.multi_master then ⟨0, false, arb⟩
  else
    let arb :=
      if prop_unset fw.arbitration_request then
        { arb with local_ := OFFSETOF_SW0, peer := OFFSETOF_SW1 }
      else { arb with local_ := OFFSETOF_SW1, peer := OFFSETOF_SW0 }
    match fw.arbitration_index with
    | Except.error e => ⟨e, false, arb⟩
    | Except.ok v =>
      let arb := { arb with index := v % 2 ^ 32 }
      let arb := { arb with timeout_msecs := prop_or fw.arbitration_timeout_msecs 1000 }
      let arb := { arb with peer_grant_msecs := prop_or fw.arbitration_peer_grant_msecs 100 }
      let arb := { arb with peer_retry_msecs := prop_or fw.arbitration_peer_retry_msecs 10 }
      let arb := { arb with timeout_jiffies := fw.msecs_to_jiffies arb.timeout_msecs % 2 ^ 64 }
      let arb := { arb with peer_grant_jiffies := fw.msecs_to_jiffies arb.peer_grant_msecs % 2 ^ 64 }
      let arb := { arb with peer_retry_jiffies := fw.msecs_to_jiffies arb.peer_retry_msecs % 2 ^ 64 }
      let arb := { arb with min_wait_msecs := arb.timeout_msecs }
      match fw.find_info with
      | some e => ⟨e, false, arb⟩
      | none =>
        if ¬ fw.info_regmap then ⟨-EPROBE_DEFER, false, arb⟩
        else if fw.add_action ≠ 0 then ⟨fw.add_action, true, arb⟩
        else ⟨0, true, arb⟩

/-- The arbitration state in the zero-filled private data of the device. -/
def arb_zero : cisco_i2c_arbitrate :=
  { peer := 0, local_ := 0, index := 0, timeout_msecs := 0, peer_grant_msecs := 0,
    peer_retry_msecs := 0, timeout_jiffies := 0, peer_grant_jiffies := 0,
    peer_retry_jiffies := 0, disputed := 0, undisputed := 0, read_local_err := 0,
    write_local_err := 0, read_peer_err := 0, write_peer_err := 0, read_arb_err := 0,
    write_arb_err := 0, expires := 0, total_wait_msecs := 0, max_wait_msecs := 0,
    min_wait_msecs := 0 }

/-- A sequence of `obtain_arbitration` calls, each with its outside and the
iterations granted to its poll loop: the arbitration state after the last
call. -/
def obtain_sequence (arb : cisco_i2c_arbitrate) : List (arb_env × Nat) → cisco_i2c_arbitrate
  | [] => arb
  | c :: rest => obtain_sequence (obtain_arbitration c.1 c.2 arb).arb rest

/-- The wait times, in call order, of the polls of a sequence of calls that
ended with the owner register reading 0. -/
def free_waits (arb : cisco_i2c_arbitrate) : List (arb_env × Nat) → List Nat
  | [] => []
  | c :: rest =>
    (free_wait c.1 c.2 arb).toList ++ free_waits (obtain_arbitration c.1 c.2 arb).arb rest

/-- A firmware description for a multi-master device with
`arbitration-index = 2`, `arbitration-peer-retry-msecs = 500` and the default
timeout and peer-grant durations, whose arbitration block is present, on a
kernel with `HZ = 1000`. -/
def demo_fw_arbitrate : arbitrate_env :=
  { multi_master := Except.ok 1, arbitration_request := Except.error (-22),
    arbitration_index := Except.ok 2, arbitration_timeout_msecs := Except.error (-22),
    arbitration_peer_grant_msecs := Except.error (-22),
    arbitration_peer_retry_msecs := Except.ok 500, find_info := none, info_regmap := true,
    add_action := 0, msecs_to_jiffies := fun m => m }

end CiscoI2c

/-!
# Cisco 8000 FPGA kernel modules: register fields (drivers/cisco/reg_access.h)

The field helpers work on `uint32_t`; a value is a natural number below
`2^32`, and every operation that can leave that range is reduced modulo
`2^32` as the C conversion does.  A shift of a `uint32_t` by 32 or more is
undefined in C; the model shifts the natural number and reduces it.
-/

namespace CiscoReg

/-- Routine `_reg_mask(hi, lo)`: `width = hi - lo + 1` in `uint32_t`
arithmetic; `U32_C(~0)` when the width is 32, else `(1ul << width) - 1`
converted to `uint32_t`.  (A shift of the 64-bit `1ul` by 64 or more is
undefined in C; the model gives 0 for it.) -/
def _reg_mask (hi lo : Nat) : Nat :=
  let width := (hi % 2 ^ 32 + 2 ^ 32 - lo % 2 ^ 32 + 1) % 2 ^ 32
  if width = 32 then 0xffffffff
  else ((if width < 64 then 1 <<< width else 0) + 2 ^ 64 - 1) % 2 ^ 64 % 2 ^ 32

/-- Routine `_reg_mask_lo(hi, lo)`: the mask shifted to its place, in
`uint32_t`. -/
def _reg_mask_lo (hi lo : Nat) : Nat := (_reg_mask hi lo <<< (lo % 2 ^ 32)) % 2 ^ 32

/-- Routine `_reg_get(d, hi, lo)`. -/
def _reg_get (d hi lo : Nat) : Nat := ((d % 2 ^ 32) >>> (lo % 2 ^ 32)) &&& _reg_mask hi lo

/-- Routine `_reg_set(d, hi, lo)`. -/
def _reg_set (d hi lo : Nat) : Nat := (((d % 2 ^ 32) &&& _reg_mask hi lo) <<< (lo % 2 ^ 32)) % 2 ^ 32

/-- Routine `_reg_replace(v, d, hi, lo)`; `~mask` is `mask ^ 0xffffffff`. -/
def _reg_replace (v d hi lo : Nat) : Nat :=
  let mask := _reg_mask_lo hi lo
  ((v % 2 ^ 32) &&& (mask ^^^ 0xffffffff)) ||| ((((d % 2 ^ 32) <<< (lo % 2 ^ 32)) % 2 ^ 32) &&& mask)

end CiscoReg

/-!
# Cisco 8000 FPGA kernel modules: I2C-EXT transfers (drivers/cisco/cisco-fpga-i2c-ext.c)

A shallow embedding of `_i2c_xfer`.  The hardware is an environment that
gives the status of each register access; the model follows the lengths
(`len`, `cfg_len`, `cp_len`, `index`) and the value written to `cfg2`, and
counts the bytes moved between `msg->buf` and the data registers.
-/

namespace CiscoI2cExt

/-- Constant `DRIVER_I2C_HW_BUF_SIZE`. -/
def DRIVER_I2C_HW_BUF_SIZE : Nat := 256

/-- Constant `DRIVER_I2C_HW_BUF_SIZE_v5`. -/
def DRIVER_I2C_HW_BUF_SIZE_v5 : Nat := 512

/-- Flag `I2C_M_RD` of `struct i2c_msg` (linux/i2c.h). -/
def I2C_M_RD : Nat := 0x0001

/-- Flag `I2C_M_RECV_LEN` of `struct i2c_msg` (linux/i2c.h). -/
def I2C_M_RECV_LEN : Nat := 0x0400

/-- Constant `I2C_SMBUS_BLOCK_MAX` (linux/i2c.h). -/
def I2C_SMBUS_BLOCK_MAX : Nat := 32

/-- The value `hw->bufsize` that `cisco_fpga_i2c_ext_probe` sets from the
block version `hw->ver`. -/
def probe_bufsize (ver : Nat) : Nat :=
  if ver ≤ 4 then DRIVER_I2C_HW_BUF_SIZE else DRIVER_I2C_HW_BUF_SIZE_v5

/-- The fields of `struct i2c_msg` that `_i2c_xfer` reads; the bytes of
`msg->buf` are not modelled. -/
structure i2c_msg where
  addr : Nat
  flags : Nat
  len : Nat
  deriving DecidableEq, Repr

/-- What the hardware answers during one call of `_i2c_xfer`: the status of
the `_wait_done(adap, hw, 0)` before the loop, of the
`_write_cfg2_retryable_cfg` of chunk `k`, of the `_i2c_readl` of read word
`index` of chunk `k`, of the `_i2c_writel` of write word `index` of chunk `k`,
and the byte `msg->buf[0]` after the transfer. -/
structure xfer_env where
  wait_done : Int
  start : Nat → Int
  readl : Nat → Nat → Int
  writel : Nat → Nat → Int
  buf0 : Nat

/-- The locals of the two copy loops: `e`, `len`, `cfg_len`, `index`, and the
number of bytes moved between `msg->buf` and the data registers so far. -/
structure copy_state where
  e : Int
  len : Nat
  cfg_len : Nat
  index : Nat
  copied : Nat
  deriving DecidableEq, Repr

/-- Subtraction of `u16` values. -/
def u16_sub (a b : Nat) : Nat := (a % 2 ^ 16 + 2 ^ 16 - b % 2 ^ 16) % 2 ^ 16

/-- The loop `while (read && len && cfg_len && !e)` of `_i2c_xfer` for chunk
`k`, entered with `read` true; `none` when the fuel does not suffice. -/
def read_loop (env : xfer_env) (k : Nat) : Nat → copy_state → Option copy_state
  | 0, st => if st.len ≠ 0 ∧ st.cfg_len ≠ 0 ∧ st.e = 0 then none else some st
  | fuel + 1, st =>
    if st.len ≠ 0 ∧ st.cfg_len ≠ 0 ∧ st.e = 0 then
      let e := env.readl k st.index
      if e = 0 then
        let cp_len := if st.cfg_len > 3 then 4 else st.len
        read_loop env k fuel
          { e := e, len := u16_sub st.len cp_len, cfg_len := u16_sub st.cfg_len cp_len,
            index := st.index + 1, copied := st.copied + cp_len }
      else read_loop env k fuel { st with e := e }
    else some st

/-- The loop `while (len && cfg_len && !e)` of the write branch of
`_i2c_xfer` for chunk `k`; `none` when the fuel does not suffice. -/
def write_loop (env : xfer_env) (k : Nat) : Nat → copy_state → Option copy_state
  | 0, st => if st.len ≠ 0 ∧ st.cfg_len ≠ 0 ∧ st.e = 0 then none else some st
  | fuel + 1, st =>
    if st.len ≠ 0 ∧ st.cfg_len ≠ 0 ∧ st.e = 0 then
      let cp_len := if st.cfg_len > 3 then 4 else st.len
      let e := env.writel k st.index
      write_loop env k fuel
        { e := e, len := u16_sub st.len cp_len, cfg_len := u16_sub st.cfg_len cp_len,
          index := st.index + 1, copied := st.copied + cp_len }
    else some st

/-- Record of one iteration of the outer loop of `_i2c_xfer` (one chunk):
`len` at the head of the iteration, the value written to `csr->cfg2`, the
`cfg_len` passed to `_write_cfg2_retryable_cfg`, the status of that call, the
number of data registers accessed and the number of bytes copied. -/
structure chunk where
  len : Nat
  cfg2 : Nat
  cfg_len : Nat
  status : Int
  words : Nat
  copied : Nat
  deriving DecidableEq, Repr

/-- The loop `while (len && !e)` of `_i2c_xfer`: `k` counts the chunks and
`cs` collects their records; the result is `e`, `len` and the records, or
`none` when the fuel does not suffice.  The value of `cfg` is not modelled. -/
def xfer_loop (env : xfer_env) (read : Bool) (bufsize : Nat) :
    Nat → Nat → Nat → Int → List chunk → Option (Int × Nat × List chunk)
  | 0, _, len, e, cs => if len ≠ 0 ∧ e = 0 then none else some (e, len, cs)
  | fuel + 1, k, len, e, cs =>
    if len ≠ 0 ∧ e = 0 then
      let cfg_len := if len > DRIVER_I2C_HW_BUF_SIZE then DRIVER_I2C_HW_BUF_SIZE else len
      let cfg2 := CiscoReg._reg_set cfg_len 26 16
      let cfg_len := if len > bufsize then bufsize else len
      if ¬ read then
        let cfg2 := CiscoReg._reg_set cfg_len 9 0
        match write_loop env k cfg_len ⟨e, len, cfg_len, 0, 0⟩ with
        | none => none
        | some st =>
          let e := env.start k
          xfer_loop env read bufsize fuel (k + 1) st.len e
            (cs ++ [⟨len, cfg2, st.cfg_len, e, st.index, st.copied⟩])
      else
        let e := env.start k
        match read_loop env k cfg_len ⟨e, len, cfg_len, 0, 0⟩ with
        | none => none
        | some st =>
          xfer_loop env read bufsize fuel (k + 1) st.len st.e
            (cs ++ [⟨len, cfg2, cfg_len, e, st.index, st.copied⟩])
    else some (e, len, cs)

/-- What a call of `_i2c_xfer` leaves: the returned `e`, the local `len`,
`msg->len`, and the records of the chunks. -/
structure xfer_result where
  status : Int
  len : Nat
  msg_len : Nat
  chunks : List chunk
  deriving DecidableEq, Repr

/-- The local `len` of `_i2c_xfer` before the loop (`start_len`): `msg->len`,
plus `I2C_SMBUS_BLOCK_MAX` in `u16` for a read with `I2C_M_RECV_LEN`. -/
def start_len (msg : i2c_msg) : Nat :=
  if msg.flags &&& I2C_M_RD ≠ 0 then
    if msg.flags &&& I2C_M_RECV_LEN ≠ 0 then (msg.len % 2 ^ 16 + I2C_SMBUS_BLOCK_MAX) % 2 ^ 16
    else msg.len % 2 ^ 16
  else msg.len % 2 ^ 16

/-- Routine `_i2c_xfer(adap, hw, msg)` with `hw->bufsize = bufsize`; `none`
when a loop does not end within its fuel. -/
def _i2c_xfer (env : xfer_env) (bufsize : Nat) (msg : i2c_msg) : Option xfer_result :=
  let read : Bool := msg.flags &&& I2C_M_RD ≠ 0
  let len := start_len msg
  let e := env.wait_done
  if e ≠ 0 then some ⟨e, len, msg.len % 2 ^ 16, []⟩
  else
    match xfer_loop env read bufsize len 0 len e [] with
    | none => none
    | some (e, len1, cs) =>
      let msg_len :=
        if e = 0 ∧ read = true ∧ msg.flags &&& I2C_M_RECV_LEN ≠ 0
            ∧ msg.len % 2 ^ 16 + env.buf0 % 2 ^ 8 ≤ len then
          (msg.len % 2 ^ 16 + env.buf0 % 2 ^ 8) % 2 ^ 16
        else msg.len % 2 ^ 16
      some ⟨e, len1, msg_len, cs⟩

/-- The `RDATASIZE` field (bits 26..16) of the value written to `cfg2`. -/
def chunk.rdatasize (c : chunk) : Nat := CiscoReg._reg_get c.cfg2 26 16

/-- Hardware on which every access of the call succeeds. -/
def demo_env_ok : xfer_env :=
  { wait_done := 0, start := fun _ => 0, readl := fun _ _ => 0, writel := fun _ _ => 0,
    buf0 := 0 }

/-- A read message of 300 bytes. -/
def demo_msg_read : i2c_msg := { addr := 0x50, flags := I2C_M_RD, len := 300 }

end CiscoI2cExt

/-!
# Cisco 8000 FPGA kernel modules: GPIO descriptors (drivers/cisco/cisco-fpga-gpio-init.c)

A shallow embedding of `_gpio_parse_descriptor`.  A descriptor is a list of
characters; the library routines it is parsed with (`strchr`, `sscanf` with
the two formats used, `strncmp`, `strcmp`, `bsearch`) are functions on such
lists, and the device is an environment answering the register accesses.
-/

namespace CiscoGpio

/-- Errno `EINVAL`. -/
def EINVAL : Int := 22

/-- Errno `ENOENT`. -/
def ENOENT : Int := 2

/-- Value `COLD_REBOOT` of `enum reboot_type_e`. -/
def COLD_REBOOT : Nat := 1

/-- Field `GPIO_IO_CFG_STAT_INTTYPE`: bits 30..28 (`hi`, `lo`). -/
def GPIO_IO_CFG_STAT_INTTYPE : Nat × Nat := (30, 28)

/-- Field `GPIO_IO_CFG_STAT_DIR`: bit 24. -/
def GPIO_IO_CFG_STAT_DIR : Nat × Nat := (24, 24)

/-- Field `GPIO_IO_CFG_STAT_DISOUTPUT`: bit 6. -/
def GPIO_IO_CFG_STAT_DISOUTPUT : Nat × Nat := (6, 6)

/-- Field `GPIO_IO_CFG_STAT_INTENB`: bit 5. -/
def GPIO_IO_CFG_STAT_INTENB : Nat × Nat := (5, 5)

/-- Field `GPIO_IO_CFG_STAT_OUTSTATE`: bit 4. -/
def GPIO_IO_CFG_STAT_OUTSTATE : Nat × Nat := (4, 4)

/-- Value `gpio_io_cfg_stat_intType__disabled`. -/
def gpio_io_cfg_stat_intType__disabled : Nat := 0

/-- Value `gpio_io_cfg_stat_intType__level_active_high`. -/
def gpio_io_cfg_stat_intType__level_active_high : Nat := 1

/-- Value `gpio_io_cfg_stat_intType__level_active_low`. -/
def gpio_io_cfg_stat_intType__level_active_low : Nat := 2

/-- Value `gpio_io_cfg_stat_intType__positive_edge`. -/
def gpio_io_cfg_stat_intType__positive_edge : Nat := 3

/-- Value `gpio_io_cfg_stat_intType__negative_edge`. -/
def gpio_io_cfg_stat_intType__negative_edge : Nat := 4

/-- Value `gpio_io_cfg_stat_intType__any_edge`. -/
def gpio_io_cfg_stat_intType__any_edge : Nat := 5

/-- Value `gpio_io_cfg_stat_dir__input`. -/
def gpio_io_cfg_stat_dir__input : Nat := 0

/-- Value `gpio_io_cfg_stat_dir__output`. -/
def gpio_io_cfg_stat_dir__output : Nat := 1

/-- Value `gpio_io_cfg_stat_disOutput__enable`. -/
def gpio_io_cfg_stat_disOutput__enable : Nat := 0

/-- Value `gpio_io_cfg_stat_disOutput__tristate`. -/
def gpio_io_cfg_stat_disOutput__tristate : Nat := 1

/-- Value `gpio_io_cfg_stat_intEnb__disable`. -/
def gpio_io_cfg_stat_intEnb__disable : Nat := 0

/-- Value `gpio_io_cfg_stat_intEnb__enable`. -/
def gpio_io_cfg_stat_intEnb__enable : Nat := 1

/-- Value `gpio_io_cfg_stat_outState__low`. -/
def gpio_io_cfg_stat_outState__low : Nat := 0

/-- Value `gpio_io_cfg_stat_outState__high`. -/
def gpio_io_cfg_stat_outState__high : Nat := 1

/-- Macro `REG_REPLACEe(field, v, d)`: `_reg_replace(v, d, hi, lo)`. -/
def REG_REPLACEe (field : Nat × Nat) (v d : Nat) : Nat := CiscoReg._reg_replace v d field.1 field.2

/-- Macro `REG_GET(field, d)`: `_reg_get(d, hi, lo)`. -/
def REG_GET (field : Nat × Nat) (d : Nat) : Nat := CiscoReg._reg_get d field.1 field.2

/-- Conversion of an `int` to `u32`. -/
def u32_of_int (e : Int) : Nat := (e % 2 ^ 32).toNat

/-- Conversion of a 32-bit pattern to `int`. -/
def int_of_u32 (v : Nat) : Int :=
  if v % 2 ^ 32 < 2 ^ 31 then ((v % 2 ^ 32 : Nat) : Int) else ((v % 2 ^ 32 : Nat) : Int) - 2 ^ 32

/-! ## Library routines: strings are lists of characters without the final NUL -/

/-- Kernel `isspace`. -/
def isspace (c : Char) : Bool :=
  c.toNat = 32 || (9 ≤ c.toNat && c.toNat ≤ 13) || c.toNat = 160

/-- Kernel `isdigit`. -/
def isdigit (c : Char) : Bool := 48 ≤ c.toNat && c.toNat ≤ 57

/-- Value of a digit of a number, letters in either case. -/
def digit_val (c : Char) : Option Nat :=
  if 48 ≤ c.toNat ∧ c.toNat ≤ 57 then some (c.toNat - 48)
  else if 97 ≤ c.toNat ∧ c.toNat ≤ 102 then some (c.toNat - 87)
  else if 65 ≤ c.toNat ∧ c.toNat ≤ 70 then some (c.toNat - 55)
  else none

/-- Kernel `skip_spaces`. -/
def skip_spaces : List Char → List Char
  | [] => []
  | c :: cs => if isspace c then skip_spaces cs else c :: cs

/-- Kernel `_parse_integer`: the digits valid in `base`, accumulated in an
`unsigned long long`, and the rest of the string. -/
def parse_digits (base : Nat) : List Char → Nat → Nat × List Char
  | [], acc => (acc, [])
  | c :: cs, acc =>
    match digit_val c with
    | some v => if v < base then parse_digits base cs ((acc * base + v) % 2 ^ 64) else (acc, c :: cs)
    | none => (acc, c :: cs)

/-- Kernel `_parse_integer_fixup_radix` for base 0: `0x` before a hex digit
gives base 16 (the prefix is skipped), another leading `0` gives base 8, else
base 10. -/
def fixup_radix (s : List Char) : Nat × List Char :=
  match s with
  | c0 :: c1 :: c2 :: rest =>
    if c0.toNat = 48 then
      if (c1.toNat = 120 ∨ c1.toNat = 88) ∧ (digit_val c2).isSome then (16, c2 :: rest)
      else (8, s)
    else (10, s)
  | c0 :: _ => if c0.toNat = 48 then (8, s) else (10, s)
  | [] => (10, s)

/-- One `%i` (`auto_base`) or `%d` conversion of the kernel `vsscanf` into an
`int`: white space is skipped, a `-` may precede the number, the first
character of the number must be a decimal digit; the result is the value and
the rest of the string, `none` when the conversion fails. -/
def scan_int (auto_base : Bool) (s : List Char) : Option (Int × List Char) :=
  let s := skip_spaces s
  let neg : Bool := s.head? = some (Char.ofNat 45)
  let body := if neg then s.drop 1 else s
  match body with
  | [] => none
  | c :: _ =>
    if ¬ isdigit c then none
    else
      let br := if auto_base then fixup_radix body else (10, body)
      let res := parse_digits br.1 br.2 0
      let u := if neg then (2 ^ 64 - res.1) % 2 ^ 64 else res.1
      some (int_of_u32 u, res.2)

/-- A literal character of a `vsscanf` format: it must be the next character
of the input. -/
def expect (c : Char) : List Char → Option (List Char)
  | [] => none
  | x :: xs => if x = c then some xs else none

/-- What `sscanf(d, "%i,%i,%i,%n", &group_id, &pin_id, &active_low, &seen)`
leaves: the returned count and the variables; `none` is a variable that the
call did not assign. -/
structure scan3 where
  n : Nat
  group_id : Option Int
  pin_id : Option Int
  active_low : Option Int
  seen : Option Nat
  deriving DecidableEq, Repr

/-- Call `sscanf(d, "%i,%i,%i,%n", &group_id, &pin_id, &active_low, &seen)`. -/
def sscanf_i3n (d : List Char) : scan3 :=
  match scan_int true d with
  | none => ⟨0, none, none, none, none⟩
  | some (g, r1) =>
    match expect (Char.ofNat 44) r1 with
    | none => ⟨1, some g, none, none, none⟩
    | some r1 =>
      match scan_int true r1 with
      | none => ⟨1, some g, none, none, none⟩
      | some (p, r2) =>
        match expect (Char.ofNat 44) r2 with
        | none => ⟨2, some g, some p, none, none⟩
        | some r2 =>
          match scan_int true r2 with
          | none => ⟨2, some g, some p, none, none⟩
          | some (a, r3) =>
            match expect (Char.ofNat 44) r3 with
            | none => ⟨3, some g, some p, some a, none⟩
            | some r3 => ⟨3, some g, some p, some a, some (d.length - r3.length)⟩

/-- Call `sscanf(d, "%d,%n", &intEnb, &seen)`: the returned count, `intEnb`
and `seen`, `none` for a variable that the call did not assign. -/
def sscanf_dn (d : List Char) : Nat × Option Int × Option Nat :=
  match scan_int false d with
  | none => (0, none, none)
  | some (e, r1) =>
    match expect (Char.ofNat 44) r1 with
    | none => (1, some e, none)
    | some r1 => (1, some e, some (d.length - r1.length))

/-- Call `strchr(d, c)`: the index of the first `c`. -/
def strchr (d : List Char) (c : Char) : Option Nat :=
  let i := d.indexOf c
  if i < d.length then some i else none

/-- Test `!strncmp(a, b, n)`. -/
def strncmp_eq : List Char → List Char → Nat → Bool
  | _, _, 0 => true
  | [], [], _ + 1 => true
  | a :: as, b :: bs, n + 1 => a = b && strncmp_eq as bs n
  | _, _, _ + 1 => false

/-- Test `!strcmp(a, b)`. -/
def strcmp_eq (a b : List Char) : Bool := a = b

/-! ## Pin table -/

/-- The element `struct k_element_t` of the pin table. -/
structure k_element_t where
  group_id : Nat
  pin_id : Nat
  offset : Nat
  count : Nat
  name : Option (List Char)
  deriving DecidableEq, Repr

/-- Comparison `_k_cmp(key, elt)`: `key->pin_id - elt->pin_id` as `int`. -/
def _k_cmp (key elt : k_element_t) : Int :=
  int_of_u32 ((key.pin_id % 2 ^ 32 + 2 ^ 32 - elt.pin_id % 2 ^ 32) % 2 ^ 32)

/-- Kernel `bsearch(key, base, num, size, cmp)` over the table: the index of
the element found. -/
def bsearch (key : k_element_t) (k_table : List k_element_t) : Nat → Nat → Nat → Option Nat
  | 0, _, _ => none
  | fuel + 1, base, num =>
    if num = 0 then none
    else
      let pivot := base + num / 2
      match k_table[pivot]? with
      | none => none
      | some elt =>
        let result := _k_cmp key elt
        if result = 0 then some pivot
        else if result > 0 then bsearch key k_table fuel (pivot + 1) ((num - 1) / 2)
        else bsearch key k_table fuel base (num / 2)

/-- Routine `_gpio_find_pin(group_id, pin_id, k_table, k_num)`: the index of
the element found. -/
def _gpio_find_pin (group_id pin_id : Nat) (k_table : List k_element_t) (k_num : Nat) :
    Option Nat :=
  bsearch ⟨group_id, pin_id, 0, 0, none⟩ k_table (k_num + 1) 0 k_num

/-! ## Routine `_gpio_parse_descriptor` -/

/-- What the device answers: `gpio_ioread32(priv, &iop[pin].cfg_stat, &v)`
gives a status and a value, `gpio_iowrite32(priv, v, &iop[pin].cfg_stat)` a
status; `m_reboot_type` is the module parameter. -/
structure gpio_env where
  ioread : Nat → Int × Nat
  iowrite : Nat → Nat → Int
  m_reboot_type : Nat

/-- What a call of `_gpio_parse_descriptor` leaves: the returned `int`,
`*namep` if it was set, the value `v` computed for `cfg_stat` if the call got
that far, the pin and value of the `gpio_iowrite32` if one was made, and the
pin table. -/
structure parse_result where
  ret : Int
  namep : Option (List Char)
  v : Option Nat
  written : Option (Nat × Nat)
  k_table : List k_element_t
  deriving DecidableEq, Repr

/-- The `strcmp` chain on the interrupt type of an input pin: the new `v`,
and the value assigned to the local `intType` (which is not read afterwards),
`none` when it is not assigned. -/
def parse_int_type (v : Nat) (d : List Char) : Nat × Option Nat :=
  if strcmp_eq d "disable".data then
    (REG_REPLACEe GPIO_IO_CFG_STAT_INTTYPE v gpio_io_cfg_stat_intType__disabled, none)
  else if strcmp_eq d "level-high".data then
    (v, some (REG_REPLACEe GPIO_IO_CFG_STAT_INTTYPE v gpio_io_cfg_stat_intType__level_active_high))
  else if strcmp_eq d "level-low".data then
    (v, some (REG_REPLACEe GPIO_IO_CFG_STAT_INTTYPE v gpio_io_cfg_stat_intType__level_active_low))
  else if strcmp_eq d "positive-edge".data then
    (v, some (REG_REPLACEe GPIO_IO_CFG_STAT_INTTYPE v gpio_io_cfg_stat_intType__positive_edge))
  else if strcmp_eq d "negative-edge".data then
    (v, some (REG_REPLACEe GPIO_IO_CFG_STAT_INTTYPE v gpio_io_cfg_stat_intType__negative_edge))
  else if strcmp_eq d "any-edge".data then
    (v, some (REG_REPLACEe GPIO_IO_CFG_STAT_INTTYPE v gpio_io_cfg_stat_intType__any_edge))
  else
    (v, some (REG_REPLACEe GPIO_IO_CFG_STAT_INTTYPE v gpio_io_cfg_stat_intType__disabled))

/-- The `in,` branch after its `sscanf`: `v` read from `cfg_stat`, the parsed
`intEnb` and the rest `d` of the descriptor give the new `v`. -/
def in_cfg_stat (v : Nat) (intEnb : Int) (d : List Char) : Nat :=
  let v :=
    if intEnb ≠ 0 then REG_REPLACEe GPIO_IO_CFG_STAT_INTENB v gpio_io_cfg_stat_intEnb__enable
    else REG_REPLACEe GPIO_IO_CFG_STAT_INTENB v gpio_io_cfg_stat_intEnb__disable
  let v := (parse_int_type v d).1
  REG_REPLACEe GPIO_IO_CFG_STAT_DIR v gpio_io_cfg_stat_dir__input

/-- The `out,` branch after its `strchr`: `len` is the length of the first
word of `d`. -/
def out_cfg_stat (v : Nat) (d : List Char) (len : Nat) : Nat :=
  let v :=
    if strncmp_eq d "enable".data len then
      REG_REPLACEe GPIO_IO_CFG_STAT_DISOUTPUT v gpio_io_cfg_stat_disOutput__enable
    else if strncmp_eq d "tristate".data len then
      REG_REPLACEe GPIO_IO_CFG_STAT_DISOUTPUT v gpio_io_cfg_stat_disOutput__tristate
    else REG_REPLACEe GPIO_IO_CFG_STAT_DISOUTPUT v gpio_io_cfg_stat_disOutput__tristate
  let d := d.drop (len + 1)
  let v :=
    if strcmp_eq d "low".data then
      REG_REPLACEe GPIO_IO_CFG_STAT_OUTSTATE v gpio_io_cfg_stat_outState__low
    else if strcmp_eq d "high".data then
      REG_REPLACEe GPIO_IO_CFG_STAT_OUTSTATE v gpio_io_cfg_stat_outState__high
    else REG_REPLACEe GPIO_IO_CFG_STAT_OUTSTATE v gpio_io_cfg_stat_outState__low
  REG_REPLACEe GPIO_IO_CFG_STAT_DIR v gpio_io_cfg_stat_dir__output

/-- The end of `_gpio_parse_descriptor`: the write of `v` on a cold reboot
and the return of `pin`. -/
def parse_finish (env : gpio_env) (namep : List Char) (k_table : List k_element_t)
    (pin v : Nat) : parse_result :=
  if env.m_reboot_type = COLD_REBOOT then
    let rc := env.iowrite pin v
    if rc ≠ 0 then ⟨rc, some namep, some v, some (pin, v), k_table⟩
    else ⟨(pin : Int), some namep, some v, some (pin, v), k_table⟩
  else ⟨(pin : Int), some namep, some v, none, k_table⟩

/-- Routine `_gpio_parse_descriptor(pdev, d, namep, k_table, k_num)`; `none`
when the C code reads the variable `seen` without having assigned it or moves
`d` past the end of the string. -/
def _gpio_parse_descriptor (env : gpio_env) (d : List Char) (k_table : List k_element_t)
    (k_num : Nat) : Option parse_result :=
  match strchr d (Char.ofNat 44) with
  | none => some ⟨-EINVAL, none, none, none, k_table⟩
  | some len =>
    let namep := d.take len
    let d := d.drop (len + 1)
    let sc := sscanf_i3n d
    if sc.n < 3 then some ⟨-EINVAL, some namep, none, none, k_table⟩
    else
      match sc.group_id, sc.pin_id with
      | some group_id, some pin_id =>
        match _gpio_find_pin (u32_of_int group_id) (u32_of_int pin_id) k_table k_num with
        | none => some ⟨-ENOENT, some namep, none, none, k_table⟩
        | some idx =>
          match k_table[idx]? with
          | none => none
          | some elt =>
            let pin := elt.offset
            let k_table := k_table.set idx
              { elt with count := (elt.count + 1) % 2 ^ 16,
                         name := if elt.name.isSome then elt.name else some namep }
            match sc.seen with
            | none => none
            | some seen =>
              let d := d.drop seen
              let rd := env.ioread pin
              if rd.1 ≠ 0 then some ⟨rd.1, some namep, none, none, k_table⟩
              else
                let v := rd.2 % 2 ^ 32
                if strncmp_eq d "in,".data 3 then
                  let d := d.drop 3
                  let sd := sscanf_dn d
                  match sd.2.1 with
                  | none => some ⟨-EINVAL, some namep, none, none, k_table⟩
                  | some intEnb =>
                    let seen := sd.2.2.getD seen
                    if seen > d.length then none
                    else some (parse_finish env namep k_table pin (in_cfg_stat v intEnb (d.drop seen)))
                else if strncmp_eq d "out,".data 4 then
                  let d := d.drop 4
                  match strchr d (Char.ofNat 44) with
                  | none => some ⟨-EINVAL, some namep, none, none, k_table⟩
                  | some len => some (parse_finish env namep k_table pin (out_cfg_stat v d len))
                else some (parse_finish env namep k_table pin v)
      | _, _ => none

/-- The input types that the claim lists. -/
def in_types : List (List Char × Nat) :=
  [("level-high".data, 1), ("level-low".data, 2), ("positive-edge".data, 3),
   ("negative-edge".data, 4), ("any-edge".data, 5)]

/-- A pin table with one pin: group 1, pin id 2, at offset 7. -/
def demo_k_table : List k_element_t := [⟨1, 2, 7, 0, none⟩]

/-- A device on a cold reboot whose `cfg_stat` registers read 0 and whose
accesses succeed. -/
def demo_gpio_env : gpio_env :=
  { ioread := fun _ => (0, 0), iowrite := fun _ _ => 0, m_reboot_type := COLD_REBOOT }

/-- The descriptor `sfp,1,2,0,in,1,level-high`. -/
def demo_descriptor : List Char := "sfp,1,2,0,in,1,level-high".data

end CiscoGpio


/-! # Theorems -/

namespace CiscoMfd

/-! ## Capability lookup -/

/-- The first loop over a table made of rows with non-zero id followed by a row with id 0. -/
theorem blk_match_ids_append (id : Int) (filter : Nat) (fb : List cisco_fpga_blk)
    (b0 : cisco_fpga_blk) (rest : List cisco_fpga_blk) (hfb : fb = b0 :: rest) (h0 : b0.id = 0) :
    ∀ l : List cisco_fpga_blk, (∀ b ∈ l, b.id ≠ 0) →
      blk_match_ids id filter (l ++ fb) =
        match l.find? (fun b => decide (b.id = id ∧ (b.filter &&& filter) ≠ 0)) with
        | some b => some (Sum.inl b)
        | none => some (Sum.inr fb) := by
  intro l
  induction l with
  | nil =>
    intro _
    subst hfb
    simp [blk_match_ids, h0]
  | cons b l ih =>
    intro hl
    have hb : b.id ≠ 0 := hl b (List.mem_cons_self _ _)
    have hl2 : ∀ x ∈ l, x.id ≠ 0 := fun x hx => hl x (List.mem_cons_of_mem _ hx)
    by_cases hp : b.id = id ∧ (b.filter &&& filter) ≠ 0
    · have hid : ¬ id = 0 := fun h => hb (hp.1.trans h)
      simp [blk_match_ids, hp, hid, List.find?]
    · simp only [List.cons_append, blk_match_ids, hb, hp, List.find?, ne_eq, not_false_eq_true,
        if_true, if_false, decide_False]
      exact ih hl2

/-- The table is 34 rows with non-zero id followed by the four fallback rows. -/
theorem table_split : cisco_fpga_blks = cisco_fpga_blks.take 34 ++
    [fallback_passive, fallback_pci, fallback_regmap, fallback_unknown] := by decide

/-- The first 34 rows have non-zero ids. -/
theorem main_rows_ids : ∀ b ∈ cisco_fpga_blks.take 34, b.id ≠ 0 := by decide

/-- The second loop over the four fallback rows. -/
theorem blk_match_fallback_rows (filter : Nat) :
    blk_match_fallback filter [fallback_passive, fallback_pci, fallback_regmap, fallback_unknown] =
      some (fallback_choice filter) := by
  simp only [blk_match_fallback, fallback_choice, fallback_passive, fallback_pci, fallback_regmap,
    fallback_unknown, CISCO_MFD_CELLS_FILTER_PASSIVE_SLOT, CISCO_MFD_CELLS_FILTER_PCI,
    CISCO_MFD_CELLS_FILTER_REGMAP]
  split_ifs <;> simp_all

/-- The two loops of the lookup, run over the table: a search of the 34 rows
with non-zero id, then the fallback choice. -/
theorem blk_match_unfold (id : Int) (filter : Nat) :
    cisco_fpga_blk_match id filter =
      some (match (cisco_fpga_blks.take 34).find?
          (fun b => decide (b.id = id ∧ (b.filter &&& filter) ≠ 0)) with
        | some b => b
        | none => { fallback_choice filter with id := id }) := by
  have hsplit := table_split
  have hmain := main_rows_ids
  generalize cisco_fpga_blks.take 34 = main at hsplit hmain
  have hids := blk_match_ids_append id filter
    [fallback_passive, fallback_pci, fallback_regmap, fallback_unknown]
    fallback_passive [fallback_pci, fallback_regmap, fallback_unknown] rfl rfl main hmain
  unfold cisco_fpga_blk_match
  rw [hsplit, hids]
  cases main.find? (fun b => decide (b.id = id ∧ (b.filter &&& filter) ≠ 0)) with
  | some b => rfl
  | none => simp only [blk_match_fallback_rows]

/-- The lookup always returns a row, and the row carries the requested id. -/
theorem blk_match_total (id : Int) (filter : Nat) :
    ∃ blk, cisco_fpga_blk_match id filter = some blk ∧ blk.id = id := by
  refine ⟨_, blk_match_unfold id filter, ?_⟩
  split
  · rename_i b hb
    have := List.find?_some hb
    simp only [decide_eq_true_eq] at this
    exact this.1
  · rfl

/-- C5: `cisco_fpga_blk_match(id, filter)` returns for every `id` and `filter`,
and what it returns is the row the specification describes: the first table
row with that non-zero id and an intersecting filter, else a copy, carrying
the requested id, of the first fallback row with an intersecting filter
(nameless PASSIVE_SLOT, `cisco-fpga-uio`, `cisco-bmc-uio`) or of
`cisco-unknown-uio`. -/
theorem cisco_fpga_blk_match_refines_spec (id : Int) (filter : Nat) :
    cisco_fpga_blk_match id filter = some (blk_match_spec id filter) := by
  rw [blk_match_unfold]
  have hsplit := table_split
  have hmain := main_rows_ids
  generalize cisco_fpga_blks.take 34 = main at hsplit hmain
  have hfind : cisco_fpga_blks.find?
      (fun b => decide (b.id = id ∧ id ≠ 0 ∧ (b.filter &&& filter) ≠ 0)) =
      main.find? (fun b => decide (b.id = id ∧ (b.filter &&& filter) ≠ 0)) := by
    rw [hsplit, List.find?_append]
    have h1 : main.find? (fun b => decide (b.id = id ∧ id ≠ 0 ∧ (b.filter &&& filter) ≠ 0)) =
        main.find? (fun b => decide (b.id = id ∧ (b.filter &&& filter) ≠ 0)) := by
      clear hsplit
      induction main with
      | nil => rfl
      | cons b l ih =>
        have hb : b.id ≠ 0 := hmain b (List.mem_cons_self _ _)
        have hl : ∀ x ∈ l, x.id ≠ 0 := fun x hx => hmain x (List.mem_cons_of_mem _ hx)
        have hiff : (b.id = id ∧ id ≠ 0 ∧ (b.filter &&& filter) ≠ 0) ↔
            (b.id = id ∧ (b.filter &&& filter) ≠ 0) :=
          ⟨fun h => ⟨h.1, h.2.2⟩, fun h => ⟨h.1, fun h0 => hb (h.1.trans h0), h.2⟩⟩
        simp only [List.find?, decide_eq_decide.mpr hiff, ih hl]
    have h2 : [fallback_passive, fallback_pci, fallback_regmap, fallback_unknown].find?
        (fun b => decide (b.id = id ∧ id ≠ 0 ∧ (b.filter &&& filter) ≠ 0)) = none := by
      simp only [List.find?_eq_none, List.mem_cons, List.mem_singleton, decide_eq_true_eq]
      intro b hb hcon
      have : b.id = 0 := by
        rcases hb with h | h | h | h | h
        · rw [h]; rfl
        · rw [h]; rfl
        · rw [h]; rfl
        · rw [h]; rfl
        · simp at h
      exact hcon.2.1 (hcon.1.symm.trans this)
    rw [h1, h2]
    cases main.find? (fun b => decide (b.id = id ∧ (b.filter &&& filter) ≠ 0)) <;> rfl
  unfold blk_match_spec
  rw [hfind]

/-! ## Cell synthesis -/

/-- The frame relation is reflexive. -/
theorem same_frame_refl (a : cell_metadata) : same_frame a a :=
  ⟨rfl, rfl, rfl, rfl, rfl, rfl, rfl, rfl, rfl⟩

/-- The frame relation is transitive. -/
theorem same_frame_trans {a b c : cell_metadata} (h1 : same_frame a b) (h2 : same_frame b c) :
    same_frame a c := by
  obtain ⟨a1, a2, a3, a4, a5, a6, a7, a8, a9⟩ := h1
  obtain ⟨b1, b2, b3, b4, b5, b6, b7, b8, b9⟩ := h2
  exact ⟨a1.trans b1, a2.trans b2, a3.trans b3, a4.trans b4, a5.trans b5, a6.trans b6,
    a7.trans b7, a8.trans b8, a9.trans b9⟩

/-- Committing a cell appends it, with the IRQ resources after its own, and
leaves the frame and the interrupt resource alone. -/
theorem fwnode_config_commit_spec (meta : cell_metadata) (blk : cisco_fpga_blk) (cell : mfd_cell) :
    same_frame meta (fwnode_config_commit meta blk cell) ∧
    (fwnode_config_commit meta blk cell).intr = meta.intr ∧
    ∃ c, (fwnode_config_commit meta blk cell).cells = meta.cells ++ [c] ∧
      c.resources = cell.resources ++ irq_resources meta.max_irqs blk.num_irqs blk.irq_set ∧
      c.of_reg = cell.of_reg ∧ c.acpi_match_adr = cell.acpi_match_adr ∧ c.name = cell.name ∧
      (c.id = cell.id ∨ c.id = PLATFORM_DEVID_AUTO) :=
  ⟨⟨rfl, rfl, rfl, rfl, rfl, rfl, rfl, rfl, rfl⟩, rfl, _, rfl, rfl, rfl, rfl, rfl, by
    simp only
    split_ifs
    · exact Or.inr rfl
    · exact Or.inl rfl⟩

/-- Routine `_fwnode_config` on a row other than the interrupt row: it always
returns; it returns 1 with the metadata untouched, or 0 after appending one
cell whose first resource is the memory window, followed by the IRQ
resources of the row. -/
theorem fwnode_config_regular (meta : cell_metadata) (blk : cisco_fpga_blk) (absoff nxtoff : Nat)
    (blk_id : Int) (h38 : blk.id ≠ 38) :
    ∃ ret m1, _fwnode_config meta blk absoff nxtoff blk_id = Except.ok (ret, m1) ∧
      same_frame meta m1 ∧ m1.intr = meta.intr ∧
      ((ret = 1 ∧ m1 = meta) ∨
       (ret = 0 ∧ meta.ncells < meta.max_cells ∧ ∃ c, m1.cells = meta.cells ++ [c] ∧
          c.of_reg = absoff ∧ c.acpi_match_adr = absoff ∧
          c.resources = mem_window meta.resource_template absoff nxtoff ::
            irq_resources meta.max_irqs blk.num_irqs blk.irq_set)) := by
  unfold _fwnode_config
  by_cases hfull : meta.ncells ≥ meta.max_cells
  · exact ⟨1, meta, by simp [hfull], same_frame_refl _, rfl, Or.inl ⟨rfl, rfl⟩⟩
  · have hlt : meta.ncells < meta.max_cells := Nat.lt_of_not_ge hfull
    simp only [hfull, if_false, h38]
    split
    · exact ⟨0, _, rfl, ⟨rfl, rfl, rfl, rfl, rfl, rfl, rfl, rfl, rfl⟩, rfl,
        Or.inr ⟨rfl, hlt, _, rfl, rfl, rfl, rfl⟩⟩
    · split_ifs
      · exact ⟨1, meta, rfl, same_frame_refl _, rfl, Or.inl ⟨rfl, rfl⟩⟩
      · exact ⟨1, meta, rfl, same_frame_refl _, rfl, Or.inl ⟨rfl, rfl⟩⟩
      · split
        · exact ⟨0, _, rfl, ⟨rfl, rfl, rfl, rfl, rfl, rfl, rfl, rfl, rfl⟩, rfl,
            Or.inr ⟨rfl, hlt, _, rfl, rfl, rfl, rfl⟩⟩
        · exact ⟨0, _, rfl, ⟨rfl, rfl, rfl, rfl, rfl, rfl, rfl, rfl, rfl⟩, rfl,
            Or.inr ⟨rfl, hlt, _, rfl, rfl, rfl, rfl⟩⟩
        · exact ⟨0, _, rfl, ⟨rfl, rfl, rfl, rfl, rfl, rfl, rfl, rfl, rfl⟩, rfl,
            Or.inr ⟨rfl, hlt, _, rfl, rfl, rfl, rfl⟩⟩

/-- Routine `_fwnode_config` on the interrupt row `_irq_blk`. -/
theorem fwnode_config_irq (meta : cell_metadata) (absoff nxtoff : Nat) (blk_id : Int) :
    _fwnode_config meta _irq_blk absoff nxtoff blk_id =
      if meta.ncells ≥ meta.max_cells then Except.ok (1, meta)
      else if meta.intr.isSome then Except.error Fail.bug
      else Except.ok (0, { meta with
        intr := some (mem_window meta.resource_template absoff nxtoff)
        res_used := meta.res_used + 1 }) := by
  simp [_fwnode_config, _irq_blk, mem_window]

/-! ## Main walk -/

/-- What a returning iteration of the main loop has done. -/
theorem walk_body_ok {r : Regmap} {filter info_ver i nxtoff : Nat} {meta : cell_metadata}
    {st : walk_step} (h : walk_body r filter info_ver i nxtoff meta = Except.ok st) :
    ∃ bo hdr, meta.block_offset[i]? = some bo ∧ read_hdr r nxtoff = Except.ok hdr ∧
      st.nxtoff = (nxtoff + bo * 256) % 2 ^ 32 ∧
      same_frame meta st.meta ∧
      st.meta.cells = meta.cells ++ st.cell.toList ∧
      (st.stop = true ↔ (hdr.magic = CISCO_FPGA_MAGIC ∧ hdr.id = 255)) ∧
      (st.stop = true → st.meta = meta ∧ st.cell = none) ∧
      (∀ c, st.cell = some c → meta.ncells < meta.max_cells ∧ c.of_reg = nxtoff ∧
        hdr.magic = CISCO_FPGA_MAGIC ∧ hdr.id ≠ 38 ∧
        ∃ blk, cisco_fpga_blk_match hdr.id filter = some blk ∧
        c.resources = mem_window meta.resource_template nxtoff st.nxtoff ::
          irq_resources meta.max_irqs blk.num_irqs blk.irq_set) := by
  unfold walk_body at h
  cases hbo : meta.block_offset[i]? with
  | none => simp [hbo] at h
  | some bo =>
    cases hrd : read_hdr r nxtoff with
    | error e => simp [hbo, hrd] at h
    | ok hdr =>
      simp only [hbo, hrd] at h
      refine ⟨bo, hdr, rfl, rfl, ?_⟩
      by_cases hmagic : hdr.magic = CISCO_FPGA_MAGIC
      · simp only [hmagic, ne_eq, not_true_eq_false, if_false] at h
        by_cases h255 : hdr.id = 255
        · simp only [h255, if_true] at h
          injection h with h
          subst h
          simp [same_frame_refl, hmagic, h255]
        · simp only [h255, if_false] at h
          by_cases h38 : hdr.id = 38
          · simp only [h38, if_true, fwnode_config_irq] at h
            split_ifs at h
            · injection h with h
              subst h
              simp [same_frame_refl, hmagic, h255]
            · injection h with h
              subst h
              simp [hmagic, h255, same_frame]
          · simp only [h38, if_false] at h
            obtain ⟨blk, hblk, hblkid⟩ := blk_match_total hdr.id filter
            rw [hblk] at h
            simp only at h
            have hid : blk.id ≠ 38 := by
              rw [hblkid]
              exact_mod_cast h38
            split_ifs at h with hname
            · injection h with h
              subst h
              simp [same_frame_refl, hmagic, h255]
            · obtain ⟨ret, m1, hcfg, hframe, _, hcase⟩ :=
                fwnode_config_regular meta blk nxtoff
                  ((nxtoff + bo * 256) % 2 ^ 32) hdr.id hid
              rw [hcfg] at h
              simp only at h
              injection h with h
              subst h
              rcases hcase with ⟨hret, hm⟩ | ⟨hret, hlt, c, hc, hof, _, hres⟩
              · subst hret hm
                simp [same_frame_refl, hmagic, h255]
              · subst hret
                have hget : m1.cells[meta.ncells]? = some c := by
                  rw [hc, cell_metadata.ncells]
                  simp
                rw [if_pos rfl, hget]
                refine ⟨rfl, hframe, by simp [hc], by simp [h255], by simp, ?_⟩
                intro c1 hc1
                injection hc1 with hc1
                subst hc1
                exact ⟨hlt, hof, hmagic, h38, blk, hblk, hres⟩
      · simp only [hmagic, ne_eq, not_false_eq_true, if_true] at h
        split_ifs at h
        · rw [fwnode_config_irq] at h
          split_ifs at h
          · injection h with h
            subst h
            simp [same_frame_refl, hmagic]
          · injection h with h
            subst h
            simp [hmagic, same_frame]
        · injection h with h
          subst h
          simp [same_frame_refl, hmagic]
        · injection h with h
          subst h
          simp [same_frame_refl, hmagic]

/-- One more table entry adds 256 times that entry to the cumulative offset. -/
theorem cum_off_succ {bo : List Nat} {k b : Nat} (h : bo[k]? = some b) :
    cum_off bo (k + 1) = cum_off bo k + 256 * b := by
  unfold cum_off
  have hk : k < bo.length := by
    by_contra hcon
    rw [List.getElem?_eq_none (Nat.le_of_not_lt hcon)] at h
    exact Option.noConfusion h
  have hb : bo[k] = b := by
    rw [List.getElem?_eq_getElem hk] at h
    exact Option.some.inj h
  rw [List.sum_take_succ bo k hk, hb, Nat.mul_add]

/-- What a returning main walk has done: the visits it adds have consecutive
indices from `i`, the cells it adds are those of the visits, a visit whose
header is the terminal block is the last one and emits nothing, every emitted
cell starts with the memory window of its block, and the offsets are the
cumulative table offsets modulo `2 ^ 32`. -/
theorem walk_loop_ok {r : Regmap} {filter info_ver : Nat} :
    ∀ (n i nxtoff : Nat) (meta : cell_metadata) (vs : List visit) (m : cell_metadata)
      (out : List visit),
    walk_loop r filter info_ver n i nxtoff meta vs = Except.ok (m, out) →
    ∃ new, out = vs ++ new ∧ new.length ≤ n ∧
      new.map visit.idx = List.range' i new.length ∧
      same_frame meta m ∧ m.cells = meta.cells ++ new.filterMap visit.cell ∧
      (∀ v ∈ new, ∃ bo hdr, meta.block_offset[v.idx]? = some bo ∧
        read_hdr r v.absoff = Except.ok hdr ∧
        ((hdr.magic = CISCO_FPGA_MAGIC ∧ hdr.id = 255) →
          v.cell = none ∧ ∀ w ∈ new, w.idx ≤ v.idx) ∧
        (∀ c, v.cell = some c → c.of_reg = v.absoff ∧ hdr.magic = CISCO_FPGA_MAGIC ∧
          hdr.id ≠ 38 ∧ hdr.id ≠ 255 ∧
          ∃ blk, cisco_fpga_blk_match hdr.id filter = some blk ∧
            c.resources = mem_window meta.resource_template v.absoff
                ((v.absoff + bo * 256) % 2 ^ 32) ::
              irq_resources meta.max_irqs blk.num_irqs blk.irq_set)) ∧
      (nxtoff = cum_off meta.block_offset i % 2 ^ 32 →
        ∀ v ∈ new, v.absoff = cum_off meta.block_offset v.idx % 2 ^ 32) := by
  intro n
  induction n with
  | zero =>
    intro i nxtoff meta vs m out h
    simp only [walk_loop] at h
    injection h with h
    injection h with h1 h2
    subst h1 h2
    exact ⟨[], by simp, by simp, by simp, same_frame_refl _, by simp, by simp, by simp⟩
  | succ n ih =>
    intro i nxtoff meta vs m out h
    simp only [walk_loop] at h
    cases hbody : walk_body r filter info_ver i nxtoff meta with
    | error f => simp [hbody] at h
    | ok st =>
      simp only [hbody] at h
      obtain ⟨bo, hdr, hbo, hrd, hnxt, hframe, hcells, hstop, hstopm, hcell⟩ := walk_body_ok hbody
      have hv0 : ∀ c, st.cell = some c → c.of_reg = nxtoff ∧ hdr.magic = CISCO_FPGA_MAGIC ∧
          hdr.id ≠ 38 ∧ hdr.id ≠ 255 ∧
          ∃ blk, cisco_fpga_blk_match hdr.id filter = some blk ∧
            c.resources = mem_window meta.resource_template nxtoff
                ((nxtoff + bo * 256) % 2 ^ 32) ::
              irq_resources meta.max_irqs blk.num_irqs blk.irq_set := by
        intro c hc
        obtain ⟨_, h1, h2, h3, blk, h4, h5⟩ := hcell c hc
        refine ⟨h1, h2, h3, ?_, blk, h4, hnxt ▸ h5⟩
        intro h255
        have := (hstopm (hstop.mpr ⟨h2, h255⟩)).2
        rw [hc] at this
        exact Option.noConfusion this
      by_cases hs : st.stop = true
      · rw [if_pos hs] at h
        injection h with h
        injection h with h1 h2
        subst h1 h2
        obtain ⟨hm, hnone⟩ := hstopm hs
        refine ⟨[⟨i, nxtoff, st.cell⟩], rfl, by simp, by simp [List.range'], ?_, ?_, ?_, ?_⟩
        · rw [hm]; exact same_frame_refl _
        · rw [hm, hnone]; simp
        · intro v hv
          rw [List.mem_singleton] at hv
          subst hv
          refine ⟨bo, hdr, hbo, hrd, ?_, hv0⟩
          intro _
          refine ⟨hnone, ?_⟩
          intro w hw
          rw [List.mem_singleton] at hw
          subst hw
          exact Nat.le_refl _
        · intro hoff v hv
          rw [List.mem_singleton] at hv
          subst hv
          exact hoff
      · rw [if_neg hs] at h
        obtain ⟨new, hout, hlen, hidx, hframe2, hcells2, hvis, hoffs⟩ :=
          ih (i + 1) st.nxtoff st.meta (vs ++ [⟨i, nxtoff, st.cell⟩]) m out h
        obtain ⟨f1, f2, f3, f4, f5, f6, f7, f8, f9⟩ := hframe
        have hge : ∀ w ∈ new, i + 1 ≤ w.idx := by
          intro w hw
          have : w.idx ∈ new.map visit.idx := List.mem_map_of_mem _ hw
          rw [hidx, List.mem_range'_1] at this
          exact this.1
        refine ⟨⟨i, nxtoff, st.cell⟩ :: new, by simp [hout], by simpa using hlen, ?_,
          same_frame_trans ⟨f1, f2, f3, f4, f5, f6, f7, f8, f9⟩ hframe2, ?_, ?_, ?_⟩
        · simp [List.range', hidx]
        · rw [hcells2, hcells]
          cases hc : st.cell <;> simp [List.filterMap_cons, hc]
        · intro v hv
          rcases List.mem_cons.mp hv with hv | hv
          · subst hv
            refine ⟨bo, hdr, hbo, hrd, ?_, hv0⟩
            intro hterm
            exact absurd (hstop.mpr hterm) hs
          · obtain ⟨bo2, hdr2, hbo2, hrd2, hterm2, hcell2⟩ := hvis v hv
            refine ⟨bo2, hdr2, f1 ▸ hbo2, hrd2, ?_, ?_⟩
            · intro hterm
              obtain ⟨hn, hall⟩ := hterm2 hterm
              refine ⟨hn, ?_⟩
              intro w hw
              rcases List.mem_cons.mp hw with hw | hw
              · subst hw
                exact Nat.le_of_succ_le (hge v hv)
              · exact hall w hw
            · intro c hc
              have := hcell2 c hc
              rw [← f5, ← f3] at this
              exact this
        · intro hoff v hv
          rcases List.mem_cons.mp hv with hv | hv
          · subst hv
            exact hoff
          · have hnext : st.nxtoff = cum_off st.meta.block_offset (i + 1) % 2 ^ 32 := by
              rw [← f1, cum_off_succ hbo, hnxt, hoff, Nat.mul_comm bo 256]
              exact Nat.mod_add_mod _ _ _
            have := hoffs hnext v hv
            rw [← f1] at this
            exact this

/-! ## Set-up steps of `cisco_fpga_mfd_cells` -/

/-- Routine `_init_metadata` called with `ARRAY_SIZE(meta->block_offset) - 1`
blocks never returns metadata: the incremented count 256 meets the bound of
the `bad num_blocks` test. -/
theorem init_metadata_255 (fw : Option fw_node) (kzalloc_ok : Bool) (tmpl : resource)
    (pdata pdata_size debug : Nat) :
    _init_metadata fw kzalloc_ok (BLOCK_OFFSET_ENTRIES - 1) tmpl pdata pdata_size debug =
      Except.error (Fail.errno (if kzalloc_ok then -EINVAL else -ENOMEM)) := by
  cases kzalloc_ok <;> simp [_init_metadata, BLOCK_OFFSET_ENTRIES]

/-- What `_init_metadata` returns when it returns metadata. -/
theorem init_metadata_ok {fw : Option fw_node} {kzalloc_ok : Bool} {n : Nat} {tmpl : resource}
    {pdata pdata_size debug : Nat} {meta : cell_metadata}
    (h : _init_metadata fw kzalloc_ok n tmpl pdata pdata_size debug = Except.ok meta) :
    meta.cells = [] ∧ meta.intr = none ∧ meta.max_cells = (n + 1) % 2 ^ 32 ∧
      meta.max_cells < BLOCK_OFFSET_ENTRIES ∧ meta.resource_template = tmpl ∧
      meta.res_used = 0 ∧ meta.match_used = 0 ∧ meta.name_used = 0 ∧
      (fw = none → meta.child = []) := by
  unfold _init_metadata at h
  simp only at h
  split_ifs at h with h1 h2
  have hlt : (n + 1) % 2 ^ 32 < BLOCK_OFFSET_ENTRIES := Nat.lt_of_not_ge h2
  cases fw with
  | none =>
    simp only at h
    injection h with h
    subst h
    exact ⟨rfl, rfl, rfl, hlt, rfl, rfl, rfl, rfl, fun _ => rfl⟩
  | some p =>
    simp only at h
    injection h with h
    subst h
    exact ⟨rfl, rfl, rfl, hlt, rfl, rfl, rfl, rfl, fun hc => Option.noConfusion hc⟩

/-- The pre-scan loop only writes `max_irqs`. -/
theorem setup_max_irqs_loop_ok {r : Regmap} {meta : cell_metadata} {info : info_rom} :
    ∀ (n i nxtoff : Nat) (m1 : cell_metadata),
    setup_max_irqs_loop r meta info n i nxtoff = Except.ok m1 →
    ∃ x, m1 = { meta with max_irqs := x } := by
  intro n
  induction n with
  | zero =>
    intro i nxtoff m1 h
    simp only [setup_max_irqs_loop] at h
    injection h with h
    exact ⟨0, h.symm⟩
  | succ n ih =>
    intro i nxtoff m1 h
    simp only [setup_max_irqs_loop] at h
    split at h
    · exact Except.noConfusion h
    · split at h
      · exact Except.noConfusion h
      · split_ifs at h
        all_goals first
          | exact Except.noConfusion h
          | exact ih _ _ _ h
          | (injection h with h; exact ⟨_, h.symm⟩)

/-- Every entry of the table read from the device is a 16-bit value. -/
theorem u16_of_words_lt : ∀ (ws : List Nat) (x : Nat), x ∈ u16_of_words ws → x < 65536
  | [], x, h => by simp [u16_of_words] at h
  | w :: ws, x, h => by
    simp only [u16_of_words, List.mem_cons] at h
    rcases h with h | h | h
    · rw [h]; exact Nat.mod_lt _ (by norm_num)
    · rw [h]; exact Nat.mod_lt _ (by norm_num)
    · exact u16_of_words_lt ws x h

/-! ## Deduplication pass -/

/-- The inner loop marks the cells that carry the given name and id, and
reports whether there was one. -/
theorem dedup_inner_eq (name : Option String) (cid : Int) : ∀ cs : List mfd_cell,
    dedup_inner name cid cs =
      (cs.map (fun c => if name = c.name ∧ cid = c.id then
          { c with id := PLATFORM_DEVID_AUTO } else c),
        cs.any (fun c => decide (name = c.name ∧ cid = c.id)))
  | [] => rfl
  | c :: cs => by
    unfold dedup_inner
    rw [dedup_inner_eq name cid cs]
    by_cases h1 : name = c.name
    · by_cases h2 : cid = c.id
      · simp [h1, h2]
      · simp [h1, h2]
    · simp [h1]

/-- The outer loop keeps the number of cells. -/
theorem dedup_outer_length : ∀ (n : Nat) (cs : List mfd_cell),
    (dedup_outer n cs).length = cs.length := by
  intro n
  induction n with
  | zero => intro cs; rfl
  | succ n ih =>
    intro cs
    cases cs with
    | nil => rfl
    | cons c cs =>
      unfold dedup_outer
      split_ifs
      · simp [ih]
      · simp [ih, dedup_inner_eq]

/-- Pointwise description of the outer loop: the cell at index `i` keeps every
field but its id, which becomes AUTO exactly when the cell had an explicit id
shared, with its name, by another cell of the list. -/
theorem dedup_outer_get : ∀ (n : Nat) (cs : List mfd_cell), cs.length ≤ n →
    ∀ (i : Nat) (x : mfd_cell), cs[i]? = some x →
    ∃ x1, (dedup_outer n cs)[i]? = some x1 ∧ x1 = { x with id := x1.id } ∧
      (has_duplicate cs i x → x1.id = PLATFORM_DEVID_AUTO) ∧
      (¬ has_duplicate cs i x → x1.id = x.id) := by
  intro n
  induction n with
  | zero =>
    intro cs hlen i x hx
    have : cs = [] := List.eq_nil_of_length_eq_zero (Nat.le_zero.mp hlen)
    subst this
    simp at hx
  | succ n ih =>
    intro cs hlen i x hx
    cases cs with
    | nil => simp at hx
    | cons c cs =>
      have hlen2 : cs.length ≤ n := by simpa using hlen
      unfold dedup_outer
      by_cases hauto : c.id = PLATFORM_DEVID_AUTO
      · rw [if_pos hauto]
        cases i with
        | zero =>
          simp only [List.getElem?_cons_zero, Option.some.injEq] at hx
          subst hx
          refine ⟨c, by simp, rfl, ?_, fun _ => rfl⟩
          intro hd
          exact absurd hauto hd.1
        | succ k =>
          simp only [List.getElem?_cons_succ] at hx
          obtain ⟨x1, h1, h2, h3, h4⟩ := ih cs hlen2 k x hx
          refine ⟨x1, by simpa using h1, h2, ?_, ?_⟩
          · intro hd
            apply h3
            obtain ⟨hne, j, c2, hj, hc2, hn, hi⟩ := hd
            refine ⟨hne, ?_⟩
            cases j with
            | zero =>
              simp only [List.getElem?_cons_zero, Option.some.injEq] at hc2
              subst hc2
              exact absurd (hi.symm.trans hauto) hne
            | succ j =>
              simp only [List.getElem?_cons_succ] at hc2
              exact ⟨j, c2, fun hjk => hj (by rw [hjk]), hc2, hn, hi⟩
          · intro hd
            apply h4
            intro hd2
            apply hd
            obtain ⟨hne, j, c2, hj, hc2, hn, hi⟩ := hd2
            exact ⟨hne, j + 1, c2, fun hjk => hj (Nat.succ.inj hjk), by simpa using hc2, hn, hi⟩
      · rw [if_neg hauto, dedup_inner_eq]
        cases i with
        | zero =>
          simp only [List.getElem?_cons_zero, Option.some.injEq] at hx
          subst hx
          refine ⟨{ c with id := if cs.any (fun y => decide (c.name = y.name ∧ c.id = y.id)) = true
            then PLATFORM_DEVID_AUTO else c.id }, by rw [List.getElem?_cons_zero], rfl, ?_, ?_⟩
          · intro hd
            obtain ⟨_, j, c2, hj, hc2, hn, hi⟩ := hd
            cases j with
            | zero => exact absurd rfl hj
            | succ j =>
              simp only [List.getElem?_cons_succ] at hc2
              have hmem : c2 ∈ cs := List.getElem?_mem hc2
              have hany : cs.any (fun y => decide (c.name = y.name ∧ c.id = y.id)) = true := by
                rw [List.any_eq_true]
                exact ⟨c2, hmem, by simp [hn, hi]⟩
              show (if _ then _ else _) = _
              rw [if_pos hany]
          · intro hd
            have hany : cs.any (fun y => decide (c.name = y.name ∧ c.id = y.id)) = false := by
              rw [Bool.eq_false_iff]
              intro hcon
              rw [List.any_eq_true] at hcon
              obtain ⟨y, hy, hp⟩ := hcon
              simp only [decide_eq_true_eq] at hp
              obtain ⟨j, hj⟩ := List.getElem?_of_mem hy
              exact hd ⟨hauto, j + 1, y, Nat.succ_ne_zero j, by simpa using hj, hp.1.symm, hp.2.symm⟩
            show (if _ then _ else _) = _
            rw [hany]
            rfl
        | succ k =>
          simp only [List.getElem?_cons_succ] at hx
          have hlen3 : (cs.map (fun y => if c.name = y.name ∧ c.id = y.id then
              { y with id := PLATFORM_DEVID_AUTO } else y)).length ≤ n := by simpa using hlen2
          have hx2 : (cs.map (fun y => if c.name = y.name ∧ c.id = y.id then
              { y with id := PLATFORM_DEVID_AUTO } else y))[k]? =
              some (if c.name = x.name ∧ c.id = x.id then
                { x with id := PLATFORM_DEVID_AUTO } else x) := by
            simp [hx]
          obtain ⟨x1, h1, h2, h3, h4⟩ := ih _ hlen3 k _ hx2
          refine ⟨x1, by simpa using h1, ?_, ?_, ?_⟩
          · rw [h2]
            split_ifs <;> rfl
          · intro hd
            by_cases hm : c.name = x.name ∧ c.id = x.id
            · have : x1.id = PLATFORM_DEVID_AUTO := by
                apply (h4 ?_).trans
                · rw [if_pos hm]
                · rw [if_pos hm]
                  intro hd2
                  exact hd2.1 rfl
              exact this
            · apply h3
              rw [if_neg hm]
              obtain ⟨hne, j, c2, hj, hc2, hn, hi⟩ := hd
              refine ⟨hne, ?_⟩
              cases j with
              | zero =>
                simp only [List.getElem?_cons_zero, Option.some.injEq] at hc2
                subst hc2
                exact absurd ⟨hn, hi⟩ hm
              | succ j =>
                simp only [List.getElem?_cons_succ] at hc2
                refine ⟨j, c2, fun hjk => hj (by rw [hjk]), ?_, hn, hi⟩
                have hm2 : ¬ (c.name = c2.name ∧ c.id = c2.id) := by
                  intro hcon
                  exact hm ⟨hcon.1.trans hn, hcon.2.trans hi⟩
                simp [hc2, hm2]
          · intro hd
            by_cases hm : c.name = x.name ∧ c.id = x.id
            · exfalso
              apply hd
              exact ⟨fun hx0 => hauto (hm.2.trans hx0), 0, c, Nat.succ_ne_zero k |>.symm, by simp,
                hm.1, hm.2⟩
            · rw [if_neg hm] at h4 h3
              apply h4
              intro hd2
              apply hd
              obtain ⟨hne, j, c2, hj, hc2, hn, hi⟩ := hd2
              refine ⟨hne, j + 1, ?_⟩
              rw [List.getElem?_map] at hc2
              cases hy : cs[j]? with
              | none => simp [hy] at hc2
              | some y =>
                simp only [hy, Option.map_some', Option.some.injEq] at hc2
                by_cases hmy : c.name = y.name ∧ c.id = y.id
                · rw [if_pos hmy] at hc2
                  subst hc2
                  exact absurd hi.symm hne
                · rw [if_neg hmy] at hc2
                  subst hc2
                  exact ⟨y, fun hjk => hj (Nat.succ.inj hjk), by simpa using hy, hn, hi⟩

/-- Running the outer loop on its own result changes nothing. -/
theorem dedup_outer_idem (cs : List mfd_cell) :
    dedup_outer cs.length (dedup_outer cs.length cs) = dedup_outer cs.length cs := by
  apply List.ext_getElem?
  intro i
  have hlen := dedup_outer_length cs.length cs
  cases hx : cs[i]? with
  | none =>
    have hi : cs.length ≤ i := by
      by_contra hcon
      rw [List.getElem?_eq_getElem (Nat.lt_of_not_le hcon)] at hx
      exact Option.noConfusion hx
    rw [List.getElem?_eq_none (by rw [dedup_outer_length, hlen]; exact hi),
      List.getElem?_eq_none (by rw [hlen]; exact hi)]
  | some x =>
    obtain ⟨x1, h1, h2, h3, h4⟩ := dedup_outer_get cs.length cs (Nat.le_refl _) i x hx
    obtain ⟨x2, g1, g2, g3, g4⟩ :=
      dedup_outer_get cs.length (dedup_outer cs.length cs) (by rw [hlen]) i x1 h1
    rw [g1, h1]
    have hid : x2.id = x1.id := by
      by_cases hd : has_duplicate (dedup_outer cs.length cs) i x1
      · exfalso
        obtain ⟨hne, j, y1, hj, hy1, hn, hi⟩ := hd
        have hnd : ¬ has_duplicate cs i x := fun hcon => hne (h3 hcon)
        have hx1id : x1.id = x.id := h4 hnd
        have hx1name : x1.name = x.name := by rw [h2]
        have hjlt : j < cs.length := by
          by_contra hcon
          rw [List.getElem?_eq_none (by rw [hlen]; exact Nat.le_of_not_lt hcon)] at hy1
          exact Option.noConfusion hy1
        obtain ⟨y0, k1, k2, k3, k4⟩ := dedup_outer_get cs.length cs (Nat.le_refl _) j cs[j]
          (List.getElem?_eq_getElem hjlt)
        rw [hy1] at k1
        injection k1 with k1
        subst k1
        have hyname : y1.name = cs[j].name := by rw [k2]
        have hyid : y1.id = cs[j].id := by
          apply k4
          intro hcon
          exact hne (hi ▸ k3 hcon)
        apply hnd
        refine ⟨hx1id ▸ hne, j, cs[j], hj, List.getElem?_eq_getElem hjlt, ?_, ?_⟩
        · rw [← hyname, hn, hx1name]
        · rw [← hyid, hi, hx1id]
      · exact g4 hd
    rw [g2, hid]

/-- C9: the deduplication pass at the end of `cisco_fpga_mfd_cells` changes
nothing but cell ids (same cell count, same names and resources, other
metadata untouched); a cell's id becomes AUTO when, before the pass, its id
was not AUTO and another emitted cell had the same name and the same id, and
is kept otherwise.  So two cells with the same name and the same explicit id
both end with AUTO, a cell whose name no other cell has is unaffected, and a
second run of the pass changes nothing. -/
theorem dedup_pass_spec (meta : cell_metadata) :
    (dedup_pass meta).ncells = meta.ncells ∧
    dedup_pass meta = { meta with cells := (dedup_pass meta).cells } ∧
    (∀ (i : Nat) (c : mfd_cell), meta.cells[i]? = some c →
      ∃ c1, (dedup_pass meta).cells[i]? = some c1 ∧ c1 = { c with id := c1.id } ∧
        (has_duplicate meta.cells i c → c1.id = PLATFORM_DEVID_AUTO) ∧
        (¬ has_duplicate meta.cells i c → c1.id = c.id)) ∧
    (∀ (i j : Nat) (ci cj : mfd_cell), i ≠ j → meta.cells[i]? = some ci → meta.cells[j]? = some cj →
      ci.name = cj.name → ci.id = cj.id → ci.id ≠ PLATFORM_DEVID_AUTO →
      (dedup_pass meta).cells[i]? = some { ci with id := PLATFORM_DEVID_AUTO } ∧
      (dedup_pass meta).cells[j]? = some { cj with id := PLATFORM_DEVID_AUTO }) ∧
    (∀ (k : Nat) (ck : mfd_cell), meta.cells[k]? = some ck →
      (∀ (j : Nat) (c2 : mfd_cell), j ≠ k → meta.cells[j]? = some c2 → c2.name ≠ ck.name) →
      (dedup_pass meta).cells[k]? = some ck) ∧
    dedup_pass (dedup_pass meta) = dedup_pass meta := by
  have hget := dedup_outer_get meta.cells.length meta.cells (Nat.le_refl _)
  refine ⟨dedup_outer_length _ _, rfl, hget, ?_, ?_, ?_⟩
  · intro i j ci cj hij hi hj hname hid hne
    obtain ⟨a, a1, a2, a3, _⟩ := hget i ci hi
    obtain ⟨b, b1, b2, b3, _⟩ := hget j cj hj
    have ha : a.id = PLATFORM_DEVID_AUTO :=
      a3 ⟨hne, j, cj, fun h => hij h.symm, hj, hname.symm, hid.symm⟩
    have hb : b.id = PLATFORM_DEVID_AUTO :=
      b3 ⟨hid ▸ hne, i, ci, hij, hi, hname, hid⟩
    constructor
    · show (dedup_outer meta.cells.length meta.cells)[i]? = _
      rw [a1, a2, ha]
    · show (dedup_outer meta.cells.length meta.cells)[j]? = _
      rw [b1, b2, hb]
  · intro k ck hk hnames
    obtain ⟨a, a1, a2, _, a4⟩ := hget k ck hk
    have ha : a.id = ck.id := by
      apply a4
      intro hd
      obtain ⟨_, j, c2, hj, hc2, hn, _⟩ := hd
      exact hnames j c2 hj hc2 hn
    show (dedup_outer meta.cells.length meta.cells)[k]? = _
    rw [a1, a2, ha]
  · unfold dedup_pass
    simp only [cell_metadata.ncells, dedup_outer_length]
    rw [dedup_outer_idem]

/-! ## `cisco_fpga_mfd_cells` as a whole -/

/-- For an info ROM with header major version below 6 the call fails: the
block count it assumes, `ARRAY_SIZE(meta->block_offset) - 1`, is refused by
`_init_metadata`. -/
theorem mfd_cells_visits_pre_v6 (fw : Option fw_node) (kzalloc_ok : Bool) (r : Regmap)
    (tmpl : resource) (pdata pdata_size filter debug : Nat) (ws : List Nat)
    (hrd : _blkread r 0 SIZEOF_INFO_ROM = Except.ok ws)
    (hmagic : (info_rom_of_words ws).hdr.magic = CISCO_FPGA_MAGIC)
    (hver : (info_rom_of_words ws).hdr.maj < 6) :
    cisco_fpga_mfd_cells_visits fw kzalloc_ok r tmpl pdata pdata_size filter debug =
      Except.error (Fail.errno (if kzalloc_ok then -EINVAL else -ENOMEM)) := by
  unfold cisco_fpga_mfd_cells_visits
  simp only [hrd, hmagic, ne_eq, not_true_eq_false, if_false, hver, if_true, init_metadata_255]

/-- The steps a returning call of `cisco_fpga_mfd_cells` has gone through. -/
theorem mfd_cells_visits_ok {fw : Option fw_node} {kzalloc_ok : Bool} {r : Regmap}
    {tmpl : resource} {pdata pdata_size filter debug : Nat} {m : cell_metadata}
    {vs : List visit}
    (h : cisco_fpga_mfd_cells_visits fw kzalloc_ok r tmpl pdata pdata_size filter debug =
      Except.ok (m, vs)) :
    ∃ ws tws meta0 blk meta1 ret meta2 m3,
      _blkread r 0 SIZEOF_INFO_ROM = Except.ok ws ∧
      (info_rom_of_words ws).hdr.magic = CISCO_FPGA_MAGIC ∧
      6 ≤ (info_rom_of_words ws).hdr.maj ∧
      _init_metadata fw kzalloc_ok (info_rom_of_words ws).num_blocks tmpl pdata pdata_size debug =
        Except.ok meta0 ∧
      _blkread r SIZEOF_INFO_ROM (2 * BLOCK_OFFSET_ENTRIES) = Except.ok tws ∧
      cisco_fpga_blk_match (info_rom_of_words ws).hdr.id filter = some blk ∧ blk.id = 35 ∧
      _setup_max_irqs r { meta0 with block_offset := u16_of_words tws } (info_rom_of_words ws) =
        Except.ok meta1 ∧
      (meta1.block_offset = u16_of_words tws ∧ meta1.cells = meta0.cells ∧
        meta1.intr = meta0.intr ∧ meta1.max_cells = meta0.max_cells ∧
        meta1.resource_template = meta0.resource_template ∧ meta1.child = meta0.child) ∧
      _fwnode_config meta1 blk 0 (cum_off meta1.block_offset 1 % 2 ^ 32) blk.id =
        Except.ok (ret, meta2) ∧
      walk_loop r filter (info_rom_of_words ws).hdr.maj ((info_rom_of_words ws).num_blocks - 1) 1
        (cum_off meta1.block_offset 1 % 2 ^ 32) meta2 [] = Except.ok (m3, vs) ∧
      m = dedup_pass m3 := by
  cases hrd : _blkread r 0 SIZEOF_INFO_ROM with
  | error e => simp [cisco_fpga_mfd_cells_visits, hrd] at h
  | ok ws =>
    by_cases hmagic : (info_rom_of_words ws).hdr.magic = CISCO_FPGA_MAGIC
    swap
    · simp [cisco_fpga_mfd_cells_visits, hrd, hmagic] at h
    by_cases hver : (info_rom_of_words ws).hdr.maj < 6
    · rw [mfd_cells_visits_pre_v6 fw kzalloc_ok r tmpl pdata pdata_size filter debug ws hrd hmagic
        hver] at h
      exact Except.noConfusion h
    have hge : 6 ≤ (info_rom_of_words ws).hdr.maj := Nat.le_of_not_lt hver
    unfold cisco_fpga_mfd_cells_visits at h
    simp only [hrd, hmagic, ne_eq, not_true_eq_false, if_false, hver, ge_iff_le, hge, if_true] at h
    cases hinit : _init_metadata fw kzalloc_ok (info_rom_of_words ws).num_blocks tmpl pdata
        pdata_size debug with
    | error f => simp [hinit] at h
    | ok meta0 =>
      simp only [hinit] at h
      cases htbl : _blkread r SIZEOF_INFO_ROM (2 * BLOCK_OFFSET_ENTRIES) with
      | error e => simp [htbl] at h
      | ok tws =>
        simp only [htbl] at h
        cases hblk : cisco_fpga_blk_match (info_rom_of_words ws).hdr.id filter with
        | none => simp [hblk] at h
        | some blk =>
          simp only [hblk] at h
          by_cases h35 : blk.id = 35
          swap
          · simp [h35] at h
          simp only [h35, ne_eq, not_true_eq_false, if_false] at h
          cases hirq : _setup_max_irqs r { meta0 with block_offset := u16_of_words tws }
              (info_rom_of_words ws) with
          | error f => simp [hirq] at h
          | ok meta1 =>
            simp only [hirq] at h
            obtain ⟨x, hx⟩ := setup_max_irqs_loop_ok _ _ _ _ hirq
            have hfacts : meta1.block_offset = u16_of_words tws ∧ meta1.cells = meta0.cells ∧
                meta1.intr = meta0.intr ∧ meta1.max_cells = meta0.max_cells ∧
                meta1.resource_template = meta0.resource_template ∧
                meta1.child = meta0.child := by
              rw [hx]
              exact ⟨rfl, rfl, rfl, rfl, rfl, rfl⟩
            cases hbo : meta1.block_offset[0]? with
            | none => simp [hbo] at h
            | some bo =>
              simp only [hbo] at h
              have hoff : (0 + bo * 256) % 2 ^ 32 = cum_off meta1.block_offset 1 % 2 ^ 32 := by
                rw [cum_off_succ hbo]
                simp [cum_off, Nat.mul_comm]
              rw [hoff] at h
              cases hcfg : _fwnode_config meta1 blk 0 (cum_off meta1.block_offset 1 % 2 ^ 32) 35 with
              | error f =>
                rw [hcfg] at h
                exact Except.noConfusion h
              | ok res =>
                obtain ⟨ret, meta2⟩ := res
                rw [hcfg] at h
                simp only at h
                cases hwalk : walk_loop r filter (info_rom_of_words ws).hdr.maj
                    ((info_rom_of_words ws).num_blocks - 1) 1
                    (cum_off meta1.block_offset 1 % 2 ^ 32) meta2 [] with
                | error f =>
                  rw [hwalk] at h
                  exact Except.noConfusion h
                | ok res2 =>
                  obtain ⟨m3, vs3⟩ := res2
                  rw [hwalk] at h
                  simp only at h
                  injection h with h
                  injection h with h1 h2
                  subst h1 h2
                  exact ⟨ws, tws, meta0, blk, meta1, ret, meta2, m3, rfl, hmagic, hge, hinit, rfl,
                    hblk, h35, hirq, hfacts, h35 ▸ hcfg, hwalk, rfl⟩

/-! ## Claims about the whole call -/

/-- C10 (the code departs from the claim): for every info ROM with valid
magic and header major version below 6 (block id 35 included), whatever the
rest of the device holds, `cisco_fpga_mfd_cells` returns an error and never
walks: `-EINVAL` from the `bad num_blocks` test of `_init_metadata`, or
`-ENOMEM` when the allocation fails. -/
theorem mfd_cells_pre_v6_fails (fw : Option fw_node) (kzalloc_ok : Bool) (r : Regmap)
    (tmpl : resource) (pdata pdata_size filter debug : Nat) (ws : List Nat)
    (hrd : _blkread r 0 SIZEOF_INFO_ROM = Except.ok ws)
    (hmagic : (info_rom_of_words ws).hdr.magic = CISCO_FPGA_MAGIC)
    (hver : (info_rom_of_words ws).hdr.maj < 6) :
    cisco_fpga_mfd_cells fw kzalloc_ok r tmpl pdata pdata_size filter debug =
      Except.error (Fail.errno (if kzalloc_ok then -EINVAL else -ENOMEM)) := by
  unfold cisco_fpga_mfd_cells
  rw [mfd_cells_visits_pre_v6 fw kzalloc_ok r tmpl pdata pdata_size filter debug ws hrd hmagic hver]

/-- Witness for C10: the version-5 info ROM with id 35, read through a regmap
parent with a successful allocation, gets `-EINVAL`. -/
theorem mfd_cells_pre_v6_fails_witness :
    (info_rom_of_words [5 + 35 * 64, 0, 0, 0, CISCO_FPGA_MAGIC,
        0, 0, 0, 0, 0, 0, 0, 0, 0, 0, 0, 0]).hdr.id = 35 ∧
    cisco_fpga_mfd_cells none true demo_rom_v5 demo_template 0 0
      CISCO_MFD_CELLS_FILTER_REGMAP 0 = Except.error (Fail.errno (-EINVAL)) :=
  ⟨by decide,
   mfd_cells_pre_v6_fails none true demo_rom_v5 demo_template 0 0 CISCO_MFD_CELLS_FILTER_REGMAP 0
    [5 + 35 * 64, 0, 0, 0, CISCO_FPGA_MAGIC, 0, 0, 0, 0, 0, 0, 0, 0, 0, 0, 0, 0]
    (by rfl) (by decide) (by decide)⟩

/-- C1: in `cisco_fpga_mfd_cells`, when the main walk reads at table index
`t` a header with valid magic and id 255, the walk ends there, whatever the
rest of the table and of the device holds: every index the main walk reads
lies in `1 .. t` (no header is read at an index above `t`), and no cell is
emitted for index `t` or any later index. -/
theorem mfd_cells_walk_stops_at_tail (fw : Option fw_node) (kzalloc_ok : Bool) (r : Regmap)
    (tmpl : resource) (pdata pdata_size filter debug : Nat) (m : cell_metadata)
    (vs : List visit) (v : visit) (hdr : blkhdr)
    (hrun : cisco_fpga_mfd_cells_visits fw kzalloc_ok r tmpl pdata pdata_size filter debug =
      Except.ok (m, vs))
    (hv : v ∈ vs) (hrd : read_hdr r v.absoff = Except.ok hdr)
    (hmagic : hdr.magic = CISCO_FPGA_MAGIC) (hid : hdr.id = 255) :
    (∀ w ∈ vs, 1 ≤ w.idx ∧ w.idx ≤ v.idx) ∧ (∀ w ∈ vs, v.idx ≤ w.idx → w.cell = none) := by
  obtain ⟨ws, tws, meta0, blk, meta1, ret, meta2, m3, _, _, _, _, _, _, _, _, _, _, hwalk, _⟩ :=
    mfd_cells_visits_ok hrun
  obtain ⟨new, hout, _, hidx, _, _, hvis, _⟩ := walk_loop_ok _ _ _ _ _ _ _ hwalk
  rw [List.nil_append] at hout
  subst hout
  obtain ⟨bo, hdr2, _, hrd2, hterm, _⟩ := hvis v hv
  rw [hrd] at hrd2
  injection hrd2 with hrd2
  subst hrd2
  obtain ⟨hnone, hlast⟩ := hterm ⟨hmagic, hid⟩
  have hge : ∀ w ∈ vs, 1 ≤ w.idx := by
    intro w hw
    have : w.idx ∈ vs.map visit.idx := List.mem_map_of_mem _ hw
    rw [hidx, List.mem_range'_1] at this
    exact this.1
  have hnodup : (vs.map visit.idx).Nodup := by
    rw [hidx]
    exact List.nodup_range' 1 vs.length
  refine ⟨fun w hw => ⟨hge w hw, hlast w hw⟩, ?_⟩
  intro w hw hle
  have heq : w.idx = v.idx := Nat.le_antisymm (hlast w hw) hle
  have : w = v := List.inj_on_of_nodup_map hnodup hw hv heq
  rw [this]
  exact hnone

set_option maxRecDepth 1000000 in
/-- Witness for C1: on `demo_rom` the main walk reads index 1 at 0x100 (gpio,
a cell is emitted) and index 2 at 0x300, where the terminal header ends it. -/
theorem mfd_cells_walk_stops_at_tail_witness :
    (run_result demo_run_pci).2.map (fun w => (w.idx, w.absoff, w.cell.isSome)) =
      [(1, 0x100, true), (2, 0x300, false)] ∧
    (∀ w ∈ (run_result demo_run_pci).2, 1 ≤ w.idx ∧ w.idx ≤ 2) ∧
    (∀ w ∈ (run_result demo_run_pci).2, 2 ≤ w.idx → w.cell = none) :=
  ⟨by decide,
   mfd_cells_walk_stops_at_tail none true demo_rom demo_template 0 0 CISCO_MFD_CELLS_FILTER_PCI 0
    (run_result demo_run_pci).1 (run_result demo_run_pci).2 ⟨2, 0x300, none⟩
    (blkhdr_of_words [1 + 255 * 64, 0, 0, 0, CISCO_FPGA_MAGIC])
    (by rfl) (by decide) (by rfl) (by decide) (by decide)⟩

/-- A sum of `k` 16-bit entries, in units of 256 bytes, fits 32 bits for
every `k ≤ 256`. -/
theorem cum_off_lt {bo : List Nat} (hbo : ∀ x ∈ bo, x < 65536) {k : Nat} (hk : k ≤ 256) :
    cum_off bo k < 2 ^ 32 := by
  have hsum : ∀ (l : List Nat), (∀ x ∈ l, x < 65536) → l.sum ≤ l.length * 65535 := by
    intro l
    induction l with
    | nil => intro _; simp
    | cons a l ih =>
      intro hl
      have ha : a < 65536 := hl a (List.mem_cons_self _ _)
      have := ih (fun x hx => hl x (List.mem_cons_of_mem _ hx))
      simp only [List.sum_cons, List.length_cons]
      omega
  have h1 := hsum (bo.take k) (fun x hx => hbo x (List.mem_of_mem_take hx))
  have h2 : (bo.take k).length ≤ 256 := (List.length_take_le k bo).trans hk
  unfold cum_off
  have h3 : (bo.take k).length * 65535 ≤ 256 * 65535 := Nat.mul_le_mul_right _ h2
  omega

/-- Block 0 of a returning call: with a positive cell limit and no firmware
child at address 0, `_fwnode_config` turns the empty cell list into the
one-cell list holding the block-0 cell. -/
theorem fwnode_config_block0 {meta meta2 : cell_metadata} {blk : cisco_fpga_blk} {nxtoff : Nat}
    {blk_id ret : Int} (hcells : meta.cells = []) (hmax : 0 < meta.max_cells)
    (h38 : blk.id ≠ 38) (hchild : ∀ ch ∈ meta.child, ch.adr ≠ 0)
    (h : _fwnode_config meta blk 0 nxtoff blk_id = Except.ok (ret, meta2)) :
    ∃ c0, meta2.cells = [c0] ∧ c0.of_reg = 0 ∧ c0.name = blk.name ∧
      c0.resources.head? = some (mem_window meta.resource_template 0 nxtoff) := by
  have hfind : meta.child.find? (fun child => decide (0 = child.adr)) = none := by
    rw [List.find?_eq_none]
    intro ch hch
    simp only [decide_eq_true_eq]
    exact fun h0 => hchild ch hch h0.symm
  have hnot : ¬ meta.ncells ≥ meta.max_cells := by
    rw [cell_metadata.ncells, hcells]
    simp only [List.length_nil, ge_iff_le, Nat.le_zero_eq]
    omega
  unfold _fwnode_config at h
  simp only [hnot, if_false, h38, hfind] at h
  injection h with h
  injection h with _ h
  subst h
  simp only [fwnode_config_commit, hcells, List.nil_append]
  exact ⟨_, rfl, rfl, rfl, rfl⟩

set_option maxRecDepth 1000000 in
/-- C3 (as amended): block 0, the info ROM, is emitted as a cell by
`cisco_fpga_mfd_cells`.  When `num_blocks ≤ 254` and no firmware child has
address 0, the first returned cell is the block-0 cell: `of_reg` 0, the name
of the row matched for block 0, and the memory window
`[0, 256 * block_offset[0] - 1]` as first resource.  In the scenario of the
specification (version 6, `num_blocks = 3`, `block_offset = [1, 2, ...]`,
gpio at 0x100, terminal at 0x300, no firmware children) the returned metadata
has `ncells = 2` under both filters that recognise gpio: the block-0 cell
with window `[0, 0xff]`, then the gpio cell with window `[0x100, 0x2ff]`. -/
theorem mfd_cells_emits_block0 (fw : Option fw_node) (kzalloc_ok : Bool) (r : Regmap)
    (tmpl : resource) (pdata pdata_size filter debug : Nat) (ws : List Nat)
    (m : cell_metadata)
    (hrd : _blkread r 0 SIZEOF_INFO_ROM = Except.ok ws)
    (hnb : (info_rom_of_words ws).num_blocks ≤ 254)
    (hrun : cisco_fpga_mfd_cells fw kzalloc_ok r tmpl pdata pdata_size filter debug = Except.ok m)
    (hchild : ∀ ch ∈ m.child, ch.adr ≠ 0) :
    (∃ c0 rest blk, m.cells = c0 :: rest ∧ c0.of_reg = 0 ∧
      cisco_fpga_blk_match 35 filter = some blk ∧ c0.name = blk.name ∧
      c0.resources.head? = some (mem_window tmpl 0 (cum_off m.block_offset 1))) ∧
    ((cisco_fpga_mfd_cells none true demo_rom demo_template 0 0
        CISCO_MFD_CELLS_FILTER_REGMAP 0).toOption.map
      (fun m => (m.ncells, m.cells.map (fun c => (c.name, c.of_reg, c.resources)))) =
      some (2, [(some "info", 0, [⟨0, 0xff, none, 0x200, 0⟩]),
        (some "gpio", 0x100, [⟨0x100, 0x2ff, none, 0x200, 0⟩])])) ∧
    ((cisco_fpga_mfd_cells none true demo_rom demo_template 0 0
        CISCO_MFD_CELLS_FILTER_PCI 0).toOption.map
      (fun m => (m.ncells, m.cells.map (fun c => (c.name, c.of_reg, c.resources)))) =
      some (2, [(some "cisco-fpga-uio", 0, [⟨0, 0xff, none, 0x200, 0⟩]),
        (some "gpio", 0x100, [⟨0x100, 0x2ff, none, 0x200, 0⟩])])) := by
  refine ⟨?_, by decide, by decide⟩
  unfold cisco_fpga_mfd_cells at hrun
  cases hvis : cisco_fpga_mfd_cells_visits fw kzalloc_ok r tmpl pdata pdata_size filter debug with
  | error f =>
    rw [hvis] at hrun
    exact Except.noConfusion hrun
  | ok res =>
    obtain ⟨m0, vs⟩ := res
    rw [hvis] at hrun
    injection hrun with hrun
    simp only at hrun
    subst hrun
    obtain ⟨ws1, tws, meta0, blk, meta1, ret, meta2, m3, hrd1, _, _, hinit, htbl, hblk, h35, _,
      hfacts, hcfg, hwalk, hm⟩ := mfd_cells_visits_ok hvis
    rw [hrd] at hrd1
    injection hrd1 with hrd1
    subst hrd1
    obtain ⟨hbo1, hcells1, _, hmax1, htmpl1, hchild1⟩ := hfacts
    obtain ⟨hcells0, _, hmax0, _, htmpl0, _⟩ := init_metadata_ok hinit
    obtain ⟨new, _, _, _, hframe23, hcells3, _, _⟩ := walk_loop_ok _ _ _ _ _ _ _ hwalk
    obtain ⟨ret1, m1, hcfg1, hframe12, _, _⟩ := fwnode_config_regular meta1 blk 0
      (cum_off meta1.block_offset 1 % 2 ^ 32) blk.id (by rw [h35]; decide)
    rw [hcfg] at hcfg1
    injection hcfg1 with hcfg1
    injection hcfg1 with _ hm1
    subst hm1
    have hchildm : m0.child = meta1.child := by
      rw [hm]
      exact (hframe12.2.2.2.1.trans hframe23.2.2.2.1).symm
    have hbom : m0.block_offset = meta1.block_offset := by
      rw [hm]
      exact (hframe12.1.trans hframe23.1).symm
    have hmaxpos : 0 < meta1.max_cells := by
      rw [hmax1, hmax0]
      have : (info_rom_of_words ws).num_blocks + 1 < 2 ^ 32 := by omega
      rw [Nat.mod_eq_of_lt this]
      omega
    obtain ⟨c0, hc0, hof, hname, hres⟩ := fwnode_config_block0 (hcells1.trans hcells0) hmaxpos
      (by rw [h35]; decide) (by rw [← hchildm]; exact hchild) hcfg
    have hid : blk.id = ((info_rom_of_words ws).hdr.id : Int) := by
      obtain ⟨b2, hb2, hb2id⟩ := blk_match_total (info_rom_of_words ws).hdr.id filter
      rw [hblk] at hb2
      injection hb2 with hb2
      rw [hb2]
      exact hb2id
    have hget : m3.cells[0]? = some c0 := by
      rw [hcells3, hc0]
      simp
    obtain ⟨c1, hc1, hc1eq, _, _⟩ := dedup_outer_get m3.cells.length m3.cells (Nat.le_refl _) 0 c0 hget
    have hmcells : m0.cells = dedup_outer m3.cells.length m3.cells := by rw [hm]; rfl
    have hlt : cum_off meta1.block_offset 1 < 2 ^ 32 := by
      apply cum_off_lt _ (by decide)
      rw [hbo1]
      exact u16_of_words_lt tws
    cases hmc : m0.cells with
    | nil =>
      rw [hmcells] at hmc
      rw [hmc] at hc1
      exact Option.noConfusion hc1
    | cons d rest =>
      rw [hmcells] at hmc
      rw [hmc] at hc1
      simp only [List.getElem?_cons_zero, Option.some.injEq] at hc1
      subst hc1
      refine ⟨d, rest, blk, rfl, ?_, ?_, ?_, ?_⟩
      · rw [hc1eq]; exact hof
      · rw [← hblk, ← h35, hid]
      · rw [hc1eq]; exact hname
      · rw [hc1eq]
        simp only
        rw [hres, htmpl1, htmpl0, hbom, Nat.mod_eq_of_lt hlt]

set_option maxRecDepth 1000000 in
/-- Witness for C3 (as amended): on `demo_rom`, for a PCI parent without
firmware children, the first returned cell is the block-0 cell. -/
theorem mfd_cells_emits_block0_witness :
    ∃ c0 rest blk, (run_result demo_run_pci).1.cells = c0 :: rest ∧ c0.of_reg = 0 ∧
      cisco_fpga_blk_match 35 CISCO_MFD_CELLS_FILTER_PCI = some blk ∧ c0.name = blk.name ∧
      c0.resources.head? = some (mem_window demo_template 0
        (cum_off (run_result demo_run_pci).1.block_offset 1)) :=
  (mfd_cells_emits_block0 none true demo_rom demo_template 0 0 CISCO_MFD_CELLS_FILTER_PCI 0
    demo_info_words (run_result demo_run_pci).1 (by rfl) (by decide) (by rfl) (by decide)).1

set_option maxRecDepth 1000000 in
/-- Counterexample to C3 as stated: in the scenario of the claim (version 6,
`num_blocks = 3`, `block_offset = [1, 2, ...]`, gpio at 0x100, terminal at
0x300, no firmware children, regmap filter, under which gpio is recognised)
the call returns `ncells = 2`, not 1, and the returned cells are not the gpio
cell alone. -/
theorem mfd_cells_block0_counterexample :
    (cisco_fpga_mfd_cells none true demo_rom demo_template 0 0
        CISCO_MFD_CELLS_FILTER_REGMAP 0).toOption.map (fun m => m.ncells) = some 2 ∧
    ¬ ((cisco_fpga_mfd_cells none true demo_rom demo_template 0 0
        CISCO_MFD_CELLS_FILTER_REGMAP 0).toOption.map
      (fun m => (m.ncells, m.cells.map (fun c => (c.name, c.resources)))) =
      some (1, [(some "gpio", [⟨0x100, 0x2ff, none, 0x200, 0⟩])])) := by
  decide

/-! ## Claims about one iteration of the main walk -/

/-- The lookup of an id without a matching row: the fallback choice, carrying
the requested id. -/
theorem blk_match_unknown (id : Int) (filter : Nat)
    (h : ∀ b ∈ cisco_fpga_blks, ¬ (b.id = id ∧ (b.filter &&& filter) ≠ 0)) :
    cisco_fpga_blk_match id filter = some { fallback_choice filter with id := id } := by
  rw [blk_match_unfold]
  have hnone : (cisco_fpga_blks.take 34).find?
      (fun b => decide (b.id = id ∧ (b.filter &&& filter) ≠ 0)) = none := by
    rw [List.find?_eq_none]
    intro b hb
    simp only [decide_eq_true_eq]
    exact h b (List.mem_of_mem_take hb)
  rw [hnone]

/-- C4 (as amended): a regular block (valid magic, id neither 38 nor 255)
whose id has no row in the capability table with that id and a filter
intersecting the caller's.  When the caller's filter contains PASSIVE_SLOT
the iteration emits no cell and leaves the metadata alone.  Otherwise the
lookup falls back to a UIO row (`cisco-fpga-uio`, `cisco-bmc-uio` or
`cisco-unknown-uio`) and the block goes through `_fwnode_config` with that
row: when the cell limit is reached, or the first firmware child at the
block's address suppresses the cell (`ignore-cell`, or a `block-id` other
than the block's id), no cell is emitted and the metadata is left alone;
otherwise one cell is emitted, with AUTO id, the memory window of the block
as its only resource, and as its name the fallback name or, with a firmware
child at the block's address, the name that child configures (its
`device-name`, else the fallback name followed by the inherited suffix).  In
all cases the walk goes on with the next table entry at this block's offset
plus `256 * block_offset[i]` (modulo `2 ^ 32`). -/
theorem walk_unknown_block (r : Regmap) (filter info_ver n i nxtoff : Nat) (meta : cell_metadata)
    (vs : List visit) (bo : Nat) (hdr : blkhdr)
    (hbo : meta.block_offset[i]? = some bo) (hrd : read_hdr r nxtoff = Except.ok hdr)
    (hmagic : hdr.magic = CISCO_FPGA_MAGIC) (h38 : hdr.id ≠ 38) (h255 : hdr.id ≠ 255)
    (hunknown : ∀ b ∈ cisco_fpga_blks, ¬ (b.id = hdr.id ∧ (b.filter &&& filter) ≠ 0)) :
    ((CISCO_MFD_CELLS_FILTER_PASSIVE_SLOT &&& filter) ≠ 0 →
      walk_loop r filter info_ver (n + 1) i nxtoff meta vs =
        walk_loop r filter info_ver n (i + 1) ((nxtoff + 256 * bo) % 2 ^ 32) meta
          (vs ++ [⟨i, nxtoff, none⟩])) ∧
    ((CISCO_MFD_CELLS_FILTER_PASSIVE_SLOT &&& filter) = 0 →
      (fallback_choice filter).name ∈
        [some "cisco-fpga-uio", some "cisco-bmc-uio", some "cisco-unknown-uio"] ∧
      ∃ ret meta1,
        _fwnode_config meta { fallback_choice filter with id := hdr.id } nxtoff
          ((nxtoff + 256 * bo) % 2 ^ 32) hdr.id = Except.ok (ret, meta1) ∧
        walk_loop r filter info_ver (n + 1) i nxtoff meta vs =
          walk_loop r filter info_ver n (i + 1) ((nxtoff + 256 * bo) % 2 ^ 32) meta1
            (vs ++ [⟨i, nxtoff, if ret = 0 then meta1.cells[meta.ncells]? else none⟩]) ∧
        (meta.max_cells ≤ meta.ncells ∨ child_suppresses meta nxtoff hdr.id = true →
          ret = 1 ∧ meta1 = meta) ∧
        (meta.ncells < meta.max_cells → child_suppresses meta nxtoff hdr.id = false →
          ret = 0 ∧ ∃ c, meta1.cells = meta.cells ++ [c] ∧
            c.name = child_cell_name meta (fallback_choice filter).name nxtoff ∧
            c.id = PLATFORM_DEVID_AUTO ∧
            c.resources = [mem_window meta.resource_template nxtoff
              ((nxtoff + 256 * bo) % 2 ^ 32)]) ∧
        ((∀ ch ∈ meta.child, ch.adr ≠ nxtoff) →
          child_suppresses meta nxtoff hdr.id = false ∧
          child_cell_name meta (fallback_choice filter).name nxtoff =
            (fallback_choice filter).name)) := by
  have hblk := blk_match_unknown hdr.id filter hunknown
  have hbody : walk_body r filter info_ver i nxtoff meta =
      if (fallback_choice filter).name.isNone then
        Except.ok ⟨false, (nxtoff + 256 * bo) % 2 ^ 32, meta, none⟩
      else
        match _fwnode_config meta { fallback_choice filter with id := hdr.id } nxtoff
            ((nxtoff + 256 * bo) % 2 ^ 32) hdr.id with
        | Except.error f => Except.error f
        | Except.ok (ret, meta1) =>
          Except.ok ⟨false, (nxtoff + 256 * bo) % 2 ^ 32, meta1,
            if ret = 0 then meta1.cells[meta.ncells]? else none⟩ := by
    unfold walk_body
    simp only [hbo, hrd, hmagic, ne_eq, not_true_eq_false, if_false, h255, h38, hblk,
      Nat.mul_comm bo 256]
  constructor
  · intro hpass
    have hname : (fallback_choice filter).name.isNone = true := by
      unfold fallback_choice
      rw [if_pos hpass]
      rfl
    rw [walk_loop, hbody, if_pos hname]
    rfl
  · intro hpass
    have hname : (fallback_choice filter).name.isNone = false ∧
        (fallback_choice filter).name ∈
          [some "cisco-fpga-uio", some "cisco-bmc-uio", some "cisco-unknown-uio"] ∧
        (fallback_choice filter).num_irqs = 0 ∧
        (fallback_choice filter).name.any (fun n => strstr n "-uio") = true := by
      unfold fallback_choice
      rw [if_neg (by simpa using hpass)]
      split_ifs <;> decide
    obtain ⟨hn1, hn2, hn3, hn4⟩ := hname
    refine ⟨hn2, ?_⟩
    obtain ⟨ret, meta1, hcfg, _, _, _⟩ := fwnode_config_regular meta
      { fallback_choice filter with id := hdr.id } nxtoff ((nxtoff + 256 * bo) % 2 ^ 32) hdr.id
      (by simpa using (by exact_mod_cast h38 : (hdr.id : Int) ≠ 38))
    have h38i : ¬ ((hdr.id : Int) = 38) := by exact_mod_cast h38
    refine ⟨ret, meta1, hcfg, ?_, ?_, ?_, ?_⟩
    · rw [walk_loop, hbody, hn1, hcfg]
      rfl
    · intro hs
      unfold _fwnode_config at hcfg
      by_cases hfull : meta.ncells ≥ meta.max_cells
      · simp only [hfull, if_true] at hcfg
        injection hcfg with hcfg
        injection hcfg with hret hm
        exact ⟨hret.symm, hm.symm⟩
      · have hsup : child_suppresses meta nxtoff hdr.id = true := by
          rcases hs with h | h
          · exact absurd h hfull
          · exact h
        simp only [hfull, if_false, h38i] at hcfg
        unfold child_suppresses at hsup
        cases hfind : meta.child.find? (fun child => decide (nxtoff = child.adr)) with
        | none =>
          rw [hfind] at hsup
          exact Bool.noConfusion hsup
        | some ch =>
          simp only [hfind] at hcfg hsup
          by_cases hig : ch.ignore_cell ≠ 0
          · rw [if_pos hig] at hcfg
            injection hcfg with hcfg
            injection hcfg with hret hm
            exact ⟨hret.symm, hm.symm⟩
          · have hbid : ch.have_block_id ≠ 0 ∧ (ch.block_id : Int) ≠ (hdr.id : Int) := by
              simpa [hig] using hsup
            rw [if_neg hig, if_pos hbid] at hcfg
            injection hcfg with hcfg
            injection hcfg with hret hm
            exact ⟨hret.symm, hm.symm⟩
    · intro hlt hsup
      have hnot : ¬ meta.ncells ≥ meta.max_cells := Nat.not_le_of_lt hlt
      unfold _fwnode_config at hcfg
      simp only [hnot, if_false, h38i] at hcfg
      unfold child_suppresses at hsup
      unfold child_cell_name
      cases hfind : meta.child.find? (fun child => decide (nxtoff = child.adr)) with
      | none =>
        simp only [hfind] at hcfg
        injection hcfg with hcfg
        injection hcfg with hret hm
        subst hret hm
        refine ⟨rfl, _, rfl, rfl, ?_, ?_⟩
        · simp only [fwnode_config_commit, hn4, Bool.or_true, if_true]
        · simp only [fwnode_config_commit, hn3, irq_resources, List.append_nil, mem_window]
      | some ch =>
        simp only [hfind] at hcfg hsup ⊢
        have hig : ¬ ch.ignore_cell ≠ 0 := by
          intro h
          simp [h] at hsup
        have hbid : ¬ (ch.have_block_id ≠ 0 ∧ (ch.block_id : Int) ≠ (hdr.id : Int)) := by
          intro h
          simp [h] at hsup
        rw [if_neg hig, if_neg hbid] at hcfg
        cases hnm : ch.name with
        | some name =>
          simp only [hnm] at hcfg
          injection hcfg with hcfg
          injection hcfg with hret hm
          subst hret hm
          refine ⟨rfl, _, rfl, rfl, ?_, ?_⟩
          · simp only [fwnode_config_commit, hn4, Bool.or_true, if_true]
          · simp only [fwnode_config_commit, hn3, irq_resources, List.append_nil, mem_window]
        | none =>
          cases hsf : ch.name_suffix with
          | some suffix =>
            simp only [hnm, hsf] at hcfg
            injection hcfg with hcfg
            injection hcfg with hret hm
            subst hret hm
            refine ⟨rfl, _, rfl, rfl, ?_, ?_⟩
            · simp only [fwnode_config_commit, hn4, Bool.or_true, if_true]
            · simp only [fwnode_config_commit, hn3, irq_resources, List.append_nil, mem_window]
          | none =>
            simp only [hnm, hsf] at hcfg
            injection hcfg with hcfg
            injection hcfg with hret hm
            subst hret hm
            refine ⟨rfl, _, rfl, rfl, ?_, ?_⟩
            · simp only [fwnode_config_commit, hn4, Bool.or_true, if_true]
            · simp only [fwnode_config_commit, hn3, irq_resources, List.append_nil, mem_window]
    · intro hchild
      have hfind : meta.child.find? (fun child => decide (nxtoff = child.adr)) = none := by
        rw [List.find?_eq_none]
        intro ch hch
        simp only [decide_eq_true_eq]
        exact fun h0 => hchild ch hch h0.symm
      unfold child_suppresses child_cell_name
      simp only [hfind]
      exact ⟨trivial, trivial⟩

set_option maxRecDepth 1000000 in
/-- Witness for C4 (as amended): block 1 of `demo_rom_unknown` (id 200) under
the PCI filter.  Without firmware children it becomes a `cisco-fpga-uio` cell
with AUTO id and window `[0x100, 0x2ff]`; with a firmware child at 0x100 that
inherits the suffix `-remote-linecard-7` and asks for `devid = 5` it becomes a
cell named `cisco-fpga-uio-remo` with AUTO id; with a child at 0x100 that
carries `ignore-cell` it becomes no cell.  Each time the walk goes on at
index 2, offset 0x300. -/
theorem walk_unknown_block_witness :
    (∃ meta1 c,
      walk_loop demo_rom_unknown CISCO_MFD_CELLS_FILTER_PCI 6 2 1 0x100 demo_meta [] =
        walk_loop demo_rom_unknown CISCO_MFD_CELLS_FILTER_PCI 6 1 2 0x300 meta1
          [⟨1, 0x100, some c⟩] ∧
      meta1.cells = [c] ∧ c.name = some "cisco-fpga-uio" ∧ c.id = PLATFORM_DEVID_AUTO ∧
      c.resources = [⟨0x100, 0x2ff, none, 0x200, 0⟩]) ∧
    (∃ meta1 c,
      walk_loop demo_rom_unknown CISCO_MFD_CELLS_FILTER_PCI 6 2 1 0x100 demo_meta_child [] =
        walk_loop demo_rom_unknown CISCO_MFD_CELLS_FILTER_PCI 6 1 2 0x300 meta1
          [⟨1, 0x100, some c⟩] ∧
      meta1.cells = [c] ∧ c.name = some "cisco-fpga-uio-remo" ∧ c.id = PLATFORM_DEVID_AUTO ∧
      c.resources = [⟨0x100, 0x2ff, none, 0x200, 0⟩]) ∧
    walk_loop demo_rom_unknown CISCO_MFD_CELLS_FILTER_PCI 6 2 1 0x100 demo_meta_ignore [] =
      walk_loop demo_rom_unknown CISCO_MFD_CELLS_FILTER_PCI 6 1 2 0x300 demo_meta_ignore
        [⟨1, 0x100, none⟩] := by
  refine ⟨?_, ?_, ?_⟩
  · have h := walk_unknown_block demo_rom_unknown CISCO_MFD_CELLS_FILTER_PCI 6 1 1 0x100
      demo_meta [] 2 (blkhdr_of_words [1 + 200 * 64, 0, 0, 0, CISCO_FPGA_MAGIC])
      (by rfl) (by rfl) (by decide) (by decide) (by decide) (by decide)
    obtain ⟨_, ret, meta1, _, hloop, _, hemit, _⟩ := h.2 (by decide)
    obtain ⟨hret, c, hc, hname, hid, hres⟩ := hemit (by decide) (by decide)
    subst hret
    have hget : meta1.cells[demo_meta.ncells]? = some c := by
      rw [hc]
      rfl
    rw [if_pos rfl, hget] at hloop
    exact ⟨meta1, c, hloop, hc, hname.trans (by decide), hid, hres⟩
  · have h := walk_unknown_block demo_rom_unknown CISCO_MFD_CELLS_FILTER_PCI 6 1 1 0x100
      demo_meta_child [] 2 (blkhdr_of_words [1 + 200 * 64, 0, 0, 0, CISCO_FPGA_MAGIC])
      (by rfl) (by rfl) (by decide) (by decide) (by decide) (by decide)
    obtain ⟨_, ret, meta1, _, hloop, _, hemit, _⟩ := h.2 (by decide)
    obtain ⟨hret, c, hc, hname, hid, hres⟩ := hemit (by decide) (by decide)
    subst hret
    have hget : meta1.cells[demo_meta_child.ncells]? = some c := by
      rw [hc]
      rfl
    rw [if_pos rfl, hget] at hloop
    exact ⟨meta1, c, hloop, hc, hname.trans (by decide), hid, hres⟩
  · have h := walk_unknown_block demo_rom_unknown CISCO_MFD_CELLS_FILTER_PCI 6 1 1 0x100
      demo_meta_ignore [] 2 (blkhdr_of_words [1 + 200 * 64, 0, 0, 0, CISCO_FPGA_MAGIC])
      (by rfl) (by rfl) (by decide) (by decide) (by decide) (by decide)
    obtain ⟨_, ret, meta1, _, hloop, hskip, _, _⟩ := h.2 (by decide)
    obtain ⟨hret, hm⟩ := hskip (Or.inr (by decide))
    subst hret hm
    rw [if_neg (by decide)] at hloop
    exact hloop

set_option maxRecDepth 1000000 in
/-- Counterexample to C4 as stated: block id 200 has no row in the capability
table, yet under the PCI filter `cisco_fpga_mfd_cells` emits a cell for the
id-200 block at 0x100 of `demo_rom_unknown`: the returned cells are the
block-0 cell and a `cisco-fpga-uio` cell with window `[0x100, 0x2ff]`. -/
theorem mfd_cells_unknown_block_counterexample :
    (∀ b ∈ cisco_fpga_blks, ¬ (b.id = 200 ∧ (b.filter &&& CISCO_MFD_CELLS_FILTER_PCI) ≠ 0)) ∧
    (read_hdr demo_rom_unknown 0x100).toOption.map (fun h => (h.magic, h.id)) =
      some (CISCO_FPGA_MAGIC, 200) ∧
    (cisco_fpga_mfd_cells none true demo_rom_unknown demo_template 0 0
        CISCO_MFD_CELLS_FILTER_PCI 0).toOption.map
      (fun m => m.cells.map (fun c => (c.name, c.of_reg, c.resources))) =
      some [(some "cisco-fpga-uio", 0, [⟨0, 0xff, none, 0x200, 0⟩]),
        (some "cisco-fpga-uio", 0x100, [⟨0x100, 0x2ff, none, 0x200, 0⟩])] := by
  decide

/-- C6 (as amended): a block with valid magic and id 38 met by the main walk
never becomes a cell.  With the cell limit not reached: when no interrupt
resource has been recorded yet, the iteration returns, emits no cell, leaves
`ncells` and every emitted cell unchanged and records the window
`[absoff, nxtoff - 1]` as `meta->intr`; when one has been recorded already,
`BUG_ON(meta->intr != NULL)` fires instead. -/
theorem walk_body_intr_block (r : Regmap) (filter info_ver i nxtoff : Nat) (meta : cell_metadata)
    (bo : Nat) (hdr : blkhdr)
    (hbo : meta.block_offset[i]? = some bo) (hrd : read_hdr r nxtoff = Except.ok hdr)
    (hmagic : hdr.magic = CISCO_FPGA_MAGIC) (h38 : hdr.id = 38)
    (hroom : meta.ncells < meta.max_cells) :
    (meta.intr = none →
      ∃ st, walk_body r filter info_ver i nxtoff meta = Except.ok st ∧
        st.stop = false ∧ st.cell = none ∧ st.nxtoff = (nxtoff + 256 * bo) % 2 ^ 32 ∧
        st.meta.cells = meta.cells ∧ st.meta.ncells = meta.ncells ∧
        st.meta.intr = some (mem_window meta.resource_template nxtoff st.nxtoff) ∧
        (mem_window meta.resource_template nxtoff st.nxtoff).start = nxtoff ∧
        (0 < st.nxtoff →
          (mem_window meta.resource_template nxtoff st.nxtoff).end_ = st.nxtoff - 1)) ∧
    (meta.intr ≠ none →
      walk_body r filter info_ver i nxtoff meta = Except.error Fail.bug) := by
  have hnot : ¬ meta.ncells ≥ meta.max_cells := Nat.not_le_of_lt hroom
  have hbody : walk_body r filter info_ver i nxtoff meta =
      if meta.intr.isSome then Except.error Fail.bug
      else Except.ok ⟨false, (nxtoff + 256 * bo) % 2 ^ 32,
        { meta with
          intr := some (mem_window meta.resource_template nxtoff ((nxtoff + 256 * bo) % 2 ^ 32))
          res_used := meta.res_used + 1 }, none⟩ := by
    unfold walk_body
    simp only [hbo, hrd, hmagic, ne_eq, not_true_eq_false, if_false, h38, Nat.reduceEqDiff,
      if_true, fwnode_config_irq, hnot, Nat.mul_comm bo 256]
    split_ifs <;> rfl
  constructor
  · intro hnone
    rw [hbody, hnone]
    refine ⟨_, rfl, rfl, rfl, rfl, rfl, rfl, rfl, rfl, ?_⟩
    intro hpos
    have hlt : (nxtoff + 256 * bo) % 2 ^ 32 < 2 ^ 32 := Nat.mod_lt _ (by norm_num)
    simp only [mem_window] at hpos ⊢
    omega
  · intro hsome
    rw [hbody]
    cases hi : meta.intr with
    | none => exact absurd hi hsome
    | some x => rfl

set_option maxRecDepth 1000000 in
/-- Witness for C6 (as amended): the interrupt block of `demo_rom_intr` at
0x100, met at index 1 with nothing recorded yet, leaves the cells alone and
records the window `[0x100, 0x2ff]`. -/
theorem walk_body_intr_block_witness :
    ∃ st, walk_body demo_rom_intr CISCO_MFD_CELLS_FILTER_PCI 6 1 0x100 demo_meta = Except.ok st ∧
      st.cell = none ∧ st.meta.cells = demo_meta.cells ∧
      st.meta.intr = some ⟨0x100, 0x2ff, none, 0x200, 0⟩ := by
  have h := walk_body_intr_block demo_rom_intr CISCO_MFD_CELLS_FILTER_PCI 6 1 0x100 demo_meta 2
    (blkhdr_of_words [8 + 38 * 64, 0, 0, 0, CISCO_FPGA_MAGIC])
    (by rfl) (by rfl) (by decide) (by decide) (by decide)
  obtain ⟨st, hst, _, hcell, hnxt, hcells, _, hintr, _, _⟩ := h.1 (by rfl)
  refine ⟨st, hst, hcell, hcells, ?_⟩
  rw [hintr, hnxt]
  rfl

set_option maxRecDepth 1000000 in
/-- Counterexample to C6 as stated: in `demo_rom_two_intr` the block at 0x300
has valid magic and id 38 and is met by the main walk after the interrupt
block at 0x100; its window is not recorded, the call ends in
`BUG_ON(meta->intr != NULL)`. -/
theorem mfd_cells_second_intr_counterexample :
    (read_hdr demo_rom_two_intr 0x300).toOption.map (fun h => (h.magic, h.id)) =
      some (CISCO_FPGA_MAGIC, 38) ∧
    cisco_fpga_mfd_cells none true demo_rom_two_intr demo_template 0 0
      CISCO_MFD_CELLS_FILTER_PCI 0 = Except.error Fail.bug := by
  refine ⟨by decide, by rfl⟩

/-! ## IRQ resources -/

/-- Searching `0 .. n` finds the least index that satisfies the test. -/
theorem find_range_least (p : Nat → Bool) (b : Nat) (hb : p b = true)
    (hlow : ∀ k, k < b → p k = false) : ∀ n, b < n → (List.range n).find? p = some b := by
  intro n
  induction n with
  | zero => intro h; exact absurd h (Nat.not_lt_zero _)
  | succ n ih =>
    intro h
    rw [List.range_succ, List.find?_append]
    rcases Nat.lt_succ_iff_lt_or_eq.mp h with hlt | heq
    · rw [ih hlt]
      rfl
    · subst heq
      have hnone : (List.range b).find? p = none := by
        rw [List.find?_eq_none]
        intro k hk
        rw [hlow k (List.mem_range.mp hk)]
        exact Bool.false_ne_true
      rw [hnone]
      simp [List.find?, hb]

/-- Kernel `ffs` returns one more than the lowest set bit. -/
theorem ffs_lowest (x b : Nat) (hb32 : b < 32) (hb : x.testBit b = true)
    (hlow : ∀ k, k < b → x.testBit k = false) : ffs x = b + 1 := by
  unfold ffs
  rw [find_range_least (fun k => x.testBit k) b hb hlow 32 hb32]

/-- C7: a regular block whose row has `num_irqs = 1` and a non-zero `irq_set`
with lowest set bit `b`.  When `_fwnode_config` emits the cell: if
`b < max_irqs` the cell has exactly two resources, the memory window followed
by a resource with flags `IORESOURCE_IRQ` and `start = end = b`; if
`b ≥ max_irqs` it has the memory resource only.  Neither case depends on the
interrupt resource `meta->intr` or its offset. -/
theorem fwnode_config_irq_resource (meta meta1 : cell_metadata) (blk : cisco_fpga_blk)
    (absoff nxtoff : Nat) (blk_id : Int) (b : Nat)
    (h38 : blk.id ≠ 38) (hn : blk.num_irqs = 1) (hb32 : b < 32)
    (hb : blk.irq_set.testBit b = true) (hlow : ∀ k, k < b → blk.irq_set.testBit k = false)
    (hcfg : _fwnode_config meta blk absoff nxtoff blk_id = Except.ok (0, meta1)) :
    ∃ c, meta1.cells = meta.cells ++ [c] ∧
      (b < meta.max_irqs →
        c.resources = [mem_window meta.resource_template absoff nxtoff,
          ⟨b, b, none, IORESOURCE_IRQ, 0⟩] ∧ c.num_resources = 2) ∧
      (meta.max_irqs ≤ b →
        c.resources = [mem_window meta.resource_template absoff nxtoff] ∧
        c.num_resources = 1) := by
  obtain ⟨ret, m1, hcfg1, _, _, hcase⟩ := fwnode_config_regular meta blk absoff nxtoff blk_id h38
  rw [hcfg] at hcfg1
  injection hcfg1 with hcfg1
  injection hcfg1 with hret hm
  subst hret hm
  rcases hcase with ⟨h1, _⟩ | ⟨_, _, c, hc, _, _, hres⟩
  · exact absurd h1 (by decide)
  · have hffs := ffs_lowest blk.irq_set b hb32 hb hlow
    refine ⟨c, hc, ?_, ?_⟩
    · intro hlt
      have hirq : irq_resources meta.max_irqs blk.num_irqs blk.irq_set =
          [⟨b, b, none, IORESOURCE_IRQ, 0⟩] := by
        rw [hn]
        simp only [irq_resources, hffs, Nat.succ_ne_zero, if_false, Nat.add_sub_cancel,
          Nat.not_le_of_lt hlt, ge_iff_le, resource_zero]
      rw [mfd_cell.num_resources, hres, hirq]
      exact ⟨rfl, rfl⟩
    · intro hge
      have hirq : irq_resources meta.max_irqs blk.num_irqs blk.irq_set = [] := by
        rw [hn]
        simp only [irq_resources, hffs, Nat.succ_ne_zero, if_false, Nat.add_sub_cancel, hge,
          ge_iff_le, if_true]
      rw [mfd_cell.num_resources, hres, hirq]
      exact ⟨rfl, rfl⟩

set_option maxRecDepth 1000000 in
/-- Witness for C7: with 10 IRQ lines, the gpio row (`irq_set = 0x08`) gives a
cell with the window `[0x300, 0x3ff]` and IRQ line 3, and the spi row
(`irq_set = 0x01`) gives IRQ line 0. -/
theorem fwnode_config_irq_resource_witness :
    gpio_pci_row ∈ cisco_fpga_blks ∧ spi_row ∈ cisco_fpga_blks ∧
    (∃ c, (config_result (_fwnode_config demo_meta gpio_pci_row 0x300 0x400 37)).cells =
        demo_meta.cells ++ [c] ∧
      c.resources = [⟨0x300, 0x3ff, none, 0x200, 0⟩, ⟨3, 3, none, IORESOURCE_IRQ, 0⟩]) ∧
    (∃ c, (config_result (_fwnode_config demo_meta spi_row 0x300 0x400 11)).cells =
        demo_meta.cells ++ [c] ∧
      c.resources = [⟨0x300, 0x3ff, none, 0x200, 0⟩, ⟨0, 0, none, IORESOURCE_IRQ, 0⟩]) := by
  obtain ⟨c, hc, h1, _⟩ := fwnode_config_irq_resource demo_meta
    (config_result (_fwnode_config demo_meta gpio_pci_row 0x300 0x400 37)) gpio_pci_row
    0x300 0x400 37 3 (by decide) (by rfl) (by decide) (by decide) (by decide) (by rfl)
  obtain ⟨d, hd, g1, _⟩ := fwnode_config_irq_resource demo_meta
    (config_result (_fwnode_config demo_meta spi_row 0x300 0x400 11)) spi_row
    0x300 0x400 11 0 (by decide) (by rfl) (by decide) (by decide) (by decide) (by rfl)
  exact ⟨by decide, by decide, ⟨c, hc, (h1 (by decide)).1⟩, ⟨d, hd, (g1 (by decide)).1⟩⟩

/-! ## Interrupt pre-scan -/

/-- The pre-scan loop started at index `i` with `n` iterations left, when the
headers at indices `i .. k - 1` are read and are neither interrupt nor
terminal blocks and the header at index `k` is read: the outcome is decided by
the header at `k`. -/
theorem setup_max_irqs_loop_found {r : Regmap} {meta : cell_metadata} {info : info_rom}
    (hmagic : info.hdr.magic = CISCO_FPGA_MAGIC) (k : Nat) (h : blkhdr)
    (hk : k < meta.block_offset.length)
    (hrd : read_hdr r (table_off meta.block_offset k) = Except.ok h)
    (hstop : h.id = 255 ∨ h.id = 38) :
    ∀ (n i : Nat), i ≤ k → k < i + n →
      (∀ j, i ≤ j → j < k → ∃ hj, read_hdr r (table_off meta.block_offset j) = Except.ok hj ∧
        hj.id ≠ 38 ∧ hj.id ≠ 255) →
      setup_max_irqs_loop r meta info n i (table_off meta.block_offset i) =
        Except.ok { meta with max_irqs :=
          if h.id = 255 then 0
          else if h.maj < 8 then CISCO_FPGA_MAX_IRQS_LT_V8 else CISCO_FPGA_MAX_IRQS_V8 } := by
  intro n
  induction n with
  | zero => intro i hik hkn _; omega
  | succ n ih =>
    intro i hik hkn hpre
    have hilt : i < meta.block_offset.length := Nat.lt_of_le_of_lt hik hk
    have hget : meta.block_offset[i]? = some meta.block_offset[i] := List.getElem?_eq_getElem hilt
    have hnext : (table_off meta.block_offset i + meta.block_offset[i] * 256) % 2 ^ 32 =
        table_off meta.block_offset (i + 1) := by
      unfold table_off
      rw [cum_off_succ hget, Nat.mul_comm _ 256]
      exact Nat.mod_add_mod _ _ _
    unfold setup_max_irqs_loop
    simp only [hget, hnext]
    rcases Nat.eq_or_lt_of_le hik with heq | hlt
    · subst heq
      simp only [hrd, hmagic, ne_eq, not_true_eq_false, if_false]
      rcases hstop with h255 | h38
      · simp only [h255, if_true]
      · have hne : ¬ h.id = 255 := by rw [h38]; decide
        rw [if_neg hne, if_pos h38, if_neg hne]
    · obtain ⟨hj, hrdj, hj38, hj255⟩ := hpre i (Nat.le_refl _) hlt
      simp only [hrdj, hmagic, ne_eq, not_true_eq_false, if_false, hj255, hj38]
      exact ih (i + 1) hlt (by omega) (fun j h1 h2 => hpre j (by omega) h2)

/-- The pre-scan loop over headers that are all read and are neither
interrupt nor terminal blocks ends with `max_irqs = 0`. -/
theorem setup_max_irqs_loop_none {r : Regmap} {meta : cell_metadata} {info : info_rom}
    (hmagic : info.hdr.magic = CISCO_FPGA_MAGIC) :
    ∀ (n i : Nat), i + n ≤ meta.block_offset.length →
      (∀ j, i ≤ j → j < i + n → ∃ hj, read_hdr r (table_off meta.block_offset j) = Except.ok hj ∧
        hj.id ≠ 38 ∧ hj.id ≠ 255) →
      setup_max_irqs_loop r meta info n i (table_off meta.block_offset i) =
        Except.ok { meta with max_irqs := 0 } := by
  intro n
  induction n with
  | zero => intro i _ _; rfl
  | succ n ih =>
    intro i hlen hpre
    have hilt : i < meta.block_offset.length := by omega
    have hget : meta.block_offset[i]? = some meta.block_offset[i] := List.getElem?_eq_getElem hilt
    have hnext : (table_off meta.block_offset i + meta.block_offset[i] * 256) % 2 ^ 32 =
        table_off meta.block_offset (i + 1) := by
      unfold table_off
      rw [cum_off_succ hget, Nat.mul_comm _ 256]
      exact Nat.mod_add_mod _ _ _
    obtain ⟨hj, hrdj, hj38, hj255⟩ := hpre i (Nat.le_refl _) (by omega)
    unfold setup_max_irqs_loop
    simp only [hget, hnext, hrdj, hmagic, ne_eq, not_true_eq_false, if_false, hj255, hj38]
    exact ih (i + 1) (by omega) (fun j h1 h2 => hpre j (by omega) (by omega))

/-- C8: `_setup_max_irqs`, called as `cisco_fpga_mfd_cells` calls it (valid
info-ROM magic, `num_blocks` within the table), scans the headers of table
indices `0 .. num_blocks - 1`, each read at the cumulative table offset.  If
the first header with id 38 or 255 is at index `k`: id 38 with major version
below 8 sets `max_irqs` to 10, id 38 with major version 8 or more sets it to
12, id 255 sets it to 0; if no index has such a header, `max_irqs` is set to
0.  In every case the call succeeds and changes nothing else. -/
theorem setup_max_irqs_spec (r : Regmap) (meta : cell_metadata) (info : info_rom)
    (hmagic : info.hdr.magic = CISCO_FPGA_MAGIC)
    (hlen : info.num_blocks ≤ meta.block_offset.length) :
    (∀ (k : Nat) (h : blkhdr), k < info.num_blocks →
      (∀ j, j < k → ∃ hj, read_hdr r (table_off meta.block_offset j) = Except.ok hj ∧
        hj.id ≠ 38 ∧ hj.id ≠ 255) →
      read_hdr r (table_off meta.block_offset k) = Except.ok h →
      (h.id = 38 → h.maj < 8 →
        _setup_max_irqs r meta info = Except.ok { meta with max_irqs := 10 }) ∧
      (h.id = 38 → 8 ≤ h.maj →
        _setup_max_irqs r meta info = Except.ok { meta with max_irqs := 12 }) ∧
      (h.id = 255 →
        _setup_max_irqs r meta info = Except.ok { meta with max_irqs := 0 })) ∧
    ((∀ j, j < info.num_blocks → ∃ hj, read_hdr r (table_off meta.block_offset j) = Except.ok hj ∧
        hj.id ≠ 38 ∧ hj.id ≠ 255) →
      _setup_max_irqs r meta info = Except.ok { meta with max_irqs := 0 }) := by
  have h0 : table_off meta.block_offset 0 = 0 := by simp [table_off, cum_off]
  constructor
  · intro k h hk hpre hrd
    have hfound : ∀ (hstop : h.id = 255 ∨ h.id = 38), _setup_max_irqs r meta info =
        Except.ok { meta with max_irqs :=
          if h.id = 255 then 0
          else if h.maj < 8 then CISCO_FPGA_MAX_IRQS_LT_V8 else CISCO_FPGA_MAX_IRQS_V8 } := by
      intro hstop
      have := setup_max_irqs_loop_found hmagic k h (Nat.lt_of_lt_of_le hk hlen) hrd hstop
        info.num_blocks 0 (Nat.zero_le _) (by omega) (fun j _ h2 => hpre j h2)
      rw [h0] at this
      exact this
    refine ⟨?_, ?_, ?_⟩
    · intro h38 hmaj
      rw [hfound (Or.inr h38)]
      have hne : ¬ h.id = 255 := by rw [h38]; decide
      simp only [hne, if_false, hmaj, if_true, CISCO_FPGA_MAX_IRQS_LT_V8]
    · intro h38 hmaj
      rw [hfound (Or.inr h38)]
      have hne : ¬ h.id = 255 := by rw [h38]; decide
      simp only [hne, if_false, Nat.not_lt_of_le hmaj, CISCO_FPGA_MAX_IRQS_V8]
    · intro h255
      rw [hfound (Or.inl h255)]
      simp only [h255, if_true]
  · intro hall
    have := @setup_max_irqs_loop_none r meta info hmagic info.num_blocks 0
      (by omega) (fun j _ h2 => hall j (by omega))
    rw [h0] at this
    exact this

set_option maxRecDepth 1000000 in
/-- Witness for C8: on `demo_rom_intr` the pre-scan passes the info header at
index 0, finds the interrupt block of major version 8 at index 1 (offset
0x100) and sets `max_irqs` to 12; on `demo_rom`, which has no interrupt block
before its terminal block, the whole call leaves `max_irqs = 0`. -/
theorem setup_max_irqs_spec_witness :
    _setup_max_irqs demo_rom_intr demo_meta_intr demo_info_intr =
      Except.ok { demo_meta_intr with max_irqs := 12 } ∧
    (cisco_fpga_mfd_cells none true demo_rom demo_template 0 0
      CISCO_MFD_CELLS_FILTER_PCI 0).toOption.map (fun m => m.max_irqs) = some 0 := by
  have h := (setup_max_irqs_spec demo_rom_intr demo_meta_intr demo_info_intr (by decide)
    (by decide)).1 1 (blkhdr_of_words [8 + 38 * 64, 0, 0, 0, CISCO_FPGA_MAGIC]) (by decide)
    (by
      intro j hj
      have hj0 : j = 0 := by omega
      subst hj0
      exact ⟨blkhdr_of_words [6 + 35 * 64, 0, 0, 0, CISCO_FPGA_MAGIC], by rfl, by decide,
        by decide⟩)
    (by rfl)
  exact ⟨h.2.1 (by decide) (by decide), by decide⟩

/-! ## The `missing info_rom` test -/

/-- An error of the word loop of `_blkread` is the error of a register read. -/
theorem blkread_words_error {r : Regmap} {e : Int} :
    ∀ (n reg : Nat), _blkread_words r reg n = Except.error e → ∃ reg1, r reg1 = Except.error e := by
  intro n
  induction n with
  | zero => intro reg h; exact Except.noConfusion h
  | succ n ih =>
    intro reg h
    unfold _blkread_words at h
    cases hv : r (reg % 2 ^ 32) with
    | error e1 =>
      simp only [hv, Except.error.injEq] at h
      subst h
      exact ⟨_, hv⟩
    | ok v =>
      simp only [hv] at h
      cases hws : _blkread_words r (reg + 4) n with
      | error e1 =>
        simp only [hws, Except.error.injEq] at h
        subst h
        exact ih _ hws
      | ok ws =>
        simp only [hws] at h
        exact Except.noConfusion h

/-- An error of a header read is the error of a register read. -/
theorem read_hdr_error {r : Regmap} {e : Int} {absoff : Nat}
    (h : read_hdr r absoff = Except.error e) : ∃ reg, r reg = Except.error e := by
  unfold read_hdr _blkread at h
  rw [if_neg (by decide)] at h
  cases hws : _blkread_words r absoff (SIZEOF_BLKHDR / 4) with
  | error e1 =>
    simp only [hws, Except.error.injEq] at h
    subst h
    exact blkread_words_error _ _ hws
  | ok ws =>
    simp only [hws] at h
    exact Except.noConfusion h

/-- With the info magic valid, an errno of the pre-scan is the error of a
register read. -/
theorem setup_max_irqs_loop_errno {r : Regmap} {meta : cell_metadata} {info : info_rom}
    (hmagic : info.hdr.magic = CISCO_FPGA_MAGIC) {e : Int} :
    ∀ (n i nxtoff : Nat),
      setup_max_irqs_loop r meta info n i nxtoff = Except.error (Fail.errno e) →
      ∃ reg, r reg = Except.error e := by
  intro n
  induction n with
  | zero => intro i nxtoff h; simp [setup_max_irqs_loop] at h
  | succ n ih =>
    intro i nxtoff h
    unfold setup_max_irqs_loop at h
    split at h
    · exact Fail.noConfusion (Except.error.inj h)
    · cases hrd : read_hdr r nxtoff with
      | error e1 =>
        simp only [hrd, Except.error.injEq, Fail.errno.injEq] at h
        subst h
        exact read_hdr_error hrd
      | ok hdr =>
        simp only [hrd, hmagic, ne_eq, not_true_eq_false, if_false] at h
        split_ifs at h
        exact ih _ _ h

/-- Routine `_fwnode_config` never ends with an errno. -/
theorem fwnode_config_no_errno (meta : cell_metadata) (blk : cisco_fpga_blk) (absoff nxtoff : Nat)
    (blk_id : Int) (e : Int) :
    _fwnode_config meta blk absoff nxtoff blk_id ≠ Except.error (Fail.errno e) := by
  intro h
  by_cases h38 : blk.id = 38
  · unfold _fwnode_config at h
    simp only [h38, if_true] at h
    split_ifs at h
    exact Fail.noConfusion (Except.error.inj h)
  · obtain ⟨ret, m1, hcfg, _⟩ := fwnode_config_regular meta blk absoff nxtoff blk_id h38
    rw [hcfg] at h
    exact Except.noConfusion h

/-- An errno of an iteration of the main loop is the error of a register
read. -/
theorem walk_body_errno {r : Regmap} {filter info_ver i nxtoff : Nat} {meta : cell_metadata}
    {e : Int} (h : walk_body r filter info_ver i nxtoff meta = Except.error (Fail.errno e)) :
    ∃ reg, r reg = Except.error e := by
  unfold walk_body at h
  split at h
  · exact Fail.noConfusion (Except.error.inj h)
  · cases hrd : read_hdr r nxtoff with
    | error e1 =>
      simp only [hrd, Except.error.injEq, Fail.errno.injEq] at h
      subst h
      exact read_hdr_error hrd
    | ok hdr =>
      obtain ⟨blk, hblk, _⟩ := blk_match_total hdr.id filter
      simp only [hrd, hblk] at h
      split_ifs at h
      all_goals
        split at h
        · rename_i f hf
          injection h with h
          subst h
          exact absurd hf (fwnode_config_no_errno _ _ _ _ _ _)
        · exact Except.noConfusion h

/-- An errno of the main walk is the error of a register read. -/
theorem walk_loop_errno {r : Regmap} {filter info_ver : Nat} {e : Int} :
    ∀ (n i nxtoff : Nat) (meta : cell_metadata) (vs : List visit),
      walk_loop r filter info_ver n i nxtoff meta vs = Except.error (Fail.errno e) →
      ∃ reg, r reg = Except.error e := by
  intro n
  induction n with
  | zero => intro i nxtoff meta vs h; simp [walk_loop] at h
  | succ n ih =>
    intro i nxtoff meta vs h
    unfold walk_loop at h
    split at h
    · rename_i f hf
      injection h with h
      subst h
      exact walk_body_errno hf
    · split_ifs at h
      exact ih _ _ _ _ h

/-- The call fails with `f` exactly when the walk behind it does. -/
theorem mfd_cells_error_iff (fw : Option fw_node) (kzalloc_ok : Bool) (r : Regmap)
    (tmpl : resource) (pdata pdata_size filter debug : Nat) (f : Fail) :
    cisco_fpga_mfd_cells fw kzalloc_ok r tmpl pdata pdata_size filter debug = Except.error f ↔
      cisco_fpga_mfd_cells_visits fw kzalloc_ok r tmpl pdata pdata_size filter debug =
        Except.error f := by
  unfold cisco_fpga_mfd_cells
  cases cisco_fpga_mfd_cells_visits fw kzalloc_ok r tmpl pdata pdata_size filter debug with
  | error f1 => simp only [Except.error.injEq]
  | ok res => simp only [reduceCtorEq]

/-- C11 (as amended): for every filter value, when block 0 is read with valid
magic and its `num_blocks` is accepted by `_init_metadata`: if the read of the
block-offset table fails, `cisco_fpga_mfd_cells` fails with the errno of that
read, whatever the id of block 0; if the table is read and the id field of
block 0 is not 35, the call fails with `-ENXIO`; if the table is read and the
id is 35, the call fails with `-ENXIO` only when a register read itself
returns `-ENXIO`.  So with the table read and a transport that never reports
`-ENXIO`, the call fails with `-ENXIO` exactly when the id of block 0 is not
35. -/
theorem mfd_cells_enxio_iff (fw : Option fw_node) (kzalloc_ok : Bool) (r : Regmap)
    (tmpl : resource) (pdata pdata_size filter debug : Nat) (ws : List Nat)
    (meta0 : cell_metadata)
    (hrd : _blkread r 0 SIZEOF_INFO_ROM = Except.ok ws)
    (hmagic : (info_rom_of_words ws).hdr.magic = CISCO_FPGA_MAGIC)
    (hinit : _init_metadata fw kzalloc_ok
      (if (info_rom_of_words ws).hdr.maj < 6 then BLOCK_OFFSET_ENTRIES - 1
        else (info_rom_of_words ws).num_blocks) tmpl pdata pdata_size debug = Except.ok meta0) :
    (∀ e, _blkread r SIZEOF_INFO_ROM (2 * BLOCK_OFFSET_ENTRIES) = Except.error e →
      cisco_fpga_mfd_cells fw kzalloc_ok r tmpl pdata pdata_size filter debug =
        Except.error (Fail.errno e)) ∧
    (∀ tws, _blkread r SIZEOF_INFO_ROM (2 * BLOCK_OFFSET_ENTRIES) = Except.ok tws →
      ((info_rom_of_words ws).hdr.id ≠ 35 →
        cisco_fpga_mfd_cells fw kzalloc_ok r tmpl pdata pdata_size filter debug =
          Except.error (Fail.errno (- ENXIO))) ∧
      ((info_rom_of_words ws).hdr.id = 35 →
        cisco_fpga_mfd_cells fw kzalloc_ok r tmpl pdata pdata_size filter debug =
          Except.error (Fail.errno (- ENXIO)) →
        ∃ reg, r reg = Except.error (- ENXIO)) ∧
      ((∀ reg, r reg ≠ Except.error (- ENXIO)) →
        (cisco_fpga_mfd_cells fw kzalloc_ok r tmpl pdata pdata_size filter debug =
            Except.error (Fail.errno (- ENXIO)) ↔
          (info_rom_of_words ws).hdr.id ≠ 35))) := by
  by_cases hver : (info_rom_of_words ws).hdr.maj < 6
  · rw [if_pos hver, init_metadata_255] at hinit
    exact Except.noConfusion hinit
  rw [if_neg hver] at hinit
  have hge : 6 ≤ (info_rom_of_words ws).hdr.maj := Nat.le_of_not_lt hver
  obtain ⟨blk, hblk, hid⟩ := blk_match_total (info_rom_of_words ws).hdr.id filter
  constructor
  · intro e htab
    rw [mfd_cells_error_iff]
    unfold cisco_fpga_mfd_cells_visits
    simp only [hrd, hmagic, ne_eq, not_true_eq_false, if_false, hver, ge_iff_le, hge, if_true,
      hinit, htab]
  intro tws htab
  have hstep : cisco_fpga_mfd_cells_visits fw kzalloc_ok r tmpl pdata pdata_size filter debug =
      if blk.id ≠ 35 then Except.error (Fail.errno (- ENXIO))
      else
        match _setup_max_irqs r { meta0 with block_offset := u16_of_words tws }
            (info_rom_of_words ws) with
        | Except.error f => Except.error f
        | Except.ok meta =>
          match meta.block_offset[0]? with
          | none => Except.error Fail.fault
          | some bo =>
            match _fwnode_config meta blk 0 ((0 + bo * 256) % 2 ^ 32) blk.id with
            | Except.error f => Except.error f
            | Except.ok (_, meta) =>
              match walk_loop r filter (info_rom_of_words ws).hdr.maj
                  ((info_rom_of_words ws).num_blocks - 1) 1 ((0 + bo * 256) % 2 ^ 32) meta [] with
              | Except.error f => Except.error f
              | Except.ok (meta, vs) => Except.ok (dedup_pass meta, vs) := by
    unfold cisco_fpga_mfd_cells_visits
    simp only [hrd, hmagic, ne_eq, not_true_eq_false, if_false, hver, ge_iff_le, hge, if_true,
      hinit, htab, hblk]
  have hfail : (info_rom_of_words ws).hdr.id ≠ 35 →
      cisco_fpga_mfd_cells fw kzalloc_ok r tmpl pdata pdata_size filter debug =
        Except.error (Fail.errno (- ENXIO)) := by
    intro hne
    have h35 : blk.id ≠ 35 := by
      rw [hid]
      intro h
      exact hne (by exact_mod_cast h)
    rw [mfd_cells_error_iff, hstep, if_pos h35]
  have hread : (info_rom_of_words ws).hdr.id = 35 →
      cisco_fpga_mfd_cells fw kzalloc_ok r tmpl pdata pdata_size filter debug =
        Except.error (Fail.errno (- ENXIO)) →
      ∃ reg, r reg = Except.error (- ENXIO) := by
    intro hid35 h
    rw [mfd_cells_error_iff, hstep] at h
    have h35 : blk.id = 35 := by rw [hid, hid35]; rfl
    rw [if_neg (not_not.mpr h35)] at h
    cases hsetup : _setup_max_irqs r { meta0 with block_offset := u16_of_words tws }
        (info_rom_of_words ws) with
    | error f =>
      rw [hsetup] at h
      simp only [Except.error.injEq] at h
      subst h
      exact setup_max_irqs_loop_errno hmagic _ _ _ hsetup
    | ok meta1 =>
      rw [hsetup] at h
      simp only at h
      split at h
      · exact Fail.noConfusion (Except.error.inj h)
      · split at h
        · rename_i f hf
          simp only [Except.error.injEq] at h
          subst h
          exact absurd hf (fwnode_config_no_errno _ _ _ _ _ _)
        · split at h
          · rename_i f hf
            simp only [Except.error.injEq] at h
            subst h
            exact walk_loop_errno _ _ _ _ _ hf
          · exact Except.noConfusion h
  refine ⟨hfail, hread, fun hnx => ⟨fun h hid35 => ?_, hfail⟩⟩
  obtain ⟨reg, hreg⟩ := hread hid35 h
  exact hnx reg hreg

set_option maxRecDepth 1000000 in
/-- Witness for C11 (as amended): on `demo_rom_no_info`, whose block 0 has
valid magic, `num_blocks = 3` and id 37 and whose table is read, the call
fails with `-ENXIO`. -/
theorem mfd_cells_enxio_iff_witness :
    (info_rom_of_words demo_no_info_words).hdr.id ≠ 35 ∧
    cisco_fpga_mfd_cells none true demo_rom_no_info demo_template 0 0
        CISCO_MFD_CELLS_FILTER_PCI 0 = Except.error (Fail.errno (- ENXIO)) :=
  ⟨by decide,
    ((mfd_cells_enxio_iff none true demo_rom_no_info demo_template 0 0 CISCO_MFD_CELLS_FILTER_PCI 0
      demo_no_info_words _ (by rfl) (by decide) (by rfl)).2 _ (by rfl)).1 (by decide)⟩

set_option maxRecDepth 1000000 in
/-- Counterexample to C11 as stated.  On `demo_rom_no_info_table_fails` block 0
has valid magic, an accepted `num_blocks` (3) and id 37, yet the call fails
with -5, the status of the failed table read, not with `-ENXIO`.  On
`demo_rom_read_enxio` block 0 has valid magic, `num_blocks = 3` and id 35, yet
the call fails with `-ENXIO`, the status of the failed read of the header at
0x100. -/
theorem mfd_cells_enxio_counterexample :
    (_blkread demo_rom_no_info_table_fails 0 SIZEOF_INFO_ROM).toOption.map
        (fun ws => ((info_rom_of_words ws).hdr.magic, (info_rom_of_words ws).num_blocks,
          (info_rom_of_words ws).hdr.id)) = some (CISCO_FPGA_MAGIC, 3, 37) ∧
    cisco_fpga_mfd_cells none true demo_rom_no_info_table_fails demo_template 0 0
        CISCO_MFD_CELLS_FILTER_PCI 0 = Except.error (Fail.errno (-5)) ∧
    (-5 : Int) ≠ - ENXIO ∧
    (_blkread demo_rom_read_enxio 0 SIZEOF_INFO_ROM).toOption.map
        (fun ws => ((info_rom_of_words ws).hdr.magic, (info_rom_of_words ws).num_blocks,
          (info_rom_of_words ws).hdr.id)) = some (CISCO_FPGA_MAGIC, 3, 35) ∧
    cisco_fpga_mfd_cells none true demo_rom_read_enxio demo_template 0 0
        CISCO_MFD_CELLS_FILTER_PCI 0 = Except.error (Fail.errno (- ENXIO)) :=
  ⟨by decide, by rfl, by decide, by decide, by rfl⟩

/-! ## Headers without magic -/

/-- C12 (as amended): in a ROM of version 6 or later, when the main walk reads
a header without valid magic at byte offset `a`, where the table entry is
`bo`: if `a` is not 0x20000 (or the cell limit is reached) the iteration
leaves the metadata alone and emits no cell; if `a` is 0x20000 and no
interrupt resource is recorded yet, the region `[a, nxtoff - 1]` is recorded as
the interrupt resource and no cell is emitted; if `a` is 0x20000 and an
interrupt resource is already recorded, `BUG_ON(meta->intr != NULL)` fires; at
0x20000 the iteration does what it does for a block with valid magic and
id 38; and whenever the iteration returns, the walk goes on with the next
table entry at `a + bo * 256`. -/
theorem walk_invalid_magic (r : Regmap) (filter info_ver n i a bo : Nat) (meta : cell_metadata)
    (vs : List visit) (hdr : blkhdr)
    (hver : 6 ≤ info_ver)
    (hbo : meta.block_offset[i]? = some bo)
    (hrd : read_hdr r a = Except.ok hdr)
    (hmagic : hdr.magic ≠ CISCO_FPGA_MAGIC) :
    (a ≠ 0x20000 ∨ meta.max_cells ≤ meta.ncells →
      walk_body r filter info_ver i a meta =
        Except.ok ⟨false, (a + bo * 256) % 2 ^ 32, meta, none⟩) ∧
    (a = 0x20000 → meta.ncells < meta.max_cells → meta.intr = none →
      walk_body r filter info_ver i a meta =
        Except.ok ⟨false, (a + bo * 256) % 2 ^ 32,
          { meta with
            intr := some (mem_window meta.resource_template a ((a + bo * 256) % 2 ^ 32))
            res_used := meta.res_used + 1 }, none⟩) ∧
    (a = 0x20000 → meta.ncells < meta.max_cells → meta.intr ≠ none →
      walk_body r filter info_ver i a meta = Except.error Fail.bug) ∧
    (a = 0x20000 → ∀ (r2 : Regmap) (hdr2 : blkhdr), read_hdr r2 a = Except.ok hdr2 →
      hdr2.magic = CISCO_FPGA_MAGIC → hdr2.id = 38 →
      walk_body r filter info_ver i a meta = walk_body r2 filter info_ver i a meta) ∧
    (∀ st, walk_body r filter info_ver i a meta = Except.ok st →
      st.cell = none ∧
      walk_loop r filter info_ver (n + 1) i a meta vs =
        walk_loop r filter info_ver n (i + 1) ((a + bo * 256) % 2 ^ 32) st.meta
          (vs ++ [⟨i, a, none⟩])) := by
  have hbody : walk_body r filter info_ver i a meta =
      if a ≠ 0x20000 then Except.ok ⟨false, (a + bo * 256) % 2 ^ 32, meta, none⟩
      else
        match _fwnode_config meta _irq_blk a ((a + bo * 256) % 2 ^ 32) 38 with
        | Except.error f => Except.error f
        | Except.ok (_, meta1) => Except.ok ⟨false, (a + bo * 256) % 2 ^ 32, meta1, none⟩ := by
    unfold walk_body
    simp only [hbo, hrd, hmagic, ne_eq, not_false_eq_true, if_true, ge_iff_le, hver]
  have hcfg := fwnode_config_irq meta a ((a + bo * 256) % 2 ^ 32) 38
  refine ⟨?_, ?_, ?_, ?_, ?_⟩
  · intro h
    rw [hbody]
    by_cases ha : a = 0x20000
    · rw [if_neg (not_not.mpr ha), hcfg]
      rcases h with h | h
      · exact absurd ha h
      · rw [if_pos h]
    · rw [if_pos ha]
  · intro ha hlt hintr
    rw [hbody, if_neg (not_not.mpr ha), hcfg, if_neg (Nat.not_le.mpr hlt)]
    simp only [hintr, Option.isSome_none, Bool.false_eq_true, if_false]
  · intro ha hlt hintr
    rw [hbody, if_neg (not_not.mpr ha), hcfg, if_neg (Nat.not_le.mpr hlt)]
    have hs : meta.intr.isSome = true := Option.isSome_iff_ne_none.mpr hintr
    simp only [hs, if_true]
  · intro ha r2 hdr2 hrd2 hm2 hid2
    rw [hbody, if_neg (not_not.mpr ha)]
    have h255 : hdr2.id ≠ 255 := by rw [hid2]; decide
    unfold walk_body
    simp only [hbo, hrd2, hm2, ne_eq, not_true_eq_false, if_false, hid2, if_true,
      Nat.cast_ofNat]
    rw [if_neg (by decide)]
  · intro st hst
    have hshape : st.stop = false ∧ st.nxtoff = (a + bo * 256) % 2 ^ 32 ∧ st.cell = none := by
      rw [hbody] at hst
      split_ifs at hst
      · injection hst with hst
        subst hst
        exact ⟨rfl, rfl, rfl⟩
      · split at hst
        · exact Except.noConfusion hst
        · injection hst with hst
          subst hst
          exact ⟨rfl, rfl, rfl⟩
    refine ⟨hshape.2.2, ?_⟩
    rw [walk_loop]
    simp only [hst, hshape.1, hshape.2.1, hshape.2.2, Bool.false_eq_true, if_false]

set_option maxRecDepth 1000000 in
/-- Witness for C12 (as amended): over `demo_rom`, whose registers at 0x20000
read zeros, with the table `[512, 1, 1]` and no interrupt resource recorded,
the iteration at table index 1 records `[0x20000, 0x200ff]` as the interrupt
resource and emits no cell. -/
theorem walk_invalid_magic_witness :
    walk_body demo_rom CISCO_MFD_CELLS_FILTER_PCI 6 1 0x20000 demo_meta_legacy =
      Except.ok ⟨false, 0x20100,
        { demo_meta_legacy with
          intr := some ⟨0x20000, 0x200ff, none, 0x200, 0⟩, res_used := 1 }, none⟩ :=
  (walk_invalid_magic demo_rom CISCO_MFD_CELLS_FILTER_PCI 6 0 1 0x20000 1 demo_meta_legacy []
    (blkhdr_of_words [0, 0, 0, 0, 0]) (by decide) (by rfl) (by rfl) (by decide)).2.1
    (by rfl) (by decide) (by rfl)

set_option maxRecDepth 1000000 in
/-- Counterexample to C12 as stated: on `demo_rom_intr_legacy` (version 6,
interrupt block with valid magic at 0x100, then a header without magic at byte
offset 0x20000) the call does not return: the region at 0x20000 is handled as
a second interrupt block and `BUG_ON(meta->intr != NULL)` fires. -/
theorem mfd_cells_legacy_after_intr_counterexample :
    cisco_fpga_mfd_cells none true demo_rom_intr_legacy demo_template 0 0
        CISCO_MFD_CELLS_FILTER_PCI 0 = Except.error Fail.bug ∧
    (read_hdr demo_rom_intr_legacy 0x20000).toOption.map (fun h => h.magic) = some 0 := by
  constructor
  · rfl
  · decide

/-! ## Children that suppress a cell -/

/-- C13 (as amended): for a row other than the interrupt row (id 38), when
the first firmware child whose address equals the block offset `absoff` has
`ignore_cell` set, or declares an expected `block_id` different from the id
`blk_id` of the block found there, `_fwnode_config` returns 1 and leaves the
whole metadata (among it `ncells` and the resource, match and name-buffer
cursors) unchanged; and an iteration of the main walk that finds such a block
(valid magic, neither the tail nor the interrupt block) emits no cell, leaves
the metadata unchanged and goes on at the next table entry. -/
theorem fwnode_config_child_skips (meta : cell_metadata) (absoff : Nat) (blk_id : Int)
    (child : child_metadata)
    (hchild : meta.child.find? (fun c => absoff = c.adr) = some child)
    (hskip : child.ignore_cell ≠ 0 ∨
      (child.have_block_id ≠ 0 ∧ (child.block_id : Int) ≠ blk_id)) :
    (∀ (blk : cisco_fpga_blk) (nxtoff : Nat), blk.id ≠ 38 →
      _fwnode_config meta blk absoff nxtoff blk_id = Except.ok (1, meta)) ∧
    (∀ (r : Regmap) (filter info_ver n i bo : Nat) (hdr : blkhdr) (vs : List visit),
      meta.block_offset[i]? = some bo → read_hdr r absoff = Except.ok hdr →
      hdr.magic = CISCO_FPGA_MAGIC → hdr.id ≠ 255 → hdr.id ≠ 38 → (hdr.id : Int) = blk_id →
      walk_body r filter info_ver i absoff meta =
        Except.ok ⟨false, (absoff + bo * 256) % 2 ^ 32, meta, none⟩ ∧
      walk_loop r filter info_ver (n + 1) i absoff meta vs =
        walk_loop r filter info_ver n (i + 1) ((absoff + bo * 256) % 2 ^ 32) meta
          (vs ++ [⟨i, absoff, none⟩])) := by
  have hcfg : ∀ (blk : cisco_fpga_blk) (nxtoff : Nat), blk.id ≠ 38 →
      _fwnode_config meta blk absoff nxtoff blk_id = Except.ok (1, meta) := by
    intro blk nxtoff h38
    unfold _fwnode_config
    by_cases hfull : meta.ncells ≥ meta.max_cells
    · rw [if_pos hfull]
    · rw [if_neg hfull]
      simp only [h38, if_false, hchild]
      by_cases hign : child.ignore_cell ≠ 0
      · rw [if_pos hign]
      · rw [if_neg hign]
        rcases hskip with h | h
        · exact absurd h hign
        · rw [if_pos h]
  refine ⟨hcfg, ?_⟩
  intro r filter info_ver n i bo hdr vs hbo hrd hmagic h255 h38 hid
  obtain ⟨blk, hblk, hbid⟩ := blk_match_total hdr.id filter
  have hb38 : blk.id ≠ 38 := by
    rw [hbid]
    intro h
    exact h38 (by exact_mod_cast h)
  have hbody : walk_body r filter info_ver i absoff meta =
      Except.ok ⟨false, (absoff + bo * 256) % 2 ^ 32, meta, none⟩ := by
    unfold walk_body
    simp only [hbo, hrd, hmagic, ne_eq, not_true_eq_false, if_false, h255, h38, hblk]
    by_cases hname : blk.name.isNone = true
    · rw [if_pos hname]
    · rw [if_neg hname, hid, hcfg blk _ hb38]
      simp only [one_ne_zero, if_false]
  refine ⟨hbody, ?_⟩
  rw [walk_loop]
  simp only [hbody, Bool.false_eq_true, if_false]

set_option maxRecDepth 1000000 in
/-- Witness for C13 (as amended): with a child at 0x100 that expects block
id 11, the gpio row (id 37) found at 0x100 yields no cell: `_fwnode_config`
returns 1 and the metadata is unchanged. -/
theorem fwnode_config_child_skips_witness :
    _fwnode_config demo_meta_expect gpio_pci_row 0x100 0x300 37 =
      Except.ok (1, demo_meta_expect) :=
  (fwnode_config_child_skips demo_meta_expect 0x100 37 demo_child_expect (by rfl)
    (Or.inr (by decide))).1 gpio_pci_row 0x300 (by decide)

set_option maxRecDepth 1000000 in
/-- Counterexample to C13 as stated: with a child at 0x100 that has
`ignore_cell` set, `_fwnode_config` called for the interrupt row at 0x100
returns 0 and advances the resource cursor from 0 to 1. -/
theorem fwnode_config_ignore_intr_counterexample :
    demo_meta_ignore.child.find? (fun c => 0x100 = c.adr) = some demo_child_ignore ∧
    demo_child_ignore.ignore_cell ≠ 0 ∧ demo_meta_ignore.res_used = 0 ∧
    (_fwnode_config demo_meta_ignore _irq_blk 0x100 0x300 38).toOption.map
      (fun p => (p.1, p.2.res_used)) = some (0, 1) := by
  decide

/-! ## Name and id of an emitted cell -/

/-- The child descriptors written by `_init_metadata`, searched by address:
the descriptor of the first firmware child with that address. -/
theorem init_children_find (d : Int) (s : Option String) (a : Nat) :
    ∀ (cs : List fw_child),
      (init_children d s cs).find? (fun ch => a = ch.adr) =
        (cs.find? (fun c => c.adr = some a)).map (fun c => init_child d s c a) := by
  intro cs
  induction cs with
  | nil => rfl
  | cons c cs ih =>
    unfold init_children
    cases hadr : c.adr with
    | none =>
      simp only [List.find?_cons, hadr, reduceCtorEq, decide_False]
      exact ih
    | some adr =>
      simp only [List.find?_cons, hadr, Option.some.injEq]
      by_cases h : adr = a
      · subst h
        simp [init_child]
      · have h2 : ¬ a = adr := fun e => h e.symm
        simp only [h, decide_False, init_child, h2]
        exact ih

/-- The children and the default id that `_init_metadata` leaves. -/
theorem init_metadata_child {fw : Option fw_node} {kzalloc_ok : Bool} {ncells : Nat}
    {tmpl : resource} {pdata pdata_size debug : Nat} {meta0 : cell_metadata}
    (h : _init_metadata fw kzalloc_ok ncells tmpl pdata pdata_size debug = Except.ok meta0) :
    meta0.child = init_children (parent_default_id fw) (fw_name_suffix fw) (fw_children fw) := by
  unfold _init_metadata at h
  by_cases hk : kzalloc_ok = true
  swap
  · rw [if_pos hk] at h
    exact Except.noConfusion h
  rw [if_neg (not_not.mpr hk)] at h
  by_cases hn : (ncells + 1) % 2 ^ 32 ≥ BLOCK_OFFSET_ENTRIES
  · simp only [hn, if_true] at h
    exact Except.noConfusion h
  simp only [hn, if_false] at h
  cases fw with
  | none =>
    simp only [Except.ok.injEq] at h
    subst h
    rfl
  | some parent =>
    simp only [Except.ok.injEq] at h
    subst h
    rfl

/-- The name and the id of the cell that a successful `_fwnode_config` call
emits for a row other than the interrupt row, in terms of the child
descriptors. -/
theorem fwnode_config_emitted {meta m1 : cell_metadata} {blk : cisco_fpga_blk}
    {absoff nxtoff : Nat} {blk_id : Int} (h38 : blk.id ≠ 38)
    (h : _fwnode_config meta blk absoff nxtoff blk_id = Except.ok (0, m1)) :
    ∃ c, m1.cells = meta.cells ++ [c] ∧
      c.name = (match meta.child.find? (fun ch => absoff = ch.adr) with
        | none => blk.name
        | some ch =>
          match ch.name, ch.name_suffix with
          | some name, _ => some name
          | none, some suffix => some (snprintf_name blk.name suffix)
          | none, none => blk.name) ∧
      c.id = (if is_uio_row blk then PLATFORM_DEVID_AUTO
        else
          match meta.child.find? (fun ch => absoff = ch.adr) with
          | none => PLATFORM_DEVID_AUTO
          | some ch => ch.id) := by
  unfold _fwnode_config at h
  by_cases hfull : meta.ncells ≥ meta.max_cells
  · rw [if_pos hfull] at h
    simp at h
  rw [if_neg hfull] at h
  simp only [h38, if_false] at h
  cases hch : meta.child.find? (fun ch => absoff = ch.adr) with
  | none =>
    simp only [hch, Except.ok.injEq, Prod.mk.injEq, true_and] at h
    subst h
    exact ⟨_, rfl, rfl, rfl⟩
  | some ch =>
    simp only [hch] at h
    by_cases hign : ch.ignore_cell ≠ 0
    · rw [if_pos hign] at h
      simp at h
    rw [if_neg hign] at h
    by_cases hexp : ch.have_block_id ≠ 0 ∧ (ch.block_id : Int) ≠ blk_id
    · rw [if_pos hexp] at h
      simp at h
    rw [if_neg hexp] at h
    cases hn : ch.name with
    | some name =>
      simp only [hn, Except.ok.injEq, Prod.mk.injEq, true_and] at h
      subst h
      refine ⟨_, rfl, ?_, rfl⟩
      simp only [hn, fwnode_config_commit]
    | none =>
      cases hs : ch.name_suffix with
      | some suffix =>
        simp only [hn, hs, Except.ok.injEq, Prod.mk.injEq, true_and] at h
        subst h
        refine ⟨_, rfl, ?_, rfl⟩
        simp only [hn, hs, fwnode_config_commit]
      | none =>
        simp only [hn, hs, Except.ok.injEq, Prod.mk.injEq, true_and] at h
        subst h
        refine ⟨_, rfl, ?_, rfl⟩
        simp only [hn, hs, fwnode_config_commit]

/-- The descriptor of the first child at `a`, in terms of the firmware node. -/
theorem init_metadata_find {fw : Option fw_node} {kzalloc_ok : Bool} {ncells : Nat}
    {tmpl : resource} {pdata pdata_size debug : Nat} {meta0 : cell_metadata}
    (h : _init_metadata fw kzalloc_ok ncells tmpl pdata pdata_size debug = Except.ok meta0)
    (a : Nat) :
    meta0.child.find? (fun ch => a = ch.adr) =
      (fw_child_at fw a).map
        (fun c => init_child (parent_default_id fw) (fw_name_suffix fw) c a) := by
  rw [init_metadata_child h, init_children_find]
  rfl

/-- C14: for the cell emitted at offset `a` for a row named `bn` (a
`_fwnode_config` call that returns 0 for a row other than the interrupt row,
on metadata holding the children that `_init_metadata` recorded): without a
firmware child at `a` the name is `bn`; otherwise, with `c` the first child at
`a`, it is the device-name override of `c` if present, else `bn` followed by
the inherited name suffix cut to `PLATFORM_NAME_SIZE - 1` characters if there
is a suffix, else `bn` (this is `cell_name_spec`). -/
theorem fwnode_config_cell_name (fw : Option fw_node) (kzalloc_ok : Bool) (ncells : Nat)
    (tmpl : resource) (pdata pdata_size debug : Nat) (meta0 meta m1 : cell_metadata)
    (blk : cisco_fpga_blk) (bn : String) (a nxtoff : Nat) (blk_id : Int)
    (hinit : _init_metadata fw kzalloc_ok ncells tmpl pdata pdata_size debug = Except.ok meta0)
    (hchild : meta.child = meta0.child)
    (h38 : blk.id ≠ 38) (hname : blk.name = some bn)
    (hcfg : _fwnode_config meta blk a nxtoff blk_id = Except.ok (0, m1)) :
    ∃ c, m1.cells = meta.cells ++ [c] ∧ c.name = some (cell_name_spec fw bn a) := by
  obtain ⟨c, hcells, hcname, _⟩ := fwnode_config_emitted h38 hcfg
  refine ⟨c, hcells, ?_⟩
  rw [hcname, hchild, init_metadata_find hinit a]
  unfold cell_name_spec
  cases fw_child_at fw a with
  | none => exact hname
  | some ch =>
    simp only [Option.map_some', init_child]
    cases hdn : ch.device_name with
    | some name => simp only [Option.isSome_some, if_true]
    | none =>
      simp only [Option.isSome_none, Bool.false_eq_true, if_false]
      cases fw_name_suffix fw with
      | some suffix => simp only [snprintf_name, hname, Option.getD_some]
      | none => simp only [hname]

set_option maxRecDepth 1000000 in
/-- Witness for C14: with the firmware node `demo_fw_devid` (suffix
`-remote-linecard-7`, one child at 0x100 without name override) the gpio cell
emitted at 0x100 is named `gpio-remote-linecar`, 19 characters. -/
theorem fwnode_config_cell_name_witness :
    ∃ c, (config_result (_fwnode_config demo_meta_fw gpio_pci_row 0x100 0x300 37)).cells =
        demo_meta_fw.cells ++ [c] ∧
      c.name = some (cell_name_spec (some demo_fw_devid) "gpio" 0x100) ∧
      cell_name_spec (some demo_fw_devid) "gpio" 0x100 = "gpio-remote-linecar" :=
  (fwnode_config_cell_name (some demo_fw_devid) true 3 demo_template 0 0 0 demo_meta_fw
    demo_meta_fw (config_result (_fwnode_config demo_meta_fw gpio_pci_row 0x100 0x300 37))
    gpio_pci_row "gpio" 0x100 0x300 37 (by rfl) rfl (by decide) (by rfl) (by rfl)).imp
    (fun _ h => ⟨h.1, h.2, by decide⟩)

/-- C15 (as amended): the id, before deduplication, of the cell emitted at
offset `a` (a `_fwnode_config` call that returns 0 for a row other than the
interrupt row, on metadata holding the children that `_init_metadata`
recorded) is `cell_id_spec`: `PLATFORM_DEVID_AUTO` for a UIO row (row id 0 or
`-uio` in the row name) whatever the firmware says; otherwise, with a child at
`a`, the configured id of the first such child (its `devid` value converted to
`int`, `PLATFORM_DEVID_NONE` for `devid-none`, `PLATFORM_DEVID_AUTO` for
`devid-auto`, otherwise the parent's default id), and `PLATFORM_DEVID_AUTO`
without a child at `a`. -/
theorem fwnode_config_cell_id (fw : Option fw_node) (kzalloc_ok : Bool) (ncells : Nat)
    (tmpl : resource) (pdata pdata_size debug : Nat) (meta0 meta m1 : cell_metadata)
    (blk : cisco_fpga_blk) (a nxtoff : Nat) (blk_id : Int)
    (hinit : _init_metadata fw kzalloc_ok ncells tmpl pdata pdata_size debug = Except.ok meta0)
    (hchild : meta.child = meta0.child)
    (h38 : blk.id ≠ 38)
    (hcfg : _fwnode_config meta blk a nxtoff blk_id = Except.ok (0, m1)) :
    ∃ c, m1.cells = meta.cells ++ [c] ∧ c.id = cell_id_spec fw blk a := by
  obtain ⟨c, hcells, _, hcid⟩ := fwnode_config_emitted h38 hcfg
  refine ⟨c, hcells, ?_⟩
  rw [hcid, hchild, init_metadata_find hinit a]
  unfold cell_id_spec
  cases fw_child_at fw a with
  | none => rfl
  | some ch => rfl

set_option maxRecDepth 1000000 in
/-- Witness for C15 (as amended): with the firmware node `demo_fw_devid`,
whose child at 0x100 asks for `devid = 5`, the gpio cell emitted at 0x100
gets the id 5. -/
theorem fwnode_config_cell_id_witness :
    ∃ c, (config_result (_fwnode_config demo_meta_fw gpio_pci_row 0x100 0x300 37)).cells =
        demo_meta_fw.cells ++ [c] ∧
      c.id = cell_id_spec (some demo_fw_devid) gpio_pci_row 0x100 ∧
      cell_id_spec (some demo_fw_devid) gpio_pci_row 0x100 = 5 :=
  (fwnode_config_cell_id (some demo_fw_devid) true 3 demo_template 0 0 0 demo_meta_fw
    demo_meta_fw (config_result (_fwnode_config demo_meta_fw gpio_pci_row 0x100 0x300 37))
    gpio_pci_row 0x100 0x300 37 (by rfl) rfl (by decide) (by rfl)).imp
    (fun _ h => ⟨h.1, h.2, by decide⟩)

set_option maxRecDepth 1000000 in
/-- Counterexample to C15 as stated: on `demo_rom_unknown` (a block with the
unlisted id 200 at 0x100) for a PCI parent whose firmware child at 0x100 asks
for `devid = 5`, the cell emitted at 0x100 carries, before deduplication, the
id `PLATFORM_DEVID_AUTO` (-2) and not the child's configured id 5. -/
theorem mfd_cells_uio_id_counterexample :
    (fw_child_at (some demo_fw_devid) 0x100).map (child_configured_id (some demo_fw_devid)) =
      some 5 ∧
    (run_result (cisco_fpga_mfd_cells_visits (some demo_fw_devid) true demo_rom_unknown
        demo_template 0 0 CISCO_MFD_CELLS_FILTER_PCI 0)).2.map
      (fun v => (v.absoff, v.cell.map (fun c => c.id))) =
      [(0x100, some PLATFORM_DEVID_AUTO), (0x300, none)] := by
  decide

/-! ## Bounds of the single allocation -/

/-- The IRQ loop appends at most `n` resources. -/
theorem irq_resources_length_le (mx : Nat) :
    ∀ (n s : Nat), (irq_resources mx n s).length ≤ n := by
  intro n
  induction n with
  | zero => intro s; simp [irq_resources]
  | succ n ih =>
    intro s
    unfold irq_resources
    simp only
    split_ifs
    · exact Nat.zero_le _
    · exact Nat.zero_le _
    · simp only [List.length_cons]
      exact Nat.succ_le_succ (ih _)

/-- Every row that the lookup returns asks for at most one IRQ. -/
theorem blk_match_num_irqs {id : Int} {filter : Nat} {blk : cisco_fpga_blk}
    (h : cisco_fpga_blk_match id filter = some blk) : blk.num_irqs ≤ 1 := by
  rw [blk_match_unfold] at h
  injection h with h
  subst h
  split
  · rename_i b hb
    have hmem := List.mem_of_find?_eq_some hb
    have hall : ∀ b ∈ cisco_fpga_blks.take 34, b.num_irqs ≤ 1 := by decide
    exact hall b hmem
  · have hall : ∀ f : Nat, (fallback_choice f).num_irqs ≤ 1 := by
      intro f
      unfold fallback_choice
      split_ifs <;> decide
    exact hall filter

/-- The bounds grow with `k`. -/
theorem cursors_within_mono {k l : Nat} {m : cell_metadata} (hkl : k ≤ l)
    (h : cursors_within k m) : cursors_within l m := by
  obtain ⟨h1, h2, h3, h4⟩ := h
  exact ⟨by omega, by omega, by omega, by omega⟩

/-- One `_fwnode_config` call consumes at most one cell, two resource slots,
one match entry and one name-buffer slot, and leaves `max_cells` alone. -/
theorem fwnode_config_cursors {k : Nat} {meta m1 : cell_metadata} {blk : cisco_fpga_blk}
    {absoff nxtoff : Nat} {blk_id ret : Int} (hk : cursors_within k meta)
    (hirq : blk.num_irqs ≤ 1)
    (h : _fwnode_config meta blk absoff nxtoff blk_id = Except.ok (ret, m1)) :
    cursors_within (k + 1) m1 ∧ m1.max_cells = meta.max_cells := by
  obtain ⟨h1, h2, h3, h4⟩ := hk
  have hlen := irq_resources_length_le meta.max_irqs blk.num_irqs blk.irq_set
  have hcommit : ∀ (m : cell_metadata) (cell : mfd_cell), m.max_irqs = meta.max_irqs →
      m.cells = meta.cells → m.res_used = meta.res_used → m.match_used = meta.match_used →
      m.name_used ≤ meta.name_used + 1 → m.max_cells = meta.max_cells →
      cursors_within (k + 1) (fwnode_config_commit m blk cell) ∧
        (fwnode_config_commit m blk cell).max_cells = meta.max_cells := by
    intro m cell e1 e2 e3 e4 e5 e6
    refine ⟨⟨?_, ?_, ?_, ?_⟩, ?_⟩
    · simp only [fwnode_config_commit, cell_metadata.ncells, List.length_append,
        List.length_singleton, e2]
      exact Nat.succ_le_succ h1
    · simp only [fwnode_config_commit, e1, e3]
      omega
    · simp only [fwnode_config_commit, e4]
      omega
    · simp only [fwnode_config_commit]
      omega
    · simp only [fwnode_config_commit, e6]
  unfold _fwnode_config at h
  by_cases hfull : meta.ncells ≥ meta.max_cells
  · rw [if_pos hfull] at h
    simp only [Except.ok.injEq, Prod.mk.injEq] at h
    obtain ⟨_, rfl⟩ := h
    exact ⟨cursors_within_mono (Nat.le_succ k) ⟨h1, h2, h3, h4⟩, rfl⟩
  rw [if_neg hfull] at h
  by_cases h38 : blk.id = 38
  · simp only [h38, if_true] at h
    split_ifs at h
    simp only [Except.ok.injEq, Prod.mk.injEq] at h
    obtain ⟨_, rfl⟩ := h
    refine ⟨⟨Nat.le_succ_of_le h1, ?_, ?_, ?_⟩, rfl⟩
    · simp only
      omega
    · exact Nat.le_succ_of_le h3
    · exact Nat.le_succ_of_le h4
  simp only [h38, if_false] at h
  cases hch : meta.child.find? (fun ch => absoff = ch.adr) with
  | none =>
    simp only [hch, Except.ok.injEq, Prod.mk.injEq] at h
    obtain ⟨_, rfl⟩ := h
    exact hcommit meta _ rfl rfl rfl rfl (Nat.le_succ _) rfl
  | some ch =>
    simp only [hch] at h
    by_cases hign : ch.ignore_cell ≠ 0
    · rw [if_pos hign] at h
      simp only [Except.ok.injEq, Prod.mk.injEq] at h
      obtain ⟨_, rfl⟩ := h
      exact ⟨cursors_within_mono (Nat.le_succ k) ⟨h1, h2, h3, h4⟩, rfl⟩
    rw [if_neg hign] at h
    by_cases hexp : ch.have_block_id ≠ 0 ∧ (ch.block_id : Int) ≠ blk_id
    · rw [if_pos hexp] at h
      simp only [Except.ok.injEq, Prod.mk.injEq] at h
      obtain ⟨_, rfl⟩ := h
      exact ⟨cursors_within_mono (Nat.le_succ k) ⟨h1, h2, h3, h4⟩, rfl⟩
    rw [if_neg hexp] at h
    cases hn : ch.name with
    | some name =>
      simp only [hn, Except.ok.injEq, Prod.mk.injEq] at h
      obtain ⟨_, rfl⟩ := h
      exact hcommit meta _ rfl rfl rfl rfl (Nat.le_succ _) rfl
    | none =>
      cases hs : ch.name_suffix with
      | some suffix =>
        simp only [hn, hs, Except.ok.injEq, Prod.mk.injEq] at h
        obtain ⟨_, rfl⟩ := h
        exact hcommit _ _ rfl rfl rfl rfl (Nat.le_refl _) rfl
      | none =>
        simp only [hn, hs, Except.ok.injEq, Prod.mk.injEq] at h
        obtain ⟨_, rfl⟩ := h
        exact hcommit meta _ rfl rfl rfl rfl (Nat.le_succ _) rfl

/-- One iteration of the main walk handles one block. -/
theorem walk_body_cursors {r : Regmap} {filter info_ver i nxtoff k : Nat} {meta : cell_metadata}
    {st : walk_step} (hk : cursors_within k meta)
    (h : walk_body r filter info_ver i nxtoff meta = Except.ok st) :
    cursors_within (k + 1) st.meta ∧ st.meta.max_cells = meta.max_cells := by
  have hsame : cursors_within (k + 1) meta ∧ meta.max_cells = meta.max_cells :=
    ⟨cursors_within_mono (Nat.le_succ k) hk, rfl⟩
  have hirq0 : _irq_blk.num_irqs ≤ 1 := by decide
  unfold walk_body at h
  split at h
  · exact Except.noConfusion h
  · cases hrd : read_hdr r nxtoff with
    | error e => simp only [hrd] at h; exact Except.noConfusion h
    | ok hdr =>
      obtain ⟨blk, hblk, _⟩ := blk_match_total hdr.id filter
      simp only [hrd, hblk] at h
      split_ifs at h
      all_goals first
        | (injection h with h
           subst h
           exact hsame)
        | (split at h
           · exact Except.noConfusion h
           · rename_i ret m1 hcfg
             injection h with h
             subst h
             first
               | exact fwnode_config_cursors hk hirq0 hcfg
               | exact fwnode_config_cursors hk (blk_match_num_irqs hblk) hcfg)

/-- After `n` more iterations at most `k + n` blocks have been handled. -/
theorem walk_loop_cursors {r : Regmap} {filter info_ver : Nat} :
    ∀ (n i nxtoff k : Nat) (meta : cell_metadata) (vs : List visit) (m : cell_metadata)
      (out : List visit), cursors_within k meta →
      walk_loop r filter info_ver n i nxtoff meta vs = Except.ok (m, out) →
      cursors_within (k + n) m ∧ m.max_cells = meta.max_cells := by
  intro n
  induction n with
  | zero =>
    intro i nxtoff k meta vs m out hk h
    simp only [walk_loop, Except.ok.injEq, Prod.mk.injEq] at h
    obtain ⟨rfl, _⟩ := h
    exact ⟨hk, rfl⟩
  | succ n ih =>
    intro i nxtoff k meta vs m out hk h
    unfold walk_loop at h
    split at h
    · exact Except.noConfusion h
    · rename_i st hst
      obtain ⟨hk1, hmax⟩ := walk_body_cursors hk hst
      split_ifs at h
      · simp only [Except.ok.injEq, Prod.mk.injEq] at h
        obtain ⟨rfl, _⟩ := h
        exact ⟨cursors_within_mono (by omega) hk1, hmax⟩
      · obtain ⟨h1, h2⟩ := ih _ _ _ _ _ _ _ hk1 h
        exact ⟨cursors_within_mono (by omega) h1, h2.trans hmax⟩

/-- C16: in `cisco_fpga_mfd_cells`, when `_init_metadata` accepts `num_blocks`
and `max_cells = num_blocks + 1`: the cursors start at 0; after the pre-scan
they are still 0; after the block-0 call at most one cell, two resource slots,
one match entry and one name-buffer slot are consumed; after `j` iterations of
the main walk (`j ≤ num_blocks - 1`) at most `j + 1` cells, `2 * (j + 1)`
resource slots, `j + 1` match entries and `j + 1` name-buffer slots are
consumed, and `j + 1 ≤ max_cells`; and the returned metadata has
`ncells ≤ max_cells`, at most `2 * max_cells` resource slots and at most
`max_cells` match entries and name-buffer slots consumed.  These are the
sizes of the sub-arrays laid out by `_init_metadata`. -/
theorem mfd_cells_arena_bounds (fw : Option fw_node) (kzalloc_ok : Bool) (r : Regmap)
    (tmpl : resource) (pdata pdata_size filter debug : Nat) (ws : List Nat)
    (meta0 : cell_metadata)
    (hrd : _blkread r 0 SIZEOF_INFO_ROM = Except.ok ws)
    (hinit : _init_metadata fw kzalloc_ok (info_rom_of_words ws).num_blocks tmpl pdata pdata_size
      debug = Except.ok meta0)
    (hmax : meta0.max_cells = (info_rom_of_words ws).num_blocks + 1) :
    cursors_within 0 meta0 ∧
    (∀ (bo : List Nat) (blk : cisco_fpga_blk) (meta1 meta2 : cell_metadata) (nxtoff : Nat)
        (ret : Int),
      cisco_fpga_blk_match (info_rom_of_words ws).hdr.id filter = some blk →
      _setup_max_irqs r { meta0 with block_offset := bo } (info_rom_of_words ws) =
        Except.ok meta1 →
      _fwnode_config meta1 blk 0 nxtoff blk.id = Except.ok (ret, meta2) →
      cursors_within 0 meta1 ∧ cursors_within 1 meta2 ∧
      ∀ (j : Nat) (mj : cell_metadata) (vsj : List visit),
        j ≤ (info_rom_of_words ws).num_blocks - 1 →
        walk_loop r filter (info_rom_of_words ws).hdr.maj j 1 nxtoff meta2 [] =
          Except.ok (mj, vsj) →
        mj.max_cells = (info_rom_of_words ws).num_blocks + 1 ∧ cursors_within (j + 1) mj ∧
          j + 1 ≤ mj.max_cells) ∧
    (∀ (m : cell_metadata) (vs : List visit),
      cisco_fpga_mfd_cells_visits fw kzalloc_ok r tmpl pdata pdata_size filter debug =
        Except.ok (m, vs) →
      m.max_cells = (info_rom_of_words ws).num_blocks + 1 ∧ cursors_within m.max_cells m) := by
  obtain ⟨hc0, _, _, _, _, hr0, hm0, hn0, _⟩ := init_metadata_ok hinit
  have h0 : cursors_within 0 meta0 := by
    refine ⟨?_, ?_, ?_, ?_⟩
    · simp only [cell_metadata.ncells, hc0, List.length_nil, le_refl]
    · omega
    · omega
    · omega
  have hstage : ∀ (bo : List Nat) (blk : cisco_fpga_blk) (meta1 meta2 : cell_metadata)
      (nxtoff : Nat) (ret : Int),
      cisco_fpga_blk_match (info_rom_of_words ws).hdr.id filter = some blk →
      _setup_max_irqs r { meta0 with block_offset := bo } (info_rom_of_words ws) =
        Except.ok meta1 →
      _fwnode_config meta1 blk 0 nxtoff blk.id = Except.ok (ret, meta2) →
      cursors_within 0 meta1 ∧ cursors_within 1 meta2 ∧
      ∀ (j : Nat) (mj : cell_metadata) (vsj : List visit),
        j ≤ (info_rom_of_words ws).num_blocks - 1 →
        walk_loop r filter (info_rom_of_words ws).hdr.maj j 1 nxtoff meta2 [] =
          Except.ok (mj, vsj) →
        mj.max_cells = (info_rom_of_words ws).num_blocks + 1 ∧ cursors_within (j + 1) mj ∧
          j + 1 ≤ mj.max_cells := by
    intro bo blk meta1 meta2 nxtoff ret hblk hsetup hcfg
    obtain ⟨x, hx⟩ := setup_max_irqs_loop_ok _ _ _ _ hsetup
    have h1 : cursors_within 0 meta1 := by
      rw [hx]
      exact h0
    have hmax1 : meta1.max_cells = meta0.max_cells := by rw [hx]
    obtain ⟨h2, hmax2⟩ := fwnode_config_cursors h1 (blk_match_num_irqs hblk) hcfg
    refine ⟨h1, h2, ?_⟩
    intro j mj vsj hj hwalk
    obtain ⟨h3, hmax3⟩ := walk_loop_cursors _ _ _ _ _ _ _ _ h2 hwalk
    have hmaxj : mj.max_cells = (info_rom_of_words ws).num_blocks + 1 := by
      rw [hmax3, hmax2, hmax1, hmax]
    refine ⟨hmaxj, ?_, ?_⟩
    · have : 0 + 1 + j = j + 1 := by omega
      rw [this] at h3
      exact h3
    · omega
  refine ⟨h0, hstage, ?_⟩
  intro m vs h
  obtain ⟨ws1, tws, meta01, blk, meta1, ret, meta2, m3, hrd1, _, _, hinit1, _, hblk, _, hsetup, _,
    hcfg, hwalk, hm⟩ := mfd_cells_visits_ok h
  rw [hrd] at hrd1
  injection hrd1 with hws
  subst hws
  rw [hinit] at hinit1
  injection hinit1 with hmeta
  subst hmeta
  obtain ⟨_, _, hall⟩ := hstage _ blk meta1 meta2 _ ret hblk hsetup hcfg
  obtain ⟨hmax3, ⟨c1, c2, c3, c4⟩, hle⟩ := hall _ m3 vs (Nat.le_refl _) hwalk
  subst hm
  have hlen : (dedup_pass m3).ncells = m3.ncells := by
    simp only [dedup_pass, cell_metadata.ncells, dedup_outer_length]
  refine ⟨hmax3, ?_, ?_, ?_, ?_⟩
  · rw [hlen]
    exact Nat.le_trans c1 hle
  · show m3.res_used ≤ 2 * m3.max_cells
    omega
  · show m3.match_used ≤ m3.max_cells
    omega
  · show m3.name_used ≤ m3.max_cells
    omega

set_option maxRecDepth 1000000 in
/-- Witness for C16: on `demo_rom` (`num_blocks = 3`, so `max_cells = 4`) the
returned metadata has consumed 2 cells, 2 resource slots, 2 match entries and
no name-buffer slot. -/
theorem mfd_cells_arena_bounds_witness :
    (run_result demo_run_regmap).1.max_cells = 4 ∧
    cursors_within 4 (run_result demo_run_regmap).1 ∧
    ((run_result demo_run_regmap).1.ncells, (run_result demo_run_regmap).1.res_used,
      (run_result demo_run_regmap).1.match_used, (run_result demo_run_regmap).1.name_used) =
      (2, 2, 2, 0) :=
  ⟨((mfd_cells_arena_bounds none true demo_rom demo_template 0 0 CISCO_MFD_CELLS_FILTER_REGMAP 0
      demo_info_words _ (by rfl) (by rfl) (by rfl)).2.2
      (run_result demo_run_regmap).1 (run_result demo_run_regmap).2 (by rfl)).1,
   ((mfd_cells_arena_bounds none true demo_rom demo_template 0 0 CISCO_MFD_CELLS_FILTER_REGMAP 0
      demo_info_words _ (by rfl) (by rfl) (by rfl)).2.2
      (run_result demo_run_regmap).1 (run_result demo_run_regmap).2 (by rfl)).2,
   by decide⟩

/-! ## The `can only have one` assertion -/

/-- The pre-scan never trips an assertion. -/
theorem setup_max_irqs_loop_no_bug {r : Regmap} {meta : cell_metadata} {info : info_rom} :
    ∀ (n i nxtoff : Nat), setup_max_irqs_loop r meta info n i nxtoff ≠ Except.error Fail.bug := by
  intro n
  induction n with
  | zero => intro i nxtoff h; simp [setup_max_irqs_loop] at h
  | succ n ih =>
    intro i nxtoff h
    unfold setup_max_irqs_loop at h
    split at h
    · exact Fail.noConfusion (Except.error.inj h)
    · cases hrd : read_hdr r nxtoff with
      | error e1 =>
        simp only [hrd, Except.error.injEq] at h
        exact Fail.noConfusion h
      | ok hdr =>
        simp only [hrd] at h
        split_ifs at h
        · exact Fail.noConfusion (Except.error.inj h)
        · exact ih _ _ h

/-- Routine `_init_metadata` never trips an assertion. -/
theorem init_metadata_no_bug (fw : Option fw_node) (kzalloc_ok : Bool) (n : Nat) (tmpl : resource)
    (pdata pdata_size debug : Nat) :
    _init_metadata fw kzalloc_ok n tmpl pdata pdata_size debug ≠ Except.error Fail.bug := by
  intro h
  unfold _init_metadata at h
  by_cases hk : kzalloc_ok = true
  swap
  · rw [if_pos hk] at h
    exact Fail.noConfusion (Except.error.inj h)
  rw [if_neg (not_not.mpr hk)] at h
  by_cases hn : (n + 1) % 2 ^ 32 ≥ BLOCK_OFFSET_ENTRIES
  · simp only [hn, if_true] at h
    exact Fail.noConfusion (Except.error.inj h)
  simp only [hn, if_false] at h
  cases fw with
  | none => exact Except.noConfusion h
  | some parent => exact Except.noConfusion h

/-- An iteration of the main walk trips the assertion only at an interrupt
region with an interrupt resource already recorded, and records an interrupt
resource only at an interrupt region. -/
theorem walk_body_intr {r : Regmap} {filter info_ver i a : Nat} {meta : cell_metadata} :
    (walk_body r filter info_ver i a meta = Except.error Fail.bug →
      is_intr_region r info_ver a = true ∧ meta.intr.isSome = true) ∧
    (∀ st, walk_body r filter info_ver i a meta = Except.ok st → st.meta.intr.isSome = true →
      meta.intr.isSome = true ∨ is_intr_region r info_ver a = true) := by
  have hirq := fwnode_config_irq meta a
  cases hbo : meta.block_offset[i]? with
  | none =>
    constructor
    · intro h
      simp only [walk_body, hbo, Except.error.injEq, reduceCtorEq] at h
    · intro st h
      simp only [walk_body, hbo, reduceCtorEq] at h
  | some bo =>
    cases hrd : read_hdr r a with
    | error e =>
      constructor
      · intro h
        simp only [walk_body, hbo, hrd, Except.error.injEq, reduceCtorEq] at h
      · intro st h
        simp only [walk_body, hbo, hrd, reduceCtorEq] at h
    | ok hdr =>
      have hcall : ∀ (blk_id : Int),
          ((match _fwnode_config meta _irq_blk a ((a + bo * 256) % 2 ^ 32) blk_id with
            | Except.error f => Except.error f
            | Except.ok (_, meta1) =>
              (Except.ok ⟨false, (a + bo * 256) % 2 ^ 32, meta1, none⟩ : Except Fail walk_step)) =
              Except.error Fail.bug → meta.intr.isSome = true) := by
        intro blk_id h
        rw [hirq] at h
        by_cases h1 : meta.ncells ≥ meta.max_cells
        · rw [if_pos h1] at h
          exact Except.noConfusion h
        · rw [if_neg h1] at h
          by_cases h2 : meta.intr.isSome = true
          · exact h2
          · rw [if_neg h2] at h
            exact Except.noConfusion h
      by_cases hmagic : hdr.magic ≠ CISCO_FPGA_MAGIC
      · by_cases hreg : 6 ≤ info_ver ∧ a = 0x20000
        · obtain ⟨hv, ha⟩ := hreg
          have hintr : is_intr_region r info_ver a = true := by
            unfold is_intr_region
            rw [hrd]
            simp only [hmagic, ne_eq, not_false_eq_true, if_true, hv, ha, and_self, decide_True]
          have hbody : walk_body r filter info_ver i a meta =
              match _fwnode_config meta _irq_blk a ((a + bo * 256) % 2 ^ 32) 38 with
              | Except.error f => Except.error f
              | Except.ok (_, meta1) => Except.ok ⟨false, (a + bo * 256) % 2 ^ 32, meta1, none⟩ := by
            unfold walk_body
            simp only [hbo, hrd, hmagic, ne_eq, not_false_eq_true, if_true, ge_iff_le, hv]
            rw [if_neg (not_not.mpr ha)]
          rw [hbody]
          exact ⟨fun h => ⟨hintr, hcall 38 h⟩, fun _ _ _ => Or.inr hintr⟩
        · have hbody : walk_body r filter info_ver i a meta =
              Except.ok ⟨false, (a + bo * 256) % 2 ^ 32, meta, none⟩ := by
            unfold walk_body
            simp only [hbo, hrd, hmagic, ne_eq, not_false_eq_true, if_true, ge_iff_le]
            by_cases hv : 6 ≤ info_ver
            · have ha : a ≠ 0x20000 := fun e => hreg ⟨hv, e⟩
              simp only [hv, if_true, ha, ne_eq, not_false_eq_true]
            · simp only [hv, if_false]
          rw [hbody]
          constructor
          · intro h
            exact Except.noConfusion h
          · intro st h hs
            injection h with h
            subst h
            exact Or.inl hs
      · have hm : hdr.magic = CISCO_FPGA_MAGIC := not_not.mp hmagic
        by_cases h255 : hdr.id = 255
        · have hbody : walk_body r filter info_ver i a meta =
              Except.ok ⟨true, (a + bo * 256) % 2 ^ 32, meta, none⟩ := by
            unfold walk_body
            simp only [hbo, hrd, hm, ne_eq, not_true_eq_false, if_false, h255, if_true]
          rw [hbody]
          constructor
          · intro h
            exact Except.noConfusion h
          · intro st h hs
            injection h with h
            subst h
            exact Or.inl hs
        · by_cases h38 : hdr.id = 38
          · have hintr : is_intr_region r info_ver a = true := by
              simp only [is_intr_region, hrd, hm, ne_eq, not_true_eq_false, if_false, h38,
                decide_True]
            have hbody : walk_body r filter info_ver i a meta =
                match _fwnode_config meta _irq_blk a ((a + bo * 256) % 2 ^ 32) hdr.id with
                | Except.error f => Except.error f
                | Except.ok (_, meta1) =>
                  Except.ok ⟨false, (a + bo * 256) % 2 ^ 32, meta1, none⟩ := by
              unfold walk_body
              simp only [hbo, hrd, hm, ne_eq, not_true_eq_false, if_false, h255]
              rw [if_pos h38]
            rw [hbody]
            exact ⟨fun h => ⟨hintr, hcall _ h⟩, fun _ _ _ => Or.inr hintr⟩
          · obtain ⟨blk, hblk, hbid⟩ := blk_match_total hdr.id filter
            have hb38 : blk.id ≠ 38 := by
              rw [hbid]
              intro h
              exact h38 (by exact_mod_cast h)
            obtain ⟨ret, m1, hcfg, _, hintr1, _⟩ :=
              fwnode_config_regular meta blk a ((a + bo * 256) % 2 ^ 32) hdr.id hb38
            have hbody : walk_body r filter info_ver i a meta =
                if blk.name.isNone then Except.ok ⟨false, (a + bo * 256) % 2 ^ 32, meta, none⟩
                else Except.ok ⟨false, (a + bo * 256) % 2 ^ 32, m1,
                  if ret = 0 then m1.cells[meta.ncells]? else none⟩ := by
              unfold walk_body
              simp only [hbo, hrd, hm, ne_eq, not_true_eq_false, if_false, h255, h38, hblk, hcfg]
            rw [hbody]
            constructor
            · intro h
              split_ifs at h
            · intro st h hs
              split_ifs at h
              all_goals
                injection h with h
                subst h
                first
                  | exact Or.inl hs
                  | exact Or.inl (hintr1 ▸ hs)

/-- The main walk does not trip the assertion when, counting a recorded
interrupt resource as one, at most one interrupt region lies ahead. -/
theorem walk_loop_no_bug {r : Regmap} {filter info_ver : Nat} :
    ∀ (n i nxtoff : Nat) (meta : cell_metadata) (vs : List visit),
      nxtoff = table_off meta.block_offset i →
      (intr_indices r info_ver meta.block_offset i n).length +
        (if meta.intr.isSome then 1 else 0) ≤ 1 →
      walk_loop r filter info_ver n i nxtoff meta vs ≠ Except.error Fail.bug := by
  intro n
  induction n with
  | zero => intro i nxtoff meta vs _ _ h; simp [walk_loop] at h
  | succ n ih =>
    intro i nxtoff meta vs hoff hcount h
    have hsplit : intr_indices r info_ver meta.block_offset i (n + 1) =
        (if is_intr_region r info_ver nxtoff then [i] else []) ++
          intr_indices r info_ver meta.block_offset (i + 1) n := by
      unfold intr_indices
      rw [List.range'_succ, List.filter_cons, ← hoff]
      split_ifs <;> rfl
    rw [hsplit, List.length_append] at hcount
    unfold walk_loop at h
    cases hbody : walk_body r filter info_ver i nxtoff meta with
    | error f =>
      simp only [hbody, Except.error.injEq] at h
      subst h
      obtain ⟨h1, h2⟩ := walk_body_intr.1 hbody
      simp only [h1, h2, if_true, List.length_singleton] at hcount
      omega
    | ok st =>
      simp only [hbody] at h
      split_ifs at h
      obtain ⟨bo, hdr, hbo, _, hnxt, hframe, _⟩ := walk_body_ok hbody
      have hbo_eq : st.meta.block_offset = meta.block_offset := hframe.1.symm
      refine ih _ _ _ _ ?_ ?_ h
      · rw [hnxt, hoff, hbo_eq]
        unfold table_off
        rw [cum_off_succ hbo]
        omega
      · rw [hbo_eq]
        have hrec := walk_body_intr.2 st hbody
        by_cases hs : st.meta.intr.isSome = true
        · by_cases hi : is_intr_region r info_ver nxtoff = true
          · by_cases hm : meta.intr.isSome = true
            · simp only [hi, hm, Bool.false_eq_true, if_true, List.length_singleton] at hcount
              omega
            · simp only [hi, hm, Bool.false_eq_true, if_true, if_false, List.length_singleton] at hcount
              simp only [hs, if_true]
              omega
          · by_cases hm : meta.intr.isSome = true
            · simp only [hi, hm, Bool.false_eq_true, if_true, if_false, List.length_nil] at hcount
              simp only [hs, if_true]
              omega
            · rcases hrec hs with h1 | h1
              · exact absurd h1 hm
              · exact absurd h1 hi
        · by_cases hi : is_intr_region r info_ver nxtoff = true
          · by_cases hm : meta.intr.isSome = true
            · simp only [hi, hm, Bool.false_eq_true, if_true, List.length_singleton] at hcount
              omega
            · simp only [hi, hm, Bool.false_eq_true, if_true, if_false, List.length_singleton] at hcount
              simp only [hs, Bool.false_eq_true, if_false]
              omega
          · by_cases hm : meta.intr.isSome = true
            · simp only [hi, hm, Bool.false_eq_true, if_true, if_false, List.length_nil] at hcount
              simp only [hs, Bool.false_eq_true, if_false]
              omega
            · simp only [hi, hm, Bool.false_eq_true, if_false, List.length_nil] at hcount
              simp only [hs, Bool.false_eq_true, if_false]
              omega

/-- C17 (as amended): when block 0 and the block-offset table are read and at
most one of the table indices `1, ..., num_blocks - 1` lies at an interrupt
region (a header with valid magic and id 38, or, for version 6 and later, a
header without valid magic at byte offset 0x20000), `cisco_fpga_mfd_cells`
does not trip `BUG_ON(meta->intr != NULL)`. -/
theorem mfd_cells_no_bug (fw : Option fw_node) (kzalloc_ok : Bool) (r : Regmap)
    (tmpl : resource) (pdata pdata_size filter debug : Nat) (ws tws : List Nat)
    (hrd : _blkread r 0 SIZEOF_INFO_ROM = Except.ok ws)
    (htab : _blkread r SIZEOF_INFO_ROM (2 * BLOCK_OFFSET_ENTRIES) = Except.ok tws)
    (hone : (intr_indices r (info_rom_of_words ws).hdr.maj (u16_of_words tws) 1
      ((info_rom_of_words ws).num_blocks - 1)).length ≤ 1) :
    cisco_fpga_mfd_cells fw kzalloc_ok r tmpl pdata pdata_size filter debug ≠
      Except.error Fail.bug := by
  intro h
  rw [mfd_cells_error_iff] at h
  by_cases hmagic : (info_rom_of_words ws).hdr.magic = CISCO_FPGA_MAGIC
  swap
  · simp [cisco_fpga_mfd_cells_visits, hrd, hmagic] at h
  by_cases hver : (info_rom_of_words ws).hdr.maj < 6
  · rw [mfd_cells_visits_pre_v6 fw kzalloc_ok r tmpl pdata pdata_size filter debug ws hrd hmagic
      hver] at h
    exact Fail.noConfusion (Except.error.inj h)
  have hge : 6 ≤ (info_rom_of_words ws).hdr.maj := Nat.le_of_not_lt hver
  unfold cisco_fpga_mfd_cells_visits at h
  simp only [hrd, hmagic, ne_eq, not_true_eq_false, if_false, hver, ge_iff_le, hge, if_true] at h
  cases hinit : _init_metadata fw kzalloc_ok (info_rom_of_words ws).num_blocks tmpl pdata
      pdata_size debug with
  | error f =>
    simp only [hinit, Except.error.injEq] at h
    subst h
    exact init_metadata_no_bug _ _ _ _ _ _ _ hinit
  | ok meta0 =>
    obtain ⟨blk, hblk, hbid⟩ := blk_match_total (info_rom_of_words ws).hdr.id filter
    simp only [hinit, htab, hblk] at h
    by_cases h35 : blk.id = 35
    swap
    · rw [if_pos h35] at h
      exact Fail.noConfusion (Except.error.inj h)
    rw [if_neg (not_not.mpr h35)] at h
    cases hsetup : _setup_max_irqs r { meta0 with block_offset := u16_of_words tws }
        (info_rom_of_words ws) with
    | error f =>
      simp only [hsetup, Except.error.injEq] at h
      subst h
      exact setup_max_irqs_loop_no_bug _ _ _ hsetup
    | ok meta1 =>
      obtain ⟨x, hx⟩ := setup_max_irqs_loop_ok _ _ _ _ hsetup
      have hbo1 : meta1.block_offset = u16_of_words tws := by rw [hx]
      have hintr1 : meta1.intr = none := by
        rw [hx]
        exact (init_metadata_ok hinit).2.1
      simp only [hsetup] at h
      cases hbo0 : meta1.block_offset[0]? with
      | none =>
        simp only [hbo0] at h
        exact Fail.noConfusion (Except.error.inj h)
      | some bo =>
        simp only [hbo0] at h
        have hb38 : blk.id ≠ 38 := by rw [h35]; decide
        obtain ⟨ret, meta2, hcfg, hframe, hintr2, _⟩ :=
          fwnode_config_regular meta1 blk 0 ((0 + bo * 256) % 2 ^ 32) blk.id hb38
        simp only [hcfg] at h
        have hbo2 : meta2.block_offset = u16_of_words tws := by rw [← hframe.1, hbo1]
        have hnone : meta2.intr.isSome = false := by rw [hintr2, hintr1]; rfl
        have hwalk := @walk_loop_no_bug r filter (info_rom_of_words ws).hdr.maj
          ((info_rom_of_words ws).num_blocks - 1) 1 ((0 + bo * 256) % 2 ^ 32) meta2 []
          (by
            rw [← hframe.1]
            unfold table_off
            rw [cum_off_succ hbo0]
            simp [cum_off]
            omega)
          (by
            rw [hbo2, hnone]
            simp only [Bool.false_eq_true, if_false]
            omega)
        split at h
        · rename_i f hf
          simp only [Except.error.injEq] at h
          subst h
          exact hwalk hf
        · exact Except.noConfusion h

set_option maxRecDepth 1000000 in
/-- Witness for C17 (as amended): on `demo_rom_intr`, whose only interrupt
region is the id-38 block at table index 1, the call does not trip the
assertion. -/
theorem mfd_cells_no_bug_witness :
    cisco_fpga_mfd_cells none true demo_rom_intr demo_template 0 0 CISCO_MFD_CELLS_FILTER_PCI 0 ≠
      Except.error Fail.bug :=
  mfd_cells_no_bug none true demo_rom_intr demo_template 0 0 CISCO_MFD_CELLS_FILTER_PCI 0
    [6 + 35 * 64, 0, 0, 0, CISCO_FPGA_MAGIC, 0, 0, 0, 0, 0, 0, 0, 0, 0, 0, 0, 4]
    _
    (by rfl) (by rfl) (by decide)

set_option maxRecDepth 1000000 in
/-- Counterexample to C17 as stated: `demo_rom_legacy_intr` is a version-6
chain with exactly one block with valid magic and id 38 (at 0x20100) and a
region without magic at byte offset 0x20000; the walk records the region at
0x20000 as the interrupt resource and then trips `BUG_ON(meta->intr != NULL)`
at the id-38 block. -/
theorem mfd_cells_intr_after_legacy_counterexample :
    cisco_fpga_mfd_cells none true demo_rom_legacy_intr demo_template 0 0
        CISCO_MFD_CELLS_FILTER_PCI 0 = Except.error Fail.bug ∧
    ([0x20000, 0x20100, 0x20200].map (fun a =>
      (read_hdr demo_rom_legacy_intr a).toOption.map
        (fun h => (decide (h.magic = CISCO_FPGA_MAGIC), h.id)))) =
      [some (false, 0), some (true, 38), some (true, 255)] := by
  constructor
  · rfl
  · decide

/-! ## The bound test of `_init_metadata` and the offset table -/

/-- Routine `_init_metadata` with a successful allocation returns metadata
exactly when the incremented 32-bit count is below the table size. -/
theorem init_metadata_accepts_iff (fw : Option fw_node) (n : Nat) (tmpl : resource)
    (pdata pdata_size debug : Nat) :
    (∃ meta, _init_metadata fw true n tmpl pdata pdata_size debug = Except.ok meta) ↔
      (n + 1) % 2 ^ 32 < BLOCK_OFFSET_ENTRIES := by
  constructor
  · rintro ⟨meta, h⟩
    exact (init_metadata_ok h).2.2.1 ▸ (init_metadata_ok h).2.2.2.1
  · intro h
    unfold _init_metadata
    have h2 : ¬ (n + 1) % 2 ^ 32 ≥ BLOCK_OFFSET_ENTRIES := Nat.not_le.mpr h
    dsimp only
    rw [if_neg (by simp), if_neg h2]
    cases fw with
    | none => exact ⟨_, rfl⟩
    | some p => exact ⟨_, rfl⟩

set_option maxRecDepth 1000000 in
/-- C27: with a successful allocation `_init_metadata` accepts a 32-bit
`num_blocks` exactly when it is at most 254 or equal to `0xFFFFFFFF`; the
count `0xFFFFFFFF` wraps to 0 in `++ncells`, passes the `bad num_blocks` test
and gives `max_cells = 0`; and on a v6 info ROM with that count and an
all-zero offset table the call of `cisco_fpga_mfd_cells` reads the 256-entry
table at index 256 (`Fail.fault`). -/
theorem init_metadata_num_blocks_wrap (fw : Option fw_node) (n : Nat) (tmpl : resource)
    (pdata pdata_size debug : Nat) (hn : n < 2 ^ 32) :
    ((∃ meta, _init_metadata fw true n tmpl pdata pdata_size debug = Except.ok meta) ↔
      (n ≤ 254 ∨ n = 0xFFFFFFFF)) ∧
    (∀ meta, _init_metadata fw true 0xFFFFFFFF tmpl pdata pdata_size debug = Except.ok meta →
      meta.max_cells = 0 ∧ meta.block_offset.length = BLOCK_OFFSET_ENTRIES) ∧
    cisco_fpga_mfd_cells none true demo_rom_wrap demo_template 0 0 CISCO_MFD_CELLS_FILTER_PCI 0
      = Except.error Fail.fault := by
  refine ⟨?_, ?_, rfl⟩
  · rw [init_metadata_accepts_iff]
    unfold BLOCK_OFFSET_ENTRIES
    omega
  · intro meta h
    refine ⟨(init_metadata_ok h).2.2.1, ?_⟩
    unfold _init_metadata at h
    cases fw with
    | none =>
      simp [BLOCK_OFFSET_ENTRIES] at h
      subst h
      simp [BLOCK_OFFSET_ENTRIES]
    | some p =>
      simp [BLOCK_OFFSET_ENTRIES] at h
      subst h
      simp [BLOCK_OFFSET_ENTRIES]

/-- C27 at `num_blocks = 0xFFFFFFFF`: the count is accepted. -/
theorem init_metadata_num_blocks_wrap_witness :
    (0xFFFFFFFF : Nat) < 2 ^ 32 ∧
    (∃ meta, _init_metadata none true 0xFFFFFFFF demo_template 0 0 0 = Except.ok meta) :=
  ⟨by decide,
    (init_metadata_num_blocks_wrap none 0xFFFFFFFF demo_template 0 0 0 (by decide)).1.mpr
      (Or.inr rfl)⟩

/-! ## The magic test of the interrupt pre-scan -/

/-- C28: `_setup_max_irqs`, called as `cisco_fpga_mfd_cells` calls it (valid
info-ROM magic, `num_blocks` within the table), fails with an errno only when
a register read fails with that errno, so its `bad magic` exit is never taken
for a block header; and when the first header with id 38 or 255 has id 38,
that header sets `max_irqs` (10 for a major version below 8, else 12)
whatever its magic is. -/
theorem setup_max_irqs_block_magic (r : Regmap) (meta : cell_metadata) (info : info_rom)
    (hmagic : info.hdr.magic = CISCO_FPGA_MAGIC)
    (hlen : info.num_blocks ≤ meta.block_offset.length) :
    (∀ e, _setup_max_irqs r meta info = Except.error (Fail.errno e) →
      ∃ reg, r reg = Except.error e) ∧
    (∀ (k : Nat) (h : blkhdr), k < info.num_blocks →
      (∀ j, j < k → ∃ hj, read_hdr r (table_off meta.block_offset j) = Except.ok hj ∧
        hj.id ≠ 38 ∧ hj.id ≠ 255) →
      read_hdr r (table_off meta.block_offset k) = Except.ok h → h.id = 38 →
      _setup_max_irqs r meta info = Except.ok { meta with max_irqs :=
        if h.maj < 8 then CISCO_FPGA_MAX_IRQS_LT_V8 else CISCO_FPGA_MAX_IRQS_V8 }) := by
  constructor
  · intro e he
    exact setup_max_irqs_loop_errno hmagic _ _ _ he
  · intro k h hk hpre hrd h38
    have h0 : table_off meta.block_offset 0 = 0 := by simp [table_off, cum_off]
    have := setup_max_irqs_loop_found hmagic k h (Nat.lt_of_lt_of_le hk hlen) hrd (Or.inr h38)
      info.num_blocks 0 (Nat.zero_le _) (by omega) (fun j _ h2 => hpre j h2)
    rw [h0] at this
    have hne : ¬ h.id = 255 := by rw [h38]; decide
    rw [if_neg hne] at this
    exact this

set_option maxRecDepth 1000000 in
/-- C28 on `demo_rom_intr_bad_magic`: the header at 0x100 has id 38 and magic
0, the pre-scan returns 0 with `max_irqs = 12`, and the whole call returns
metadata with `max_irqs = 12`. -/
theorem setup_max_irqs_block_magic_witness :
    demo_info_intr.hdr.magic = CISCO_FPGA_MAGIC ∧
    demo_info_intr.num_blocks ≤ demo_meta_intr.block_offset.length ∧
    (read_hdr demo_rom_intr_bad_magic 0x100).toOption.map (fun h => (h.id, h.magic)) =
      some (38, 0) ∧
    _setup_max_irqs demo_rom_intr_bad_magic demo_meta_intr demo_info_intr =
      Except.ok { demo_meta_intr with max_irqs := 12 } ∧
    (cisco_fpga_mfd_cells none true demo_rom_intr_bad_magic demo_template 0 0
      CISCO_MFD_CELLS_FILTER_PCI 0).toOption.map (fun m => m.max_irqs) = some 12 := by
  have h := (setup_max_irqs_block_magic demo_rom_intr_bad_magic demo_meta_intr demo_info_intr
    (by decide) (by decide)).2 1 (blkhdr_of_words [8 + 38 * 64, 0, 0, 0, 0]) (by decide)
    (by
      intro j hj
      have hj0 : j = 0 := by omega
      subst hj0
      exact ⟨blkhdr_of_words [6 + 35 * 64, 0, 0, 0, CISCO_FPGA_MAGIC], by rfl, by decide,
        by decide⟩)
    (by rfl) (by decide)
  exact ⟨by decide, by decide, by decide, h, by decide⟩

end CiscoMfd

namespace CiscoI2c

/-! ## Helper facts on `read_arb`, `write_arb` and the poll loop -/

/-- Routine `read_arb` touches no statistic but `read_arb_err` and makes at
most one access, a read of the owner register. -/
theorem read_arb_spec (env : arb_env) (k : Nat) (arb : cisco_i2c_arbitrate) :
    (∃ x, (read_arb env k arb).2.1 = { arb with read_arb_err := x }) ∧
    (read_arb env k arb).2.2 =
      (if env.info_regmap then [arb_event.reg_read regmap_id.info (F arb.index)] else []) := by
  unfold read_arb
  cases hr : env.info_regmap with
  | false =>
    simp only [Bool.false_eq_true, if_false]
    refine ⟨?_, trivial⟩
    split_ifs
    · exact ⟨_, rfl⟩
    · exact ⟨arb.read_arb_err, rfl⟩
  | true =>
    simp only [if_true]
    cases env.arb_read k with
    | error e =>
      refine ⟨?_, rfl⟩
      simp only
      split_ifs
      · exact ⟨_, rfl⟩
      · exact ⟨arb.read_arb_err, rfl⟩
    | ok v =>
      refine ⟨?_, rfl⟩
      simp only
      split_ifs
      · exact ⟨_, rfl⟩
      · exact ⟨arb.read_arb_err, rfl⟩

/-- Routine `write_arb` touches no statistic but `write_arb_err` and makes at
most one access, a write of 0 to the owner register. -/
theorem write_arb_spec (env : arb_env) (arb : cisco_i2c_arbitrate) :
    (∃ x, (write_arb env arb).2.1 = { arb with write_arb_err := x }) ∧
    (write_arb env arb).2.2 =
      (if env.info_regmap then [arb_event.reg_write regmap_id.info (F arb.index) 0] else []) := by
  unfold write_arb
  cases hr : env.info_regmap with
  | false =>
    simp only [Bool.false_eq_true, if_false]
    refine ⟨?_, trivial⟩
    split_ifs
    · exact ⟨_, rfl⟩
    · exact ⟨arb.write_arb_err, rfl⟩
  | true =>
    simp only [if_true]
    refine ⟨?_, trivial⟩
    split_ifs
    · exact ⟨_, rfl⟩
    · exact ⟨arb.write_arb_err, rfl⟩

/-- The poll loop touches no statistic but `read_arb_err`, and what it adds to
the trace are sleeps and reads of the owner register, beginning with a sleep
when it runs at all. -/
theorem poll_loop_spec (env : arb_env) (expires : Nat) :
    ∀ (fuel k timeout : Nat) (arb : cisco_i2c_arbitrate) (tr : List arb_event),
      (∃ x, (poll_loop env expires fuel k timeout arb tr).arb = { arb with read_arb_err := x }) ∧
      ∃ post, (poll_loop env expires fuel k timeout arb tr).trace = tr ++ post ∧
        (∀ ev ∈ post, touches_hw ev = false) ∧
        (∀ ev ∈ post, ev = arb_event.reg_read regmap_id.info (F arb.index) ∨ is_sleep ev = true) ∧
        (fuel ≠ 0 → ∃ rest, post = arb_event.sleep timeout :: rest) := by
  intro fuel
  induction fuel with
  | zero =>
    intro k timeout arb tr
    exact ⟨⟨arb.read_arb_err, rfl⟩, [], by simp [poll_loop], by simp, by simp,
      fun h => absurd rfl h⟩
  | succ fuel ih =>
    intro k timeout arb tr
    obtain ⟨⟨x, hx⟩, hev⟩ := read_arb_spec env (k + 1) arb
    have hnew : ∀ ev ∈ [arb_event.sleep timeout] ++ (read_arb env (k + 1) arb).2.2,
        touches_hw ev = false ∧
          (ev = arb_event.reg_read regmap_id.info (F arb.index) ∨ is_sleep ev = true) := by
      intro ev hmem
      rw [hev] at hmem
      rcases List.mem_append.mp hmem with h | h
      · rw [List.mem_singleton.mp h]
        exact ⟨rfl, Or.inr rfl⟩
      · split_ifs at h
        · rw [List.mem_singleton.mp h]
          exact ⟨rfl, Or.inl rfl⟩
        · exact absurd h (List.not_mem_nil _)
    unfold poll_loop
    simp only
    split_ifs
    · obtain ⟨⟨y, hy⟩, post, hpost, h1, h2, _⟩ := ih (k + 1) arb.peer_retry_jiffies
        (read_arb env (k + 1) arb).2.1
        (tr ++ [arb_event.sleep timeout] ++ (read_arb env (k + 1) arb).2.2)
      refine ⟨⟨y, ?_⟩, [arb_event.sleep timeout] ++ (read_arb env (k + 1) arb).2.2 ++ post, ?_, ?_, ?_,
        fun _ => ⟨_, rfl⟩⟩
      · rw [hy, hx]
      · rw [hpost]
        simp only [List.append_assoc]
      · intro ev hmem
        rcases List.mem_append.mp hmem with h | h
        · exact (hnew ev h).1
        · exact h1 ev h
      · intro ev hmem
        rcases List.mem_append.mp hmem with h | h
        · exact (hnew ev h).2
        · have := h2 ev h
          rw [hx] at this
          exact this
    · refine ⟨⟨x, hx⟩, [arb_event.sleep timeout] ++ (read_arb env (k + 1) arb).2.2, ?_, ?_, ?_,
        fun _ => ⟨_, rfl⟩⟩
      · simp only [List.append_assoc]
      · intro ev hmem
        exact (hnew ev hmem).1
      · intro ev hmem
        exact (hnew ev hmem).2

/-! ## The undisputed fast path -/

/-- C18: when the peer-request register reads 0 and the arbitration-owner
register reads 0, `obtain_arbitration` returns after the two reads, with no
register write and no sleep, and the only change to the arbitration state is
`undisputed` incremented by one (`u64` arithmetic: by exactly 1 unless the
counter is at `2 ^ 64 - 1`). -/
theorem obtain_arbitration_undisputed (env : arb_env) (fuel : Nat) (arb : cisco_i2c_arbitrate)
    (hregmap : env.info_regmap = true)
    (hpeer : env.peer_read = Except.ok 0)
    (harb : env.arb_read 0 = Except.ok 0) :
    obtain_arbitration env fuel arb =
      ⟨true, { arb with undisputed := (arb.undisputed + 1) % 2 ^ 64 },
        [arb_event.reg_read regmap_id.hw arb.peer,
          arb_event.reg_read regmap_id.info (F arb.index)]⟩ ∧
    (∀ ev ∈ (obtain_arbitration env fuel arb).trace, ∃ map reg, ev = arb_event.reg_read map reg) ∧
    (arb.undisputed + 1 < 2 ^ 64 →
      (obtain_arbitration env fuel arb).arb.undisputed = arb.undisputed + 1) := by
  have hrd : read_arb env 0 arb =
      (0, arb, [arb_event.reg_read regmap_id.info (F arb.index)]) := by
    unfold read_arb
    simp only [hregmap, if_true, harb]
    rfl
  have hmain : obtain_arbitration env fuel arb =
      ⟨true, { arb with undisputed := (arb.undisputed + 1) % 2 ^ 64 },
        [arb_event.reg_read regmap_id.hw arb.peer,
          arb_event.reg_read regmap_id.info (F arb.index)]⟩ := by
    unfold obtain_arbitration
    simp only [hpeer, Nat.zero_mod, hrd]
    rfl
  refine ⟨hmain, ?_, ?_⟩
  · rw [hmain]
    intro ev hmem
    simp only [List.mem_cons, List.mem_singleton, List.not_mem_nil, or_false] at hmem
    rcases hmem with h | h
    · exact ⟨_, _, h⟩
    · exact ⟨_, _, h⟩
  · intro hlt
    rw [hmain]
    exact Nat.mod_eq_of_lt hlt

set_option maxRecDepth 1000000 in
/-- Witness for C18: in `demo_env_free` the call on `demo_arb` returns with
`undisputed = 1`, every other field as before, and the trace is the two
reads (peer request at `sw1`, owner register `arbi[2]` at 0x508). -/
theorem obtain_arbitration_undisputed_witness :
    obtain_arbitration demo_env_free 10 demo_arb =
      ⟨true, { demo_arb with undisputed := 1 },
        [arb_event.reg_read regmap_id.hw 0x0c, arb_event.reg_read regmap_id.info 0x508]⟩ :=
  (obtain_arbitration_undisputed demo_env_free 10 demo_arb rfl rfl rfl).1

/-! ## The disputed path -/

/-- The value returned by `read_arb` does not depend on the statistics. -/
theorem read_arb_fst (env : arb_env) (k : Nat) (a b : cisco_i2c_arbitrate) :
    (read_arb env k a).1 = (read_arb env k b).1 := by
  unfold read_arb
  cases env.info_regmap with
  | false => rfl
  | true =>
    simp only [if_true]
    cases env.arb_read k with
    | error e => rfl
    | ok v => rfl

/-- The statistics update after the poll loop leaves the dispute counters
alone. -/
theorem record_wait_frame (env : arb_env) (start last sleeps : Nat) (arb : cisco_i2c_arbitrate) :
    (record_wait env start last sleeps arb).disputed = arb.disputed ∧
    (record_wait env start last sleeps arb).undisputed = arb.undisputed := by
  unfold record_wait
  dsimp only
  split_ifs <;> exact ⟨rfl, rfl⟩

/-- The part of `obtain_arbitration` after the local request: it leaves the
dispute counters alone, touches `hw->regmap` no more, and, when the poll loop
is granted an iteration, its first sleep lasts `peer_grant_jiffies` and comes
after at most the clearing write of the owner register. -/
theorem obtain_arbitration_wait_spec (env : arb_env) (fuel v : Nat) (arb : cisco_i2c_arbitrate)
    (tr : List arb_event) :
    (obtain_arbitration_wait env fuel v arb tr).arb.disputed = arb.disputed ∧
    (obtain_arbitration_wait env fuel v arb tr).arb.undisputed = arb.undisputed ∧
    ∃ post, (obtain_arbitration_wait env fuel v arb tr).trace = tr ++ post ∧
      (∀ ev ∈ post, touches_hw ev = false) ∧
      (fuel ≠ 0 → ∃ t rest, post = t ++ arb_event.sleep arb.peer_grant_jiffies :: rest ∧
        ∀ ev ∈ t, is_sleep ev = false) := by
  have hwr : ∃ (a2 : cisco_i2c_arbitrate) (w : List arb_event),
      (if v = 0 then ((write_arb env arb).2.1, (write_arb env arb).2.2) else (arb, [])) = (a2, w) ∧
      (∃ x, a2 = { arb with write_arb_err := x }) ∧
      (∀ ev ∈ w, touches_hw ev = false ∧ is_sleep ev = false) := by
    by_cases hv : v = 0
    · rw [if_pos hv]
      obtain ⟨⟨x, hx⟩, hev⟩ := write_arb_spec env arb
      refine ⟨_, _, rfl, ⟨x, hx⟩, ?_⟩
      intro ev hmem
      rw [hev] at hmem
      split_ifs at hmem
      · rw [List.mem_singleton.mp hmem]
        exact ⟨rfl, rfl⟩
      · exact absurd hmem (List.not_mem_nil _)
    · rw [if_neg hv]
      exact ⟨_, _, rfl, ⟨arb.write_arb_err, rfl⟩, fun ev hmem => absurd hmem (List.not_mem_nil _)⟩
  obtain ⟨a2, w, hwr_eq, ⟨x, ha2⟩, hw⟩ := hwr
  obtain ⟨⟨y, hy⟩, post, hpost, h1, _, h3⟩ :=
    poll_loop_spec env ((env.jiffies 0 % 2 ^ 64 + a2.timeout_jiffies) % 2 ^ 64) fuel 0
      a2.peer_grant_jiffies a2 (tr ++ w)
  have hgrant : a2.peer_grant_jiffies = arb.peer_grant_jiffies := by rw [ha2]
  have hout : (obtain_arbitration_wait env fuel v arb tr).trace = tr ++ (w ++ post) ∧
      (obtain_arbitration_wait env fuel v arb tr).arb.disputed = arb.disputed ∧
      (obtain_arbitration_wait env fuel v arb tr).arb.undisputed = arb.undisputed := by
    unfold obtain_arbitration_wait
    simp only [hwr_eq]
    split
    · refine ⟨?_, ?_, ?_⟩
      · simp only [hpost, List.append_assoc]
      · show (poll_loop env _ fuel 0 a2.peer_grant_jiffies a2 (tr ++ w)).arb.disputed = _
        rw [hy, ha2]
      · show (poll_loop env _ fuel 0 a2.peer_grant_jiffies a2 (tr ++ w)).arb.undisputed = _
        rw [hy, ha2]
    · refine ⟨?_, ?_, ?_⟩
      · simp only [hpost, List.append_assoc]
      · rw [(record_wait_frame _ _ _ _ _).1, hy, ha2]
      · rw [(record_wait_frame _ _ _ _ _).2, hy, ha2]
  refine ⟨hout.2.1, hout.2.2, w ++ post, hout.1, ?_, ?_⟩
  · intro ev hmem
    rcases List.mem_append.mp hmem with h | h
    · exact (hw ev h).1
    · exact h1 ev h
  · intro hfuel
    obtain ⟨rest, hrest⟩ := h3 hfuel
    refine ⟨w, rest, ?_, fun ev h => (hw ev h).2⟩
    rw [hrest, hgrant]

/-- What `obtain_arbitration` does when it does not take the fast path: it
counts one dispute, leaves `undisputed` alone, and its trace is the initial
reads, then the write of 1 to the local-request register, then accesses that
do not touch `hw->regmap`, with the first sleep somewhere after that write. -/
theorem obtain_arbitration_disputed_spec (env : arb_env) (fuel : Nat) (arb : cisco_i2c_arbitrate)
    (hdisp : ¬ (initial_arb env arb = 0 ∧ initial_peer env = 0)) :
    (obtain_arbitration env fuel arb).arb.disputed = u64_inc arb.disputed ∧
    (obtain_arbitration env fuel arb).arb.undisputed = arb.undisputed ∧
    ∃ post, (obtain_arbitration env fuel arb).trace =
        [arb_event.reg_read regmap_id.hw arb.peer] ++
          (if env.info_regmap then [arb_event.reg_read regmap_id.info (F arb.index)] else []) ++
          [arb_event.reg_write regmap_id.hw arb.local_ 1] ++ post ∧
      (∀ ev ∈ post, touches_hw ev = false) ∧
      (env.local_write = 0 → fuel ≠ 0 →
        ∃ t rest, post = t ++ arb_event.sleep arb.peer_grant_jiffies :: rest ∧
          ∀ ev ∈ t, is_sleep ev = false) := by
  have hpr : ∃ a1 : cisco_i2c_arbitrate,
      (match env.peer_read with
        | Except.error _ => (0, { arb with read_peer_err := u64_inc arb.read_peer_err })
        | Except.ok v => (v % 2 ^ 32, arb) : Nat × cisco_i2c_arbitrate) =
        (initial_peer env, a1) ∧ ∃ x, a1 = { arb with read_peer_err := x } := by
    unfold initial_peer
    cases env.peer_read with
    | error e => exact ⟨_, rfl, _, rfl⟩
    | ok v => exact ⟨_, rfl, arb.read_peer_err, rfl⟩
  obtain ⟨a1, hpr1, x1, ha1⟩ := hpr
  obtain ⟨⟨x2, hx2⟩, hev⟩ := read_arb_spec env 0 a1
  have hv : u32_of_int (read_arb env 0 a1).1 = initial_arb env arb := by
    unfold initial_arb
    rw [read_arb_fst env 0 a1 arb]
  have hidx : a1.index = arb.index := by rw [ha1]
  generalize hrd : read_arb env 0 a1 = rd at hx2 hev hv
  obtain ⟨e, a3, evs⟩ := rd
  simp only at hx2 hev hv
  have ha3 : a3.disputed = arb.disputed ∧ a3.undisputed = arb.undisputed ∧
      a3.local_ = arb.local_ ∧ a3.peer_grant_jiffies = arb.peer_grant_jiffies := by
    rw [hx2, ha1]
    exact ⟨rfl, rfl, rfl, rfl⟩
  unfold obtain_arbitration
  simp only [hpr1, hrd, hv]
  rw [if_neg hdisp, hev, hidx]
  by_cases hlw : env.local_write ≠ 0
  · rw [if_pos hlw]
    refine ⟨?_, ?_, [], ?_, ?_, ?_⟩
    · simp only [ha3.1]
    · simp only [ha3.2.1]
    · simp only [List.append_nil, ha3.2.2.1]
    · intro ev hmem
      exact absurd hmem (List.not_mem_nil _)
    · intro h0
      exact absurd h0 hlw
  · rw [if_neg hlw]
    obtain ⟨hd, hu, post, hpost, h1, h2⟩ := obtain_arbitration_wait_spec env fuel
      (initial_arb env arb) { a3 with disputed := u64_inc a3.disputed }
      ([arb_event.reg_read regmap_id.hw arb.peer] ++
        (if env.info_regmap then [arb_event.reg_read regmap_id.info (F arb.index)] else []) ++
        [arb_event.reg_write regmap_id.hw a3.local_ 1])
    refine ⟨?_, ?_, post, ?_, h1, ?_⟩
    · rw [hd]
      simp only [ha3.1]
    · rw [hu]
      simp only [ha3.2.1]
    · rw [hpost, ha3.2.2.1]
    · intro _ hfuel
      obtain ⟨t, rest, hsplit, ht⟩ := h2 hfuel
      refine ⟨t, rest, ?_, ht⟩
      rw [hsplit]
      simp only [ha3.2.2.2]

/-- A negative `int` becomes a non-zero `u32`. -/
theorem u32_of_int_neg {e : Int} (hneg : e < 0) (hint : -(2 ^ 31) ≤ e) : u32_of_int e ≠ 0 := by
  unfold u32_of_int
  omega

/-- A register value survives the round trip through `int`. -/
theorem u32_of_int_of_u32 (v : Nat) : u32_of_int (int_of_u32 v) = v % 2 ^ 32 := by
  unfold u32_of_int int_of_u32
  split_ifs <;> omega

/-- A write to `hw->regmap` is an access to `hw->regmap`. -/
theorem touches_of_writes {ev : arb_event} (h : writes_hw ev = true) : touches_hw ev = true := by
  cases ev with
  | reg_read map reg => exact absurd h (by simp [writes_hw])
  | reg_write map reg val =>
    cases map with
    | hw => rfl
    | info => exact absurd h (by simp [writes_hw])
  | sleep t => exact absurd h (by simp [writes_hw])

/-- C19 (behaviour of the code): when `read_arb` returns a negative status
for the first read of the owner register, `obtain_arbitration` does not take
the undisputed fast path, whatever the peer-request register reads (so also
when the peer is not requesting): `undisputed` is unchanged, `disputed` is
incremented and 1 is written to the local-request register.  The local `arb`
is a `u32`, so the negative status is a non-zero value and `arb <= 0` is
false. -/
theorem obtain_arbitration_read_error_disputed (env : arb_env) (fuel : Nat)
    (arb : cisco_i2c_arbitrate)
    (hfail : (read_arb env 0 arb).1 < 0)
    (hint : -(2 ^ 31) ≤ (read_arb env 0 arb).1) :
    (obtain_arbitration env fuel arb).arb.undisputed = arb.undisputed ∧
    (obtain_arbitration env fuel arb).arb.disputed = (arb.disputed + 1) % 2 ^ 64 ∧
    arb_event.reg_write regmap_id.hw arb.local_ 1 ∈ (obtain_arbitration env fuel arb).trace := by
  have hdisp : ¬ (initial_arb env arb = 0 ∧ initial_peer env = 0) :=
    fun h => u32_of_int_neg hfail hint h.1
  obtain ⟨hd, hu, post, htrace, _, _⟩ := obtain_arbitration_disputed_spec env fuel arb hdisp
  refine ⟨hu, hd, ?_⟩
  rw [htrace]
  simp only [List.mem_append, List.mem_singleton, true_or, or_true]

set_option maxRecDepth 1000000 in
/-- Witness for C19 (behaviour of the code): in `demo_env_read_error` the
first read of the owner register fails with -5 and the peer-request register
reads 0; the call counts a dispute, writes 1 to the local-request register
`sw0`, sleeps `peer_grant_jiffies` and polls. -/
theorem obtain_arbitration_read_error_disputed_witness :
    ((obtain_arbitration demo_env_read_error 10 demo_arb).arb.undisputed = demo_arb.undisputed ∧
      (obtain_arbitration demo_env_read_error 10 demo_arb).arb.disputed =
        (demo_arb.disputed + 1) % 2 ^ 64 ∧
      arb_event.reg_write regmap_id.hw demo_arb.local_ 1 ∈
        (obtain_arbitration demo_env_read_error 10 demo_arb).trace) ∧
    obtain_arbitration demo_env_read_error 10 demo_arb =
      ⟨true, { demo_arb with disputed := 1, read_arb_err := 1, total_wait_msecs := 100,
                             max_wait_msecs := 100, min_wait_msecs := 100 },
        [arb_event.reg_read regmap_id.hw 0x0c, arb_event.reg_read regmap_id.info 0x508,
          arb_event.reg_write regmap_id.hw 0x08 1, arb_event.sleep 100,
          arb_event.reg_read regmap_id.info 0x508]⟩ :=
  ⟨obtain_arbitration_read_error_disputed demo_env_read_error 10 demo_arb (by decide) (by decide),
    by rfl⟩

/-- C20: when the arbitration-owner register initially reads non-zero, or the
peer-request register reads non-zero, `obtain_arbitration` increments
`disputed` by one (`u64` arithmetic), leaves `undisputed` unchanged, and among
its accesses there is exactly one write to `hw->regmap`: the value 1 to the
local-request register, preceded by register reads only (no sleep, so before
any polling); with the local-request and peer-request registers at different
offsets, the peer-request register is never written.  This holds however
many iterations the poll loop is granted. -/
theorem obtain_arbitration_disputed (env : arb_env) (fuel : Nat) (arb : cisco_i2c_arbitrate)
    (hbusy : (env.info_regmap = true ∧ ∃ v, env.arb_read 0 = Except.ok v ∧ v % 2 ^ 32 ≠ 0) ∨
      (∃ p, env.peer_read = Except.ok p ∧ p % 2 ^ 32 ≠ 0)) :
    (obtain_arbitration env fuel arb).arb.disputed = (arb.disputed + 1) % 2 ^ 64 ∧
    (obtain_arbitration env fuel arb).arb.undisputed = arb.undisputed ∧
    (obtain_arbitration env fuel arb).trace.filter writes_hw =
      [arb_event.reg_write regmap_id.hw arb.local_ 1] ∧
    (∃ pre post, (obtain_arbitration env fuel arb).trace =
        pre ++ arb_event.reg_write regmap_id.hw arb.local_ 1 :: post ∧
      (∀ ev ∈ pre, ∃ map reg, ev = arb_event.reg_read map reg) ∧
      (∀ ev ∈ post, touches_hw ev = false) ∧
      (env.local_write = 0 → fuel ≠ 0 → ∃ ev ∈ post, is_sleep ev = true)) ∧
    (arb.local_ ≠ arb.peer →
      ∀ val, arb_event.reg_write regmap_id.hw arb.peer val ∉
        (obtain_arbitration env fuel arb).trace) := by
  have hdisp : ¬ (initial_arb env arb = 0 ∧ initial_peer env = 0) := by
    rintro ⟨h1, h2⟩
    rcases hbusy with ⟨hr, v, hv, hne⟩ | ⟨p, hp, hne⟩
    · apply hne
      rw [← u32_of_int_of_u32 v, ← h1]
      unfold initial_arb read_arb
      simp only [hr, if_true, hv]
    · apply hne
      rw [← h2]
      unfold initial_peer
      simp only [hp]
  obtain ⟨hd, hu, post, htrace, hpost, hsleep⟩ :=
    obtain_arbitration_disputed_spec env fuel arb hdisp
  have hpre : ∀ ev ∈ [arb_event.reg_read regmap_id.hw arb.peer] ++
      (if env.info_regmap then [arb_event.reg_read regmap_id.info (F arb.index)] else []),
      ∃ map reg, ev = arb_event.reg_read map reg := by
    intro ev hmem
    rcases List.mem_append.mp hmem with h | h
    · exact ⟨_, _, List.mem_singleton.mp h⟩
    · split_ifs at h
      · exact ⟨_, _, List.mem_singleton.mp h⟩
      · exact absurd h (List.not_mem_nil _)
  have hpost_w : ∀ ev ∈ post, writes_hw ev = false := by
    intro ev hmem
    cases hw : writes_hw ev with
    | false => rfl
    | true =>
      have := touches_of_writes hw
      rw [hpost ev hmem] at this
      exact absurd this (by decide)
  refine ⟨hd, hu, ?_, ⟨_, post, ?_, hpre, hpost, ?_⟩, ?_⟩
  · rw [htrace, List.filter_append, List.filter_append]
    have h1 : List.filter writes_hw ([arb_event.reg_read regmap_id.hw arb.peer] ++
        (if env.info_regmap then [arb_event.reg_read regmap_id.info (F arb.index)] else [])) =
        [] := by
      rw [List.filter_eq_nil_iff]
      intro ev hmem
      obtain ⟨map, reg, rfl⟩ := hpre ev hmem
      simp [writes_hw]
    have h2 : List.filter writes_hw post = [] := by
      rw [List.filter_eq_nil_iff]
      intro ev hmem
      rw [hpost_w ev hmem]
      decide
    rw [h1, h2]
    rfl
  · rw [htrace]
    simp only [List.append_assoc, List.singleton_append]
  · intro h0 hfuel
    obtain ⟨t, rest, hsplit, _⟩ := hsleep h0 hfuel
    refine ⟨arb_event.sleep arb.peer_grant_jiffies, ?_, rfl⟩
    rw [hsplit]
    simp only [List.mem_append, List.mem_cons, true_or, or_true]
  · intro hne val hmem
    rw [htrace] at hmem
    simp only [List.mem_append, List.mem_singleton] at hmem
    rcases hmem with ((h | h) | h) | h
    · exact arb_event.noConfusion h
    · split_ifs at h
      · exact arb_event.noConfusion (List.mem_singleton.mp h)
      · exact absurd h (List.not_mem_nil _)
    · injection h with _ hreg _
      exact hne hreg.symm
    · have := hpost _ h
      simp [touches_hw] at this

set_option maxRecDepth 1000000 in
/-- Witness for C20: in `demo_env_busy` the owner register reads 1 at first;
the call counts one dispute, writes 1 to `sw0` once, right after the two
initial reads, and then only sleeps and polls the owner register until it
reads 0. -/
theorem obtain_arbitration_disputed_witness :
    ((obtain_arbitration demo_env_busy 10 demo_arb).arb.disputed = (demo_arb.disputed + 1) % 2 ^ 64 ∧
      (obtain_arbitration demo_env_busy 10 demo_arb).arb.undisputed = demo_arb.undisputed ∧
      (obtain_arbitration demo_env_busy 10 demo_arb).trace.filter writes_hw =
        [arb_event.reg_write regmap_id.hw demo_arb.local_ 1]) ∧
    (obtain_arbitration demo_env_busy 10 demo_arb).trace =
      [arb_event.reg_read regmap_id.hw 0x0c, arb_event.reg_read regmap_id.info 0x508,
        arb_event.reg_write regmap_id.hw 0x08 1, arb_event.sleep 100,
        arb_event.reg_read regmap_id.info 0x508, arb_event.sleep 10,
        arb_event.reg_read regmap_id.info 0x508] :=
  ⟨⟨(obtain_arbitration_disputed demo_env_busy 10 demo_arb
      (Or.inl ⟨rfl, 1, rfl, by decide⟩)).1,
    (obtain_arbitration_disputed demo_env_busy 10 demo_arb
      (Or.inl ⟨rfl, 1, rfl, by decide⟩)).2.1,
    (obtain_arbitration_disputed demo_env_busy 10 demo_arb
      (Or.inl ⟨rfl, 1, rfl, by decide⟩)).2.2.1⟩, by rfl⟩

/-! ## Clearing the owner register -/

/-- The trace of the part of `obtain_arbitration` after the local request:
the clearing write of the owner register when the local `arb` is 0 (and the
arbitration block has a register map), then sleeps and reads of the owner
register, the first of them a sleep of `peer_grant_jiffies`. -/
theorem obtain_arbitration_wait_trace (env : arb_env) (fuel v : Nat) (arb : cisco_i2c_arbitrate)
    (tr : List arb_event) :
    ∃ post, (obtain_arbitration_wait env fuel v arb tr).trace =
        tr ++ (if v = 0 ∧ env.info_regmap = true then
          [arb_event.reg_write regmap_id.info (F arb.index) 0] else []) ++ post ∧
      (∀ ev ∈ post, ev = arb_event.reg_read regmap_id.info (F arb.index) ∨ is_sleep ev = true) ∧
      (fuel ≠ 0 → ∃ rest, post = arb_event.sleep arb.peer_grant_jiffies :: rest) := by
  have hwr : ∃ (a2 : cisco_i2c_arbitrate),
      (if v = 0 then ((write_arb env arb).2.1, (write_arb env arb).2.2) else (arb, [])) =
        (a2, if v = 0 ∧ env.info_regmap = true then
          [arb_event.reg_write regmap_id.info (F arb.index) 0] else []) ∧
      (∃ x, a2 = { arb with write_arb_err := x }) := by
    by_cases hv : v = 0
    · rw [if_pos hv]
      obtain ⟨⟨x, hx⟩, hev⟩ := write_arb_spec env arb
      refine ⟨_, ?_, ⟨x, hx⟩⟩
      rw [hev]
      simp only [hv, true_and]
    · rw [if_neg hv]
      refine ⟨_, ?_, ⟨arb.write_arb_err, rfl⟩⟩
      simp only [hv, false_and, if_false]
  obtain ⟨a2, hwr_eq, ⟨x, ha2⟩⟩ := hwr
  obtain ⟨_, post, hpost, _, h2, h3⟩ :=
    poll_loop_spec env ((env.jiffies 0 % 2 ^ 64 + a2.timeout_jiffies) % 2 ^ 64) fuel 0
      a2.peer_grant_jiffies a2
      (tr ++ (if v = 0 ∧ env.info_regmap = true then
        [arb_event.reg_write regmap_id.info (F arb.index) 0] else []))
  have hgrant : a2.peer_grant_jiffies = arb.peer_grant_jiffies := by rw [ha2]
  have hidx : a2.index = arb.index := by rw [ha2]
  refine ⟨post, ?_, ?_, ?_⟩
  · unfold obtain_arbitration_wait
    simp only [hwr_eq]
    split <;> exact hpost
  · intro ev hmem
    have := h2 ev hmem
    rw [hidx] at this
    exact this
  · intro hfuel
    obtain ⟨rest, hrest⟩ := h3 hfuel
    exact ⟨rest, by rw [hrest, hgrant]⟩

/-- The whole trace of a call that takes the disputed path and whose write of
the local request is accepted. -/
theorem obtain_arbitration_disputed_trace (env : arb_env) (fuel : Nat) (arb : cisco_i2c_arbitrate)
    (hdisp : ¬ (initial_arb env arb = 0 ∧ initial_peer env = 0))
    (hlw : env.local_write = 0) :
    ∃ post, (obtain_arbitration env fuel arb).trace =
        [arb_event.reg_read regmap_id.hw arb.peer] ++
          (if env.info_regmap then [arb_event.reg_read regmap_id.info (F arb.index)] else []) ++
          [arb_event.reg_write regmap_id.hw arb.local_ 1] ++
          (if initial_arb env arb = 0 ∧ env.info_regmap = true then
            [arb_event.reg_write regmap_id.info (F arb.index) 0] else []) ++ post ∧
      (∀ ev ∈ post, ev = arb_event.reg_read regmap_id.info (F arb.index) ∨ is_sleep ev = true) ∧
      (fuel ≠ 0 → ∃ rest, post = arb_event.sleep arb.peer_grant_jiffies :: rest) := by
  have hpr : ∃ a1 : cisco_i2c_arbitrate,
      (match env.peer_read with
        | Except.error _ => (0, { arb with read_peer_err := u64_inc arb.read_peer_err })
        | Except.ok v => (v % 2 ^ 32, arb) : Nat × cisco_i2c_arbitrate) =
        (initial_peer env, a1) ∧ ∃ x, a1 = { arb with read_peer_err := x } := by
    unfold initial_peer
    cases env.peer_read with
    | error e => exact ⟨_, rfl, _, rfl⟩
    | ok v => exact ⟨_, rfl, arb.read_peer_err, rfl⟩
  obtain ⟨a1, hpr1, x1, ha1⟩ := hpr
  obtain ⟨⟨x2, hx2⟩, hev⟩ := read_arb_spec env 0 a1
  have hv : u32_of_int (read_arb env 0 a1).1 = initial_arb env arb := by
    unfold initial_arb
    rw [read_arb_fst env 0 a1 arb]
  have hidx : a1.index = arb.index := by rw [ha1]
  generalize hrd : read_arb env 0 a1 = rd at hx2 hev hv
  obtain ⟨e, a3, evs⟩ := rd
  simp only at hx2 hev hv
  have ha3 : a3.local_ = arb.local_ ∧ a3.peer_grant_jiffies = arb.peer_grant_jiffies ∧
      a3.index = arb.index := by
    rw [hx2, ha1]
    exact ⟨rfl, rfl, rfl⟩
  unfold obtain_arbitration
  simp only [hpr1, hrd, hv]
  rw [if_neg hdisp, hev, hidx, if_neg (not_not.mpr hlw)]
  obtain ⟨post, hpost, h1, h2⟩ := obtain_arbitration_wait_trace env fuel
    (initial_arb env arb) { a3 with disputed := u64_inc a3.disputed }
    ([arb_event.reg_read regmap_id.hw arb.peer] ++
      (if env.info_regmap then [arb_event.reg_read regmap_id.info (F arb.index)] else []) ++
      [arb_event.reg_write regmap_id.hw a3.local_ 1])
  refine ⟨post, ?_, ?_, ?_⟩
  · rw [hpost]
    simp only [ha3.1, ha3.2.2]
  · intro ev hmem
    have := h1 ev hmem
    simp only [ha3.2.2] at this
    exact this
  · intro hfuel
    obtain ⟨rest, hrest⟩ := h2 hfuel
    exact ⟨rest, by rw [hrest]; simp only [ha3.2.1]⟩

/-- C21 (as amended): on the disputed path, once the write of the local
request is accepted, `obtain_arbitration` writes 0 to the arbitration-owner
register exactly when the owner register initially read ZERO (the local `arb`
is 0, so the dispute comes from the peer's request) and the arbitration block
has a register map; that write comes right after the write of the local
request; and whatever status that write returns, the poll loop runs: the next
access is the sleep of `peer_grant_jiffies`. -/
theorem obtain_arbitration_clear_owner (env : arb_env) (fuel : Nat) (arb : cisco_i2c_arbitrate)
    (hdisp : ¬ (initial_arb env arb = 0 ∧ initial_peer env = 0))
    (hlw : env.local_write = 0) :
    ((obtain_arbitration env fuel arb).trace.filter writes_info =
      if initial_arb env arb = 0 ∧ env.info_regmap = true then
        [arb_event.reg_write regmap_id.info (F arb.index) 0] else []) ∧
    (∃ pre post, (obtain_arbitration env fuel arb).trace =
        pre ++ [arb_event.reg_write regmap_id.hw arb.local_ 1] ++
          (if initial_arb env arb = 0 ∧ env.info_regmap = true then
            [arb_event.reg_write regmap_id.info (F arb.index) 0] else []) ++ post ∧
      (∀ ev ∈ pre, ∃ map reg, ev = arb_event.reg_read map reg) ∧
      (∀ ev ∈ post, ev = arb_event.reg_read regmap_id.info (F arb.index) ∨ is_sleep ev = true) ∧
      (fuel ≠ 0 → ∃ rest, post = arb_event.sleep arb.peer_grant_jiffies :: rest)) := by
  obtain ⟨post, htrace, hpost, hsleep⟩ := obtain_arbitration_disputed_trace env fuel arb hdisp hlw
  have hpre : ∀ ev ∈ [arb_event.reg_read regmap_id.hw arb.peer] ++
      (if env.info_regmap then [arb_event.reg_read regmap_id.info (F arb.index)] else []),
      ∃ map reg, ev = arb_event.reg_read map reg := by
    intro ev hmem
    rcases List.mem_append.mp hmem with h | h
    · exact ⟨_, _, List.mem_singleton.mp h⟩
    · split_ifs at h
      · exact ⟨_, _, List.mem_singleton.mp h⟩
      · exact absurd h (List.not_mem_nil _)
  refine ⟨?_, _, post, htrace, hpre, hpost, hsleep⟩
  rw [htrace]
  simp only [List.filter_append]
  have h1 : List.filter writes_info ([arb_event.reg_read regmap_id.hw arb.peer]) = [] := rfl
  have h2 : List.filter writes_info
      (if env.info_regmap then [arb_event.reg_read regmap_id.info (F arb.index)] else []) = [] := by
    split_ifs <;> rfl
  have h3 : List.filter writes_info [arb_event.reg_write regmap_id.hw arb.local_ 1] = [] := rfl
  have h4 : List.filter writes_info post = [] := by
    rw [List.filter_eq_nil_iff]
    intro ev hmem
    rcases hpost ev hmem with h | h
    · rw [h]
      simp [writes_info]
    · cases ev with
      | reg_read map reg => simp [writes_info]
      | reg_write map reg val => simp [is_sleep] at h
      | sleep t => simp [writes_info]
  have h5 : List.filter writes_info
      (if initial_arb env arb = 0 ∧ env.info_regmap = true then
        [arb_event.reg_write regmap_id.info (F arb.index) 0] else []) =
      (if initial_arb env arb = 0 ∧ env.info_regmap = true then
        [arb_event.reg_write regmap_id.info (F arb.index) 0] else []) := by
    split_ifs <;> rfl
  rw [h1, h2, h3, h4, h5]
  simp only [List.nil_append, List.append_nil]

set_option maxRecDepth 1000000 in
/-- Witness for C21 (as amended): in `demo_env_peer_clear_fails` the owner
register reads 0, the peer-request register reads 1 and the clearing write
fails with -5; the call writes 0 to the owner register `arbi[2]` once, and the
poll still runs. -/
theorem obtain_arbitration_clear_owner_witness :
    (obtain_arbitration demo_env_peer_clear_fails 10 demo_arb).trace.filter writes_info =
      [arb_event.reg_write regmap_id.info 0x508 0] ∧
    obtain_arbitration demo_env_peer_clear_fails 10 demo_arb =
      ⟨true, { demo_arb with disputed := 1, write_arb_err := 1, total_wait_msecs := 100,
                             max_wait_msecs := 100, min_wait_msecs := 100 },
        [arb_event.reg_read regmap_id.hw 0x0c, arb_event.reg_read regmap_id.info 0x508,
          arb_event.reg_write regmap_id.hw 0x08 1, arb_event.reg_write regmap_id.info 0x508 0,
          arb_event.sleep 100, arb_event.reg_read regmap_id.info 0x508]⟩ :=
  ⟨(obtain_arbitration_clear_owner demo_env_peer_clear_fails 10 demo_arb (by decide) (by rfl)).1,
    by rfl⟩

set_option maxRecDepth 1000000 in
/-- Counterexample to C21 as stated: in `demo_env_busy` the owner register
initially reads non-zero (1) and the call never writes the owner register; in
`demo_env_peer` the owner register initially reads 0 (the peer-request
register reads 1) and the call writes 0 to the owner register. -/
theorem obtain_arbitration_clear_counterexample :
    initial_arb demo_env_busy demo_arb = 1 ∧
    (obtain_arbitration demo_env_busy 10 demo_arb).trace.filter writes_info = [] ∧
    initial_arb demo_env_peer demo_arb = 0 ∧
    (obtain_arbitration demo_env_peer 10 demo_arb).trace.filter writes_info =
      [arb_event.reg_write regmap_id.info 0x508 0] := by
  decide

/-! ## The poll loop -/

/-- The value and the number of sleeps with which the poll loop ends do not
depend on the statistics, the first timeout or the trace it starts with. -/
theorem poll_loop_indep (env : arb_env) (expires : Nat) :
    ∀ (fuel k t1 t2 : Nat) (a1 a2 : cisco_i2c_arbitrate) (tr1 tr2 : List arb_event),
      (poll_loop env expires fuel k t1 a1 tr1).last = (poll_loop env expires fuel k t2 a2 tr2).last ∧
      (poll_loop env expires fuel k t1 a1 tr1).sleeps =
        (poll_loop env expires fuel k t2 a2 tr2).sleeps := by
  intro fuel
  induction fuel with
  | zero => intro k t1 t2 a1 a2 tr1 tr2; exact ⟨rfl, rfl⟩
  | succ fuel ih =>
    intro k t1 t2 a1 a2 tr1 tr2
    unfold poll_loop
    simp only
    rw [read_arb_fst env (k + 1) a1 a2]
    split_ifs
    · exact ih _ _ _ _ _ _ _
    · exact ⟨rfl, rfl⟩

/-- How the poll loop runs: it sleeps at least once when granted an
iteration; every poll before the last one found the owner register non-zero
with the clock not past `expires`; and when it ends, it ends with the value
just read, which is 0, or with the clock past `expires`. -/
theorem poll_loop_polls (env : arb_env) (expires : Nat) (arb : cisco_i2c_arbitrate) :
    ∀ (fuel k timeout : Nat) (a : cisco_i2c_arbitrate) (tr : List arb_event),
      k ≤ (poll_loop env expires fuel k timeout a tr).sleeps ∧
      (poll_loop env expires fuel k timeout a tr).sleeps ≤ k + fuel ∧
      (∀ j, k < j → j < (poll_loop env expires fuel k timeout a tr).sleeps →
        poll_value env arb j ≠ 0 ∧ time_before_eq (env.jiffies j) expires = true) ∧
      (∀ v, (poll_loop env expires fuel k timeout a tr).last = some v →
        k < (poll_loop env expires fuel k timeout a tr).sleeps ∧
        v = poll_value env arb (poll_loop env expires fuel k timeout a tr).sleeps ∧
        (v = 0 ∨ time_before_eq (env.jiffies (poll_loop env expires fuel k timeout a tr).sleeps)
          expires = false)) ∧
      ((poll_loop env expires fuel k timeout a tr).last = none →
        (poll_loop env expires fuel k timeout a tr).sleeps = k + fuel) := by
  intro fuel
  induction fuel with
  | zero =>
    intro k timeout a tr
    refine ⟨Nat.le_refl _, Nat.le_refl _, ?_, ?_, fun _ => rfl⟩
    · intro j h1 h2
      exact absurd h2 (Nat.not_lt.mpr (Nat.le_of_lt h1))
    · intro v h
      exact Option.noConfusion h
  | succ fuel ih =>
    intro k timeout a tr
    have hval : u32_of_int (read_arb env (k + 1) a).1 = poll_value env arb (k + 1) := by
      unfold poll_value
      rw [read_arb_fst env (k + 1) a arb]
    unfold poll_loop
    simp only
    rw [hval]
    by_cases hc : poll_value env arb (k + 1) ≠ 0 ∧
        time_before_eq (env.jiffies (k + 1)) expires = true
    · rw [if_pos hc]
      obtain ⟨h1, h2, h3, h4, h5⟩ := ih (k + 1) a.peer_retry_jiffies (read_arb env (k + 1) a).2.1
        (tr ++ [arb_event.sleep timeout] ++ (read_arb env (k + 1) a).2.2)
      refine ⟨by omega, by omega, ?_, ?_, ?_⟩
      · intro j hj1 hj2
        by_cases hj : j = k + 1
        · rw [hj]
          exact hc
        · exact h3 j (by omega) hj2
      · intro v hv
        obtain ⟨g1, g2, g3⟩ := h4 v hv
        exact ⟨by omega, g2, g3⟩
      · intro hn
        rw [h5 hn]
        omega
    · rw [if_neg hc]
      refine ⟨by simp only; omega, by simp only; omega, ?_, ?_, ?_⟩
      · intro j hj1 hj2
        simp only at hj2
        omega
      · intro v hv
        simp only [Option.some.injEq] at hv
        subst hv
        refine ⟨Nat.lt_succ_self k, rfl, ?_⟩
        by_cases h0 : poll_value env arb (k + 1) = 0
        · exact Or.inl h0
        · right
          cases ht : time_before_eq (env.jiffies (k + 1)) expires with
          | false => rfl
          | true => exact absurd ⟨h0, ht⟩ hc
      · intro hn
        exact Option.noConfusion hn

/-- The poll loop ends within `n` sleeps when the `n`-th poll finds the owner
register at 0 or the clock past `expires`, provided it is granted that many
iterations. -/
theorem poll_loop_terminates (env : arb_env) (expires : Nat) (arb : cisco_i2c_arbitrate) :
    ∀ (fuel k timeout : Nat) (a : cisco_i2c_arbitrate) (tr : List arb_event) (n : Nat),
      k < n → n ≤ k + fuel →
      (poll_value env arb n = 0 ∨ time_before_eq (env.jiffies n) expires = false) →
      (poll_loop env expires fuel k timeout a tr).last ≠ none ∧
      (poll_loop env expires fuel k timeout a tr).sleeps ≤ n := by
  intro fuel
  induction fuel with
  | zero =>
    intro k timeout a tr n hk hn
    omega
  | succ fuel ih =>
    intro k timeout a tr n hk hn hstop
    have hval : u32_of_int (read_arb env (k + 1) a).1 = poll_value env arb (k + 1) := by
      unfold poll_value
      rw [read_arb_fst env (k + 1) a arb]
    unfold poll_loop
    simp only
    rw [hval]
    by_cases hc : poll_value env arb (k + 1) ≠ 0 ∧
        time_before_eq (env.jiffies (k + 1)) expires = true
    · rw [if_pos hc]
      have hne : n ≠ k + 1 := by
        intro heq
        subst heq
        rcases hstop with h | h
        · exact hc.1 h
        · rw [hc.2] at h
          exact Bool.noConfusion h
      exact ih (k + 1) _ _ _ n (by omega) (by omega) hstop
    · rw [if_neg hc]
      refine ⟨fun h => Option.noConfusion h, ?_⟩
      simp only
      omega

/-- The statistics update after the poll depends on the wait statistics
only. -/
theorem record_wait_congr (env : arb_env) (start last sleeps : Nat) (a b : cisco_i2c_arbitrate)
    (h : wait_stats a = wait_stats b) :
    wait_stats (record_wait env start last sleeps a) =
      wait_stats (record_wait env start last sleeps b) := by
  unfold wait_stats at h
  simp only [Prod.mk.injEq] at h
  obtain ⟨h1, h2, h3, h4⟩ := h
  unfold record_wait
  dsimp only
  split_ifs
  · simp only [wait_stats, h1, h2, h3, h4]
  · simp only [wait_stats, h1, h2, h3, h4]
  · simp only [wait_stats, h1, h2, h3, h4]

/-- The statistics update after the poll leaves the configuration alone. -/
theorem record_wait_config (env : arb_env) (start last sleeps : Nat) (a : cisco_i2c_arbitrate) :
    arb_config (record_wait env start last sleeps a) = arb_config a := by
  unfold record_wait
  dsimp only
  split_ifs <;> rfl

/-- The part of `obtain_arbitration` after the local request, seen through
the poll loop of the call: whether it returns, and the wait statistics and
configuration it leaves. -/
theorem obtain_arbitration_wait_stats (env : arb_env) (fuel v : Nat) (arb : cisco_i2c_arbitrate)
    (tr : List arb_event) :
    (obtain_arbitration_wait env fuel v arb tr).returned = (call_poll env fuel arb).last.isSome ∧
    wait_stats (obtain_arbitration_wait env fuel v arb tr).arb =
      (match (call_poll env fuel arb).last with
        | none => wait_stats arb
        | some last => wait_stats (record_wait env (env.jiffies 0 % 2 ^ 64) last
            (call_poll env fuel arb).sleeps arb)) ∧
    arb_config (obtain_arbitration_wait env fuel v arb tr).arb = arb_config arb := by
  have hwr : ∃ (a2 : cisco_i2c_arbitrate) (w : List arb_event),
      (if v = 0 then ((write_arb env arb).2.1, (write_arb env arb).2.2) else (arb, [])) = (a2, w) ∧
      (∃ x, a2 = { arb with write_arb_err := x }) := by
    by_cases hv : v = 0
    · rw [if_pos hv]
      exact ⟨_, _, rfl, (write_arb_spec env arb).1⟩
    · rw [if_neg hv]
      exact ⟨_, _, rfl, ⟨arb.write_arb_err, rfl⟩⟩
  obtain ⟨a2, w, hwr_eq, ⟨x, ha2⟩⟩ := hwr
  have hexp : (env.jiffies 0 % 2 ^ 64 + a2.timeout_jiffies) % 2 ^ 64 = expires_of env arb := by
    rw [ha2]
    rfl
  obtain ⟨⟨y, hy⟩, _⟩ := poll_loop_spec env (expires_of env arb) fuel 0 a2.peer_grant_jiffies a2
    (tr ++ w)
  obtain ⟨hlast, hsleeps⟩ := poll_loop_indep env (expires_of env arb) fuel 0 a2.peer_grant_jiffies
    arb.peer_grant_jiffies a2 arb (tr ++ w) []
  have hstats : wait_stats (poll_loop env (expires_of env arb) fuel 0 a2.peer_grant_jiffies a2
      (tr ++ w)).arb = wait_stats arb := by
    rw [hy, ha2]
    rfl
  have hcfg : arb_config (poll_loop env (expires_of env arb) fuel 0 a2.peer_grant_jiffies a2
      (tr ++ w)).arb = arb_config arb := by
    rw [hy, ha2]
    rfl
  unfold obtain_arbitration_wait
  simp only [hwr_eq, hexp]
  unfold call_poll
  rw [← hlast, ← hsleeps]
  cases hl : (poll_loop env (expires_of env arb) fuel 0 a2.peer_grant_jiffies a2 (tr ++ w)).last with
  | none => exact ⟨rfl, hstats, hcfg⟩
  | some last =>
    refine ⟨rfl, ?_, ?_⟩
    · exact record_wait_congr _ _ _ _ _ _ hstats
    · simp only
      rw [record_wait_config]
      exact hcfg

/-- The poll loop of a call depends on the arbitration state through the
configuration only. -/
theorem call_poll_congr (env : arb_env) (fuel : Nat) (a b : cisco_i2c_arbitrate)
    (h : arb_config a = arb_config b) :
    (call_poll env fuel a).last = (call_poll env fuel b).last ∧
    (call_poll env fuel a).sleeps = (call_poll env fuel b).sleeps := by
  unfold arb_config at h
  simp only [Prod.mk.injEq] at h
  have hexp : expires_of env a = expires_of env b := by
    unfold expires_of
    rw [h.2.2.1]
  unfold call_poll
  rw [hexp]
  exact poll_loop_indep env _ fuel 0 _ _ _ _ _ _

/-- The call seen through its poll loop: whether it returns, and the wait
statistics and configuration it leaves. -/
theorem obtain_arbitration_stats (env : arb_env) (fuel : Nat) (arb : cisco_i2c_arbitrate) :
    (obtain_arbitration env fuel arb).returned =
      (if reaches_poll env arb then (call_poll env fuel arb).last.isSome else true) ∧
    wait_stats (obtain_arbitration env fuel arb).arb =
      (if reaches_poll env arb then
        match (call_poll env fuel arb).last with
        | none => wait_stats arb
        | some last => wait_stats (record_wait env (env.jiffies 0 % 2 ^ 64) last
            (call_poll env fuel arb).sleeps arb)
      else wait_stats arb) ∧
    arb_config (obtain_arbitration env fuel arb).arb = arb_config arb := by
  have hpr : ∃ a1 : cisco_i2c_arbitrate,
      (match env.peer_read with
        | Except.error _ => (0, { arb with read_peer_err := u64_inc arb.read_peer_err })
        | Except.ok v => (v % 2 ^ 32, arb) : Nat × cisco_i2c_arbitrate) =
        (initial_peer env, a1) ∧ ∃ x, a1 = { arb with read_peer_err := x } := by
    unfold initial_peer
    cases env.peer_read with
    | error e => exact ⟨_, rfl, _, rfl⟩
    | ok v => exact ⟨_, rfl, arb.read_peer_err, rfl⟩
  obtain ⟨a1, hpr1, x1, ha1⟩ := hpr
  obtain ⟨⟨x2, hx2⟩, _⟩ := read_arb_spec env 0 a1
  have hv : u32_of_int (read_arb env 0 a1).1 = initial_arb env arb := by
    unfold initial_arb
    rw [read_arb_fst env 0 a1 arb]
  generalize hrd : read_arb env 0 a1 = rd at hx2 hv
  obtain ⟨e, a3, evs⟩ := rd
  simp only at hx2 hv
  have ha3s : wait_stats a3 = wait_stats arb := by rw [hx2, ha1]; rfl
  have ha3c : arb_config a3 = arb_config arb := by rw [hx2, ha1]; rfl
  unfold obtain_arbitration
  simp only [hpr1, hrd, hv]
  by_cases hfast : initial_arb env arb = 0 ∧ initial_peer env = 0
  · have hrp : reaches_poll env arb = false := by
      unfold reaches_poll
      simp only [hfast, and_self, decide_True, Bool.not_true, Bool.false_and]
    rw [if_pos hfast, hrp]
    simp only [Bool.false_eq_true, if_false]
    exact ⟨trivial, ha3s, ha3c⟩
  · rw [if_neg hfast]
    by_cases hlw : env.local_write ≠ 0
    · have hrp : reaches_poll env arb = false := by
        unfold reaches_poll
        simp only [hlw, decide_False, Bool.and_false]
      rw [if_pos hlw, hrp]
      simp only [Bool.false_eq_true, if_false]
      exact ⟨trivial, ha3s, ha3c⟩
    · have hrp : reaches_poll env arb = true := by
        unfold reaches_poll
        simp only [hfast, decide_False, Bool.not_false, Bool.true_and, decide_eq_true_eq]
        exact not_not.mp hlw
      rw [if_neg hlw, hrp]
      simp only [if_true]
      obtain ⟨h1, h2, h3⟩ := obtain_arbitration_wait_stats env fuel (initial_arb env arb)
        { a3 with disputed := u64_inc a3.disputed }
        ([arb_event.reg_read regmap_id.hw arb.peer] ++ evs ++
          [arb_event.reg_write regmap_id.hw a3.local_ 1])
      have hc : arb_config { a3 with disputed := u64_inc a3.disputed } = arb_config arb := ha3c
      have hs : wait_stats { a3 with disputed := u64_inc a3.disputed } = wait_stats arb := ha3s
      obtain ⟨hl, hn⟩ := call_poll_congr env fuel _ _ hc
      rw [hl, hn] at h2
      rw [hl] at h1
      refine ⟨h1, ?_, h3.trans hc⟩
      rw [h2]
      cases (call_poll env fuel arb).last with
      | none => exact hs
      | some last => exact record_wait_congr _ _ _ _ _ _ hs
/-! ## Wait statistics of one call -/

/-- C22 (as amended): when the poll loop of a call ends because the owner
register read 0, after `n` sleeps, the call returns and the wait it records is
the conversion to milliseconds of the clock difference between that last
poll and the start of the poll (nothing is recorded when that is 0 ms); the
owner register was non-zero and the clock not past `expires` at every
earlier poll, so (without wrap of the clock) every earlier poll happened
within `timeout_jiffies` of the start.  The last sleep is not covered by any
bound: the recorded wait can exceed `timeout_msecs` by its duration. -/
theorem obtain_arbitration_recorded_wait (env : arb_env) (fuel : Nat) (arb : cisco_i2c_arbitrate)
    (hreach : reaches_poll env arb = true)
    (hfree : (call_poll env fuel arb).last = some 0) :
    (obtain_arbitration env fuel arb).returned = true ∧
    free_wait env fuel arb = some (jiffies_delta_to_msecs env
      (env.jiffies (call_poll env fuel arb).sleeps) (env.jiffies 0 % 2 ^ 64)) ∧
    (∀ msecs, free_wait env fuel arb = some msecs →
      wait_stats (obtain_arbitration env fuel arb).arb =
        if msecs ≠ 0 then
          (arb.expires, (arb.total_wait_msecs + msecs) % 2 ^ 64, max arb.max_wait_msecs msecs,
            min arb.min_wait_msecs msecs)
        else wait_stats arb) ∧
    1 ≤ (call_poll env fuel arb).sleeps ∧
    poll_value env arb (call_poll env fuel arb).sleeps = 0 ∧
    (∀ j, 1 ≤ j → j < (call_poll env fuel arb).sleeps →
      poll_value env arb j ≠ 0 ∧ time_before_eq (env.jiffies j) (expires_of env arb) = true) ∧
    ((∀ k, env.jiffies k < 2 ^ 63) → arb.timeout_jiffies < 2 ^ 63 →
      ∀ j, 1 ≤ j → j < (call_poll env fuel arb).sleeps →
        env.jiffies j ≤ env.jiffies 0 + arb.timeout_jiffies) := by
  obtain ⟨hret, hstats, _⟩ := obtain_arbitration_stats env fuel arb
  obtain ⟨_, _, hpolls, hlast, _⟩ := poll_loop_polls env (expires_of env arb) arb fuel 0
    arb.peer_grant_jiffies arb []
  obtain ⟨hpos, hval, _⟩ := hlast 0 hfree
  have hfw : free_wait env fuel arb = some (jiffies_delta_to_msecs env
      (env.jiffies (call_poll env fuel arb).sleeps) (env.jiffies 0 % 2 ^ 64)) := by
    unfold free_wait
    rw [if_pos ⟨hreach, hfree⟩]
  refine ⟨?_, hfw, ?_, hpos, hval.symm, fun j h1 h2 => hpolls j h1 h2, ?_⟩
  · rw [hret, hreach, hfree]
    rfl
  · intro msecs hm
    rw [hfw] at hm
    injection hm with hm
    subst hm
    rw [hstats, hreach, hfree]
    simp only [if_true]
    unfold record_wait
    simp only [ne_eq, not_true_eq_false, if_false]
    split_ifs <;> rfl
  · intro hclock htimeout j h1 h2
    have htb := (hpolls j h1 h2).2
    have hj := hclock j
    have h0 := hclock 0
    unfold time_before_eq expires_of at htb
    simp only [decide_eq_true_eq] at htb
    omega

set_option maxRecDepth 1000000 in
/-- Witness for C22 (as amended): in `demo_env_busy` the poll of the call on
`demo_arb` ends after two sleeps with the owner register reading 0, 200 ms
after the start, and 200 ms is what the call records. -/
theorem obtain_arbitration_recorded_wait_witness :
    free_wait demo_env_busy 10 demo_arb = some 200 ∧
    wait_stats (obtain_arbitration demo_env_busy 10 demo_arb).arb = (0, 200, 200, 200) ∧
    (call_poll demo_env_busy 10 demo_arb).sleeps = 2 :=
  ⟨(obtain_arbitration_recorded_wait demo_env_busy 10 demo_arb (by decide) (by decide)).2.1.trans
      (by decide),
    ((obtain_arbitration_recorded_wait demo_env_busy 10 demo_arb (by decide)
      (by decide)).2.2.1 200 (by decide)).trans (by decide),
    by decide⟩

set_option maxRecDepth 1000000 in
/-- Counterexample to C22 as stated: with a timeout of 1000 ms, a peer-grant
duration of 100 ms and a peer-retry duration of 500 ms, sleeps that last
exactly as long as asked, and an owner register that reads 0 on the third
poll, the poll loop ends because the owner register read 0 and the recorded
wait is 1100 ms, more than `timeout_msecs`. -/
theorem obtain_arbitration_wait_exceeds_counterexample :
    demo_arb_retry.timeout_msecs = 1000 ∧
    reaches_poll demo_env_late demo_arb_retry = true ∧
    (call_poll demo_env_late 10 demo_arb_retry).last = some 0 ∧
    (obtain_arbitration demo_env_late 10 demo_arb_retry).arb.total_wait_msecs = 1100 ∧
    (obtain_arbitration demo_env_late 10 demo_arb_retry).trace.filter is_sleep =
      [arb_event.sleep 100, arb_event.sleep 500, arb_event.sleep 500] := by
  decide

/-! ## Expiry -/

/-- C23: when the call reaches the poll loop, every read of the owner
register during the poll gives a non-zero value and the clock is past
`start + timeout_jiffies` after `n` sleeps, then, granted `n` iterations, the
call returns after at most `n` polls, `expires` is incremented by one (`u64`
arithmetic) and `total_wait_msecs`, `max_wait_msecs` and `min_wait_msecs` are
unchanged. -/
theorem obtain_arbitration_expires (env : arb_env) (fuel n : Nat) (arb : cisco_i2c_arbitrate)
    (hreach : reaches_poll env arb = true)
    (hbusy : ∀ k, 1 ≤ k → poll_value env arb k ≠ 0)
    (hn : 1 ≤ n)
    (hclock : time_before_eq (env.jiffies n) (expires_of env arb) = false)
    (hfuel : n ≤ fuel) :
    (obtain_arbitration env fuel arb).returned = true ∧
    (call_poll env fuel arb).sleeps ≤ n ∧
    (obtain_arbitration env fuel arb).arb.expires = (arb.expires + 1) % 2 ^ 64 ∧
    (obtain_arbitration env fuel arb).arb.total_wait_msecs = arb.total_wait_msecs ∧
    (obtain_arbitration env fuel arb).arb.max_wait_msecs = arb.max_wait_msecs ∧
    (obtain_arbitration env fuel arb).arb.min_wait_msecs = arb.min_wait_msecs := by
  obtain ⟨hret, hstats, _⟩ := obtain_arbitration_stats env fuel arb
  obtain ⟨hsome, hle⟩ := poll_loop_terminates env (expires_of env arb) arb fuel 0
    arb.peer_grant_jiffies arb [] n hn (by omega) (Or.inr hclock)
  obtain ⟨_, _, _, hlast, _⟩ := poll_loop_polls env (expires_of env arb) arb fuel 0
    arb.peer_grant_jiffies arb []
  cases hl : (call_poll env fuel arb).last with
  | none => exact absurd hl hsome
  | some last =>
    obtain ⟨hpos, hval, _⟩ := hlast last hl
    have hne : last ≠ 0 := by
      rw [hval]
      exact hbusy _ hpos
    rw [hreach, hl] at hret hstats
    simp only [if_true] at hret hstats
    have hrec : record_wait env (env.jiffies 0 % 2 ^ 64) last (call_poll env fuel arb).sleeps arb =
        { arb with expires := u64_inc arb.expires } := by
      unfold record_wait
      rw [if_pos hne]
    rw [hrec] at hstats
    unfold wait_stats at hstats
    simp only [Prod.mk.injEq] at hstats
    exact ⟨hret, hle, hstats.1, hstats.2.1, hstats.2.2.1, hstats.2.2.2⟩

set_option maxRecDepth 1000000 in
/-- Witness for C23: in `demo_env_stuck` the owner register always reads 1 and
the clock, 100 jiffies further after each sleep, is past `start + 1000` after
11 sleeps; the call on `demo_arb` returns with `expires = 1` and the wait
statistics untouched. -/
theorem obtain_arbitration_expires_witness :
    (obtain_arbitration demo_env_stuck 20 demo_arb).returned = true ∧
    (call_poll demo_env_stuck 20 demo_arb).sleeps ≤ 11 ∧
    (obtain_arbitration demo_env_stuck 20 demo_arb).arb.expires = (demo_arb.expires + 1) % 2 ^ 64 ∧
    (obtain_arbitration demo_env_stuck 20 demo_arb).arb.total_wait_msecs =
      demo_arb.total_wait_msecs ∧
    (obtain_arbitration demo_env_stuck 20 demo_arb).arb.max_wait_msecs =
      demo_arb.max_wait_msecs ∧
    (obtain_arbitration demo_env_stuck 20 demo_arb).arb.min_wait_msecs =
      demo_arb.min_wait_msecs :=
  obtain_arbitration_expires demo_env_stuck 20 11 demo_arb (by decide)
    (fun _ _ => (by decide : (1 : Nat) ≠ 0)) (by decide) (by decide) (by decide)

/-! ## Release -/

/-- C24 (as amended): on every call `release_arbitration` writes 0 to the
local-request register and then attempts the owner clear, whatever the status
of that write.  When the arbitration block has a register map the clear is a
write of 0 to the arbitration-owner register `arbi[index]`, so the call makes
exactly two register accesses, both writes; when it has none, no owner write
is made and the clear counts as failed with `-ENODEV`.  `write_local_err` is
incremented when the local write returns a non-zero status, `write_arb_err`
when the owner clear has a negative status, and nothing else changes. -/
theorem release_arbitration_spec (env : arb_env) (arb : cisco_i2c_arbitrate) :
    (release_arbitration env arb).2 =
      arb_event.reg_write regmap_id.hw arb.local_ 0 ::
        (if env.info_regmap then [arb_event.reg_write regmap_id.info (F arb.index) 0] else []) ∧
    (env.info_regmap = true →
      (release_arbitration env arb).2 =
        [arb_event.reg_write regmap_id.hw arb.local_ 0,
          arb_event.reg_write regmap_id.info (F arb.index) 0]) ∧
    (env.info_regmap = false →
      (release_arbitration env arb).2 = [arb_event.reg_write regmap_id.hw arb.local_ 0]) ∧
    (release_arbitration env arb).1 =
      { arb with
        write_local_err :=
          if env.local_write ≠ 0 then (arb.write_local_err + 1) % 2 ^ 64 else arb.write_local_err
        write_arb_err :=
          if (if env.info_regmap then env.arb_write else -ENODEV) < 0 then
            (arb.write_arb_err + 1) % 2 ^ 64
          else arb.write_arb_err } := by
  unfold release_arbitration write_arb
  cases hreg : env.info_regmap with
  | true =>
    simp only [if_true]
    refine ⟨rfl, fun _ => rfl, by intro h; simp at h, ?_⟩
    unfold u64_inc
    split_ifs <;> rfl
  | false =>
    simp only [Bool.false_eq_true, if_false]
    refine ⟨rfl, by intro h; simp at h, fun _ => rfl, ?_⟩
    unfold u64_inc
    split_ifs <;> rfl

set_option maxRecDepth 1000000 in
/-- Witness for C24 (as amended): in `demo_env_writes_fail` both writes fail
with -5; the release still makes both writes and counts both failures. -/
theorem release_arbitration_spec_witness :
    release_arbitration demo_env_writes_fail demo_arb =
      ({ demo_arb with write_local_err := 1, write_arb_err := 1 },
        [arb_event.reg_write regmap_id.hw 0x08 0, arb_event.reg_write regmap_id.info 0x508 0]) :=
  Prod.ext ((release_arbitration_spec demo_env_writes_fail demo_arb).2.2.2.trans (by decide))
    (((release_arbitration_spec demo_env_writes_fail demo_arb).2.1 rfl).trans (by decide))

set_option maxRecDepth 1000000 in
/-- Counterexample to C24 as stated: in `demo_env_no_regmap` the arbitration
block has no register map when the bus is released; the call makes one
register write only, 0 to the local-request register, makes no write to the
owner register, and counts the owner clear as failed. -/
theorem release_arbitration_no_regmap_counterexample :
    release_arbitration demo_env_no_regmap demo_arb =
      ({ demo_arb with write_arb_err := 1 }, [arb_event.reg_write regmap_id.hw 0x08 0]) ∧
    (release_arbitration demo_env_no_regmap demo_arb).2.length = 1 := by
  decide

/-! ## Wait statistics of a sequence of calls -/

/-- What one call does to the totals: nothing unless its poll ended with the
owner register reading 0 after a non-zero number of milliseconds. -/
theorem obtain_arbitration_totals (env : arb_env) (fuel : Nat) (arb : cisco_i2c_arbitrate) :
    ((obtain_arbitration env fuel arb).arb.total_wait_msecs,
      (obtain_arbitration env fuel arb).arb.max_wait_msecs,
      (obtain_arbitration env fuel arb).arb.min_wait_msecs) =
      (match free_wait env fuel arb with
        | some m =>
          if m ≠ 0 then
            ((arb.total_wait_msecs + m) % 2 ^ 64, max arb.max_wait_msecs m,
              min arb.min_wait_msecs m)
          else (arb.total_wait_msecs, arb.max_wait_msecs, arb.min_wait_msecs)
        | none => (arb.total_wait_msecs, arb.max_wait_msecs, arb.min_wait_msecs)) := by
  obtain ⟨_, hstats, _⟩ := obtain_arbitration_stats env fuel arb
  have hproj : ∀ a : cisco_i2c_arbitrate,
      (a.total_wait_msecs, a.max_wait_msecs, a.min_wait_msecs) = (wait_stats a).2 := fun _ => rfl
  rw [hproj, hstats]
  unfold free_wait
  by_cases hreach : reaches_poll env arb = true
  · simp only [hreach, if_true, true_and]
    cases hl : (call_poll env fuel arb).last with
    | none =>
      simp only [reduceCtorEq, if_false]
      rfl
    | some last =>
      by_cases h0 : last = 0
      · subst h0
        simp only [if_true]
        unfold record_wait
        simp only [ne_eq, not_true_eq_false, if_false]
        split_ifs <;> rfl
      · have hne : ¬ (some last = some 0) := fun h => h0 (Option.some.inj h)
        simp only [hne, if_false]
        unfold record_wait
        rw [if_pos h0]
        rfl
  · simp only [hreach, Bool.false_eq_true, if_false, false_and]
    rfl

/-- What a sequence of calls does to the totals, from any state with a
`u64` total. -/
theorem obtain_sequence_totals :
    ∀ (calls : List (arb_env × Nat)) (arb : cisco_i2c_arbitrate),
      arb.total_wait_msecs < 2 ^ 64 →
      (obtain_sequence arb calls).total_wait_msecs =
        (arb.total_wait_msecs + (free_waits arb calls).sum) % 2 ^ 64 ∧
      (obtain_sequence arb calls).max_wait_msecs =
        (free_waits arb calls).foldl max arb.max_wait_msecs ∧
      (obtain_sequence arb calls).min_wait_msecs =
        ((free_waits arb calls).filter (fun m => m ≠ 0)).foldl min arb.min_wait_msecs := by
  intro calls
  induction calls with
  | nil =>
    intro arb hlt
    refine ⟨?_, rfl, rfl⟩
    simp only [obtain_sequence, free_waits, List.sum_nil, Nat.add_zero]
    exact (Nat.mod_eq_of_lt hlt).symm
  | cons c rest ih =>
    intro arb hlt
    have hstep := obtain_arbitration_totals c.1 c.2 arb
    unfold obtain_sequence free_waits
    cases hw : free_wait c.1 c.2 arb with
    | none =>
      rw [hw] at hstep
      simp only [Prod.mk.injEq] at hstep
      obtain ⟨h1, h2, h3⟩ := hstep
      obtain ⟨g1, g2, g3⟩ := ih (obtain_arbitration c.1 c.2 arb).arb (by rw [h1]; exact hlt)
      simp only [Option.toList, List.nil_append]
      rw [g1, g2, g3, h1, h2, h3]
      exact ⟨rfl, rfl, rfl⟩
    | some m =>
      rw [hw] at hstep
      by_cases hm : m = 0
      · subst hm
        simp only [ne_eq, not_true_eq_false, if_false, Prod.mk.injEq] at hstep
        obtain ⟨h1, h2, h3⟩ := hstep
        obtain ⟨g1, g2, g3⟩ := ih (obtain_arbitration c.1 c.2 arb).arb (by rw [h1]; exact hlt)
        simp only [Option.toList, List.singleton_append, List.sum_cons, List.foldl_cons,
          Nat.zero_add, ne_eq, not_true_eq_false, decide_False, Bool.false_eq_true,
          not_false_eq_true, List.filter_cons_of_neg]
        rw [g1, g2, g3, h1, h2, h3]
        refine ⟨rfl, ?_, rfl⟩
        rw [Nat.max_eq_left (Nat.zero_le _)]
      · simp only [ne_eq, hm, not_false_eq_true, if_true, Prod.mk.injEq] at hstep
        obtain ⟨h1, h2, h3⟩ := hstep
        obtain ⟨g1, g2, g3⟩ := ih (obtain_arbitration c.1 c.2 arb).arb
          (by rw [h1]; exact Nat.mod_lt _ (by decide))
        simp only [Option.toList, List.singleton_append, List.sum_cons, List.foldl_cons,
          ne_eq, hm, not_false_eq_true, decide_True, List.filter_cons_of_pos]
        rw [g1, g2, g3, h1, h2, h3]
        refine ⟨?_, rfl, rfl⟩
        omega

/-- What a successful `i2c_arbitrate` leaves in the wait statistics. -/
theorem i2c_arbitrate_stats (fw : arbitrate_env) (hw0 : cisco_i2c_arbitrate)
    (hinit : (i2c_arbitrate fw hw0).lock_ops = true) :
    (i2c_arbitrate fw hw0).arb.total_wait_msecs = hw0.total_wait_msecs ∧
    (i2c_arbitrate fw hw0).arb.max_wait_msecs = hw0.max_wait_msecs ∧
    (i2c_arbitrate fw hw0).arb.min_wait_msecs = (i2c_arbitrate fw hw0).arb.timeout_msecs := by
  unfold i2c_arbitrate at hinit ⊢
  by_cases h1 : prop_unset fw.multi_master = true
  · rw [if_pos h1] at hinit
    exact Bool.noConfusion hinit
  rw [if_neg h1] at hinit ⊢
  cases hidx : fw.arbitration_index with
  | error e =>
    simp only [hidx] at hinit
    exact Bool.noConfusion hinit
  | ok v =>
    simp only [hidx] at hinit ⊢
    cases hfind : fw.find_info with
    | some e =>
      simp only [hfind] at hinit
      exact Bool.noConfusion hinit
    | none =>
      simp only [hfind] at hinit ⊢
      split_ifs <;> exact ⟨rfl, rfl, rfl⟩

/-- C25 (as amended): after `i2c_arbitrate` has enabled arbitration on a state
whose totals are zero, and after any sequence of `obtain_arbitration` calls,
with `ws` the wait times in milliseconds of the polls that ended with the
owner register reading 0: `total_wait_msecs` is the sum of `ws` (modulo
`2 ^ 64`), `max_wait_msecs` is the greatest of 0 and `ws`, and
`min_wait_msecs` is the least of `timeout_msecs` and the non-zero members of
`ws`. -/
theorem obtain_sequence_wait_statistics (fw : arbitrate_env) (hw0 : cisco_i2c_arbitrate)
    (calls : List (arb_env × Nat))
    (htotal : hw0.total_wait_msecs = 0) (hmax : hw0.max_wait_msecs = 0)
    (hinit : (i2c_arbitrate fw hw0).lock_ops = true) :
    (obtain_sequence (i2c_arbitrate fw hw0).arb calls).total_wait_msecs =
      (free_waits (i2c_arbitrate fw hw0).arb calls).sum % 2 ^ 64 ∧
    (obtain_sequence (i2c_arbitrate fw hw0).arb calls).max_wait_msecs =
      (free_waits (i2c_arbitrate fw hw0).arb calls).foldl max 0 ∧
    (obtain_sequence (i2c_arbitrate fw hw0).arb calls).min_wait_msecs =
      ((free_waits (i2c_arbitrate fw hw0).arb calls).filter (fun m => m ≠ 0)).foldl min
        (i2c_arbitrate fw hw0).arb.timeout_msecs := by
  obtain ⟨h1, h2, h3⟩ := i2c_arbitrate_stats fw hw0 hinit
  obtain ⟨g1, g2, g3⟩ := obtain_sequence_totals calls (i2c_arbitrate fw hw0).arb
    (by rw [h1, htotal]; decide)
  rw [h1, htotal, Nat.zero_add] at g1
  rw [h2, hmax] at g2
  rw [h3] at g3
  exact ⟨g1, g2, g3⟩

set_option maxRecDepth 1000000 in
/-- Witness for C25 (as amended): after `i2c_arbitrate` on the zero-filled
state with `demo_fw_arbitrate`, a call that finds the bus free, a call that
waits 200 ms and a call whose poll expires leave the totals
(200, 200, 200). -/
theorem obtain_sequence_wait_statistics_witness :
    free_waits (i2c_arbitrate demo_fw_arbitrate arb_zero).arb
      [(demo_env_free, 10), (demo_env_busy, 10), (demo_env_stuck, 20)] = [200] ∧
    (obtain_sequence (i2c_arbitrate demo_fw_arbitrate arb_zero).arb
      [(demo_env_free, 10), (demo_env_busy, 10), (demo_env_stuck, 20)]).total_wait_msecs =
      (free_waits (i2c_arbitrate demo_fw_arbitrate arb_zero).arb
        [(demo_env_free, 10), (demo_env_busy, 10), (demo_env_stuck, 20)]).sum % 2 ^ 64 ∧
    wait_stats (obtain_sequence (i2c_arbitrate demo_fw_arbitrate arb_zero).arb
      [(demo_env_free, 10), (demo_env_busy, 10), (demo_env_stuck, 20)]) = (1, 200, 200, 200) :=
  ⟨by decide,
    (obtain_sequence_wait_statistics demo_fw_arbitrate arb_zero
      [(demo_env_free, 10), (demo_env_busy, 10), (demo_env_stuck, 20)] rfl rfl (by decide)).1,
    by decide⟩

set_option maxRecDepth 1000000 in
/-- Counterexample to C25 as stated: after `i2c_arbitrate` with a timeout of
1000 ms and one call whose poll ended with the owner register reading 0 after
1100 ms, the wait times are `[1100]` but `min_wait_msecs` is 1000, the
initial value `timeout_msecs`, not the minimum 1100 of the wait times. -/
theorem obtain_sequence_min_counterexample :
    (i2c_arbitrate demo_fw_arbitrate arb_zero).lock_ops = true ∧
    free_waits (i2c_arbitrate demo_fw_arbitrate arb_zero).arb [(demo_env_late, 10)] = [1100] ∧
    (obtain_sequence (i2c_arbitrate demo_fw_arbitrate arb_zero).arb
      [(demo_env_late, 10)]).min_wait_msecs = 1000 := by
  decide

end CiscoI2c

namespace CiscoReg

/-! ## Field access (reg_access.h) -/

/-- The mask of a field inside the register: `width` ones. -/
theorem reg_mask_eq {hi lo : Nat} (hlo : lo ≤ hi) (hhi : hi ≤ 31) :
    _reg_mask hi lo = 2 ^ (hi - lo + 1) - 1 := by
  unfold _reg_mask
  have hw : (hi % 2 ^ 32 + 2 ^ 32 - lo % 2 ^ 32 + 1) % 2 ^ 32 = hi - lo + 1 := by omega
  simp only [hw]
  by_cases h32 : hi - lo + 1 = 32
  · rw [if_pos h32, h32]
    rfl
  · rw [if_neg h32]
    have hlt : hi - lo + 1 < 32 := by omega
    have hpow : 2 ^ (hi - lo + 1) < 2 ^ 32 := Nat.pow_lt_pow_right (by decide) hlt
    have hpos : 1 ≤ 2 ^ (hi - lo + 1) := Nat.one_le_two_pow
    rw [if_pos (by omega), Nat.shiftLeft_eq, Nat.one_mul]
    omega

/-- Bit `i` of the mask in place. -/
theorem reg_mask_lo_testBit {hi lo : Nat} (hlo : lo ≤ hi) (hhi : hi ≤ 31) (i : Nat) :
    (_reg_mask_lo hi lo).testBit i = decide (lo ≤ i ∧ i ≤ hi) := by
  unfold _reg_mask_lo
  have hl : lo % 2 ^ 32 = lo := Nat.mod_eq_of_lt (by omega)
  rw [reg_mask_eq hlo hhi, hl, Nat.testBit_mod_two_pow, Nat.testBit_shiftLeft,
    Nat.testBit_two_pow_sub_one]
  by_cases h1 : lo ≤ i <;> by_cases h2 : i ≤ hi <;> simp [h1, h2] <;> omega

/-- Bit `j` of an extracted field. -/
theorem reg_get_testBit {hi lo : Nat} (hlo : lo ≤ hi) (hhi : hi ≤ 31) (x j : Nat) :
    (_reg_get x hi lo).testBit j = (decide (j < hi - lo + 1) && x.testBit (lo + j)) := by
  unfold _reg_get
  have hl : lo % 2 ^ 32 = lo := Nat.mod_eq_of_lt (by omega)
  rw [reg_mask_eq hlo hhi, hl, Nat.testBit_and, Nat.testBit_shiftRight, Nat.testBit_mod_two_pow,
    Nat.testBit_two_pow_sub_one]
  by_cases h1 : j < hi - lo + 1 <;> simp [h1]
  omega

/-- Bit `i` of a register after `_reg_replace`. -/
theorem reg_replace_testBit {hi lo : Nat} (hlo : lo ≤ hi) (hhi : hi ≤ 31) (v d i : Nat) :
    (_reg_replace v d hi lo).testBit i =
      if lo ≤ i ∧ i ≤ hi then d.testBit (i - lo) else (decide (i < 32) && v.testBit i) := by
  unfold _reg_replace
  have hl : lo % 2 ^ 32 = lo := Nat.mod_eq_of_lt (by omega)
  have hff : (0xffffffff : Nat) = 2 ^ 32 - 1 := rfl
  simp only [hl, Nat.testBit_or, Nat.testBit_and, Nat.testBit_xor, reg_mask_lo_testBit hlo hhi,
    Nat.testBit_mod_two_pow, Nat.testBit_shiftLeft, hff, Nat.testBit_two_pow_sub_one]
  by_cases h1 : lo ≤ i <;> by_cases h2 : i ≤ hi <;> by_cases h3 : i < 32 <;>
    simp [h1, h2, h3] <;> omega

/-- Bit `i` of a field value put in place by `_reg_set`. -/
theorem reg_set_testBit {hi lo : Nat} (hlo : lo ≤ hi) (hhi : hi ≤ 31) (d i : Nat) :
    (_reg_set d hi lo).testBit i = (decide (lo ≤ i ∧ i ≤ hi) && d.testBit (i - lo)) := by
  unfold _reg_set
  have hl : lo % 2 ^ 32 = lo := Nat.mod_eq_of_lt (by omega)
  rw [reg_mask_eq hlo hhi, hl]
  simp only [Nat.testBit_mod_two_pow, Nat.testBit_shiftLeft, Nat.testBit_and,
    Nat.testBit_two_pow_sub_one]
  by_cases h1 : lo ≤ i <;> by_cases h2 : i ≤ hi
  · have a1 : i < 32 := by omega
    have a2 : i - lo < 32 := by omega
    have a3 : i - lo < hi - lo + 1 := by omega
    simp [h1, h2, a1, a2, a3]
  · have a3 : ¬ i - lo < hi - lo + 1 := by omega
    simp [h1, h2, a3]
  · simp [h1, h2]
  · simp [h1, h2]

/-- Extracting a field just put in place gives the value reduced to the
width of the field. -/
theorem reg_get_reg_set {hi lo : Nat} (hlo : lo ≤ hi) (hhi : hi ≤ 31) (d : Nat) :
    _reg_get (_reg_set d hi lo) hi lo = d % 2 ^ (hi - lo + 1) := by
  apply Nat.eq_of_testBit_eq
  intro j
  rw [reg_get_testBit hlo hhi, reg_set_testBit hlo hhi, Nat.testBit_mod_two_pow]
  by_cases h1 : j < hi - lo + 1
  · have h2 : lo ≤ lo + j ∧ lo + j ≤ hi := by omega
    simp [h1, h2]
  · simp [h1]

/-- Extracting a field just replaced gives the new value reduced to the
width of the field. -/
theorem reg_get_reg_replace {hi lo : Nat} (hlo : lo ≤ hi) (hhi : hi ≤ 31) (v d : Nat) :
    _reg_get (_reg_replace v d hi lo) hi lo = d % 2 ^ (hi - lo + 1) := by
  apply Nat.eq_of_testBit_eq
  intro j
  rw [reg_get_testBit hlo hhi, reg_replace_testBit hlo hhi, Nat.testBit_mod_two_pow]
  by_cases h1 : j < hi - lo + 1
  · have h2 : lo ≤ lo + j ∧ lo + j ≤ hi := by omega
    rw [if_pos h2, Nat.add_sub_cancel_left]
  · simp [h1]

/-- Replacing a field does not change another field that does not overlap
it. -/
theorem reg_get_reg_replace_disjoint {hi lo hi2 lo2 : Nat} (hlo : lo ≤ hi) (hhi : hi ≤ 31)
    (hlo2 : lo2 ≤ hi2) (hhi2 : hi2 ≤ 31) (hdis : hi2 < lo ∨ hi < lo2) (v d : Nat) :
    _reg_get (_reg_replace v d hi2 lo2) hi lo = _reg_get v hi lo := by
  apply Nat.eq_of_testBit_eq
  intro j
  rw [reg_get_testBit hlo hhi, reg_get_testBit hlo hhi, reg_replace_testBit hlo2 hhi2]
  by_cases h1 : j < hi - lo + 1
  · have h2 : ¬ (lo2 ≤ lo + j ∧ lo + j ≤ hi2) := by omega
    have h3 : lo + j < 32 := by omega
    rw [if_neg h2]
    simp [h1, h3]
  · simp [h1]

/-- C26: for all 32-bit `v` and `d` and all `lo ≤ hi ≤ 31`, the mask is
`2^(hi-lo+1) - 1` (so `0xFFFFFFFF` for the full register, computed by the
special case and not by a shift by 32), extracting the field after
`_reg_replace` gives `d mod 2^(hi-lo+1)`, every bit of `v` outside `lo..hi`
is unchanged by `_reg_replace`, and extracting the field after `_reg_set`
gives `d mod 2^(hi-lo+1)`. -/
theorem reg_replace_get_set (v d hi lo : Nat) (hv : v < 2 ^ 32) (hd : d < 2 ^ 32)
    (hlo : lo ≤ hi) (hhi : hi ≤ 31) :
    _reg_mask hi lo = 2 ^ (hi - lo + 1) - 1 ∧
    _reg_mask 31 0 = 0xFFFFFFFF ∧
    _reg_get (_reg_replace v d hi lo) hi lo = d % 2 ^ (hi - lo + 1) ∧
    (∀ i, i < lo ∨ hi < i → (_reg_replace v d hi lo).testBit i = v.testBit i) ∧
    _reg_replace v d hi lo < 2 ^ 32 ∧
    _reg_get (_reg_set d hi lo) hi lo = d % 2 ^ (hi - lo + 1) := by
  have hvbit : ∀ i, 32 ≤ i → v.testBit i = false := fun i hi32 =>
    Nat.testBit_lt_two_pow (lt_of_lt_of_le hv (Nat.pow_le_pow_right (by decide) hi32))
  have hdbit : ∀ i, 32 ≤ i → d.testBit i = false := fun i hi32 =>
    Nat.testBit_lt_two_pow (lt_of_lt_of_le hd (Nat.pow_le_pow_right (by decide) hi32))
  refine ⟨reg_mask_eq hlo hhi, rfl, ?_, ?_, ?_, ?_⟩
  · apply Nat.eq_of_testBit_eq
    intro j
    rw [reg_get_testBit hlo hhi, reg_replace_testBit hlo hhi, Nat.testBit_mod_two_pow]
    by_cases h1 : j < hi - lo + 1
    · have h2 : lo ≤ lo + j ∧ lo + j ≤ hi := by omega
      rw [if_pos h2, Nat.add_sub_cancel_left]
    · simp [h1]
  · intro i hi0
    rw [reg_replace_testBit hlo hhi, if_neg (by omega)]
    by_cases h3 : i < 32
    · simp [h3]
    · simp [h3, hvbit i (by omega)]
  · apply Nat.lt_pow_two_of_testBit
    intro i hi32
    rw [reg_replace_testBit hlo hhi, if_neg (by omega)]
    simp
    intro h
    omega
  · apply Nat.eq_of_testBit_eq
    intro j
    rw [reg_get_testBit hlo hhi, reg_set_testBit hlo hhi, Nat.testBit_mod_two_pow]
    by_cases h1 : j < hi - lo + 1
    · have h2 : lo ≤ lo + j ∧ lo + j ≤ hi := by omega
      simp [h1, h2]
    · simp [h1]

/-- C26 at `v = 0xDEADBEEF`, `d = 0x1FF`, field 7..4. -/
theorem reg_replace_get_set_witness :
    (0xDEADBEEF : Nat) < 2 ^ 32 ∧ (0x1FF : Nat) < 2 ^ 32 ∧ 4 ≤ 7 ∧ 7 ≤ 31 ∧
    _reg_get (_reg_replace 0xDEADBEEF 0x1FF 7 4) 7 4 = 0x1FF % 2 ^ (7 - 4 + 1) ∧
    _reg_replace 0xDEADBEEF 0x1FF 7 4 = 0xDEADBEFF :=
  ⟨by decide, by decide, by decide, by decide,
    (reg_replace_get_set 0xDEADBEEF 0x1FF 7 4 (by decide) (by decide) (by decide)
      (by decide)).2.2.1, by decide⟩

end CiscoReg

namespace CiscoI2cExt

/-! ## Chunks of a read in `_i2c_xfer` (cisco-fpga-i2c-ext.c) -/

/-- The read loop is over when its condition is false. -/
theorem read_loop_done (env : xfer_env) (k fuel : Nat) (st : copy_state)
    (h : ¬ (st.len ≠ 0 ∧ st.cfg_len ≠ 0 ∧ st.e = 0)) : read_loop env k fuel st = some st := by
  cases fuel with
  | zero => unfold read_loop; rw [if_neg h]
  | succ n => unfold read_loop; rw [if_neg h]

/-- With every read of chunk `k` succeeding, the read loop copies `cfg_len`
bytes when `cfg_len` is a multiple of 4 or equal to `len`. -/
theorem read_loop_ok (env : xfer_env) (k : Nat) (hrd : ∀ i, env.readl k i = 0) :
    ∀ (fuel : Nat) (st : copy_state), st.e = 0 → st.cfg_len ≤ st.len → st.len < 2 ^ 16 →
      (st.cfg_len % 4 = 0 ∨ st.cfg_len = st.len) → st.cfg_len ≤ fuel →
      read_loop env k fuel st =
        some ⟨0, st.len - st.cfg_len, 0, st.index + (st.cfg_len + 3) / 4,
          st.copied + st.cfg_len⟩ := by
  intro fuel
  induction fuel with
  | zero =>
    intro st he _ _ _ hf
    have hc : st.cfg_len = 0 := by omega
    rw [read_loop_done env k 0 st (by simp [hc])]
    cases st
    simp only at he hc
    subst he hc
    simp
  | succ n ih =>
    intro st he hle hlen hmul hf
    by_cases hc : st.cfg_len = 0
    · rw [read_loop_done env k _ st (by simp [hc])]
      cases st
      simp only at he hc
      subst he hc
      simp
    · have hl : st.len ≠ 0 := by omega
      unfold read_loop
      rw [if_pos ⟨hl, hc, he⟩]
      simp only [hrd, if_true]
      by_cases h3 : st.cfg_len > 3
      · simp only [h3, if_true]
        have e1 : u16_sub st.len 4 = st.len - 4 := by unfold u16_sub; omega
        have e2 : u16_sub st.cfg_len 4 = st.cfg_len - 4 := by unfold u16_sub; omega
        rw [e1, e2, ih _ rfl (by simp only; omega) (by simp only; omega) (by simp only; omega)
          (by simp only; omega)]
        simp only [Option.some.injEq, copy_state.mk.injEq, true_and]
        refine ⟨by omega, by omega, by omega⟩
      · simp only [h3, if_false]
        have hcl : st.cfg_len = st.len := by omega
        have e1 : u16_sub st.len st.len = 0 := by unfold u16_sub; omega
        have e2 : u16_sub st.cfg_len st.len = 0 := by rw [hcl]; exact e1
        rw [e1, e2, read_loop_done env k n _ (by simp)]
        simp only [Option.some.injEq, copy_state.mk.injEq, true_and]
        refine ⟨by omega, by omega, by omega⟩

/-- The `RDATASIZE` field of a `cfg2` value built from a size up to 256. -/
theorem rdatasize_reg_set (n : Nat) (h : n ≤ 256) :
    CiscoReg._reg_get (CiscoReg._reg_set n 26 16) 26 16 = n := by
  rw [CiscoReg.reg_get_reg_set (by decide) (by decide)]
  exact Nat.mod_eq_of_lt (by omega)

/-- With every access succeeding, the outer loop of a read ends with `e = 0`
and `len = 0`; each chunk programs `RDATASIZE` with `len` capped at 256 and
copies `len` capped at `bufsize` bytes. -/
theorem xfer_loop_read (env : xfer_env) (bufsize : Nat) (hstart : ∀ k, env.start k = 0)
    (hrd : ∀ k i, env.readl k i = 0) (hpos : 0 < bufsize) (hmul : bufsize % 4 = 0) :
    ∀ (fuel len k : Nat) (cs : List chunk), len ≤ fuel → len < 2 ^ 16 →
      ∃ new, xfer_loop env true bufsize fuel k len 0 cs = some (0, 0, cs ++ new) ∧
        (∀ c ∈ new, c.rdatasize = min c.len 256 ∧ c.copied = min c.len bufsize ∧
          c.cfg_len = min c.len bufsize ∧ c.status = 0) ∧
        (0 < len → ∃ c rest, new = c :: rest ∧ c.len = len) ∧
        (new.map (fun c => c.copied)).sum = len := by
  intro fuel
  induction fuel with
  | zero =>
    intro len k cs hf _
    have hl : len = 0 := by omega
    subst hl
    exact ⟨[], by simp [xfer_loop], by simp, by simp, by simp⟩
  | succ n ih =>
    intro len k cs hf hlen
    by_cases hl : len = 0
    · subst hl
      exact ⟨[], by simp [xfer_loop], by simp, by simp, by simp⟩
    · unfold xfer_loop
      rw [if_pos ⟨hl, rfl⟩]
      simp only [Bool.not_true, Bool.false_eq_true, if_false, hstart]
      have hmin : (if len > bufsize then bufsize else len) = min len bufsize := by
        split_ifs <;> omega
      have hmin2 : (if len > DRIVER_I2C_HW_BUF_SIZE then DRIVER_I2C_HW_BUF_SIZE else len)
          = min len 256 := by
        unfold DRIVER_I2C_HW_BUF_SIZE; split_ifs <;> omega
      rw [hmin, hmin2]
      have hcl : min len bufsize ≤ len := Nat.min_le_left _ _
      have hcpos : 0 < min len bufsize := by
        rcases Nat.le_total len bufsize with h | h
        · rw [Nat.min_eq_left h]; omega
        · rw [Nat.min_eq_right h]; omega
      have hcase : min len bufsize % 4 = 0 ∨ min len bufsize = len := by
        rcases Nat.le_total len bufsize with h | h
        · right; exact Nat.min_eq_left h
        · left; rw [Nat.min_eq_right h]; exact hmul
      rw [read_loop_ok env k (hrd k) (min len bufsize) ⟨0, len, min len bufsize, 0, 0⟩ rfl hcl hlen
        hcase (Nat.le_refl _)]
      simp only [Nat.zero_add]
      obtain ⟨new, hnew, hall, _, hsum⟩ := ih (len - min len bufsize) (k + 1)
        (cs ++ [⟨len, CiscoReg._reg_set (min len 256) 26 16, min len bufsize, 0,
          (min len bufsize + 3) / 4, min len bufsize⟩]) (by omega) (by omega)
      refine ⟨⟨len, CiscoReg._reg_set (min len 256) 26 16, min len bufsize, 0,
          (min len bufsize + 3) / 4, min len bufsize⟩ :: new, ?_, ?_, ?_, ?_⟩
      · rw [hnew, List.append_assoc]
        rfl
      · intro c hc
        rcases List.mem_cons.mp hc with h | h
        · subst h
          exact ⟨rdatasize_reg_set _ (Nat.min_le_right _ _), rfl, rfl, rfl⟩
        · exact hall c h
      · intro _
        exact ⟨_, _, rfl, rfl⟩
      · simp only [List.map_cons, List.sum_cons, hsum]
        omega

/-- The local `len` is a `u16`. -/
theorem start_len_lt (msg : i2c_msg) : start_len msg < 2 ^ 16 := by
  unfold start_len
  split_ifs <;> exact Nat.mod_lt _ (by decide)

/-- The buffer size set by the probe is 256 or 512. -/
theorem probe_bufsize_cases (ver : Nat) :
    (ver ≤ 4 ∧ probe_bufsize ver = 256) ∨ (4 < ver ∧ probe_bufsize ver = 512) := by
  unfold probe_bufsize DRIVER_I2C_HW_BUF_SIZE DRIVER_I2C_HW_BUF_SIZE_v5
  by_cases h : ver ≤ 4
  · left; exact ⟨h, if_pos h⟩
  · right; exact ⟨by omega, if_neg h⟩

/-- C29: for a read message on hardware whose accesses all succeed,
`_i2c_xfer` returns 0 with every byte copied; each chunk programs `RDATASIZE`
with the remaining length capped at 256 (`DRIVER_I2C_HW_BUF_SIZE`) and copies
the remaining length capped at `hw->bufsize` bytes out of the read buffer.
For block version 4 or less (buffer of 256 bytes) the two are equal for every
chunk; for version 5 or more (buffer of 512 bytes) and a length above 256
the first chunk programs `RDATASIZE = 256` and copies `min(len, 512)` bytes,
which is more. -/
theorem i2c_xfer_read_sizes (env : xfer_env) (ver : Nat) (msg : i2c_msg)
    (hwait : env.wait_done = 0) (hstart : ∀ k, env.start k = 0)
    (hrd : ∀ k i, env.readl k i = 0) (hread : msg.flags &&& I2C_M_RD ≠ 0) :
    ∃ r, _i2c_xfer env (probe_bufsize ver) msg = some r ∧ r.status = 0 ∧ r.len = 0 ∧
      (r.chunks.map (fun c => c.copied)).sum = start_len msg ∧
      (∀ c ∈ r.chunks, c.rdatasize = min c.len 256 ∧ c.copied = min c.len (probe_bufsize ver)) ∧
      (ver ≤ 4 → ∀ c ∈ r.chunks, c.rdatasize = c.copied) ∧
      (4 < ver → 256 < start_len msg → ∃ c rest, r.chunks = c :: rest ∧
        c.rdatasize = 256 ∧ c.copied = min (start_len msg) 512 ∧ c.rdatasize < c.copied) := by
  have hb : 0 < probe_bufsize ver ∧ probe_bufsize ver % 4 = 0 := by
    rcases probe_bufsize_cases ver with ⟨_, h⟩ | ⟨_, h⟩ <;> rw [h] <;> decide
  obtain ⟨new, hnew, hall, hfirst, hsum⟩ := xfer_loop_read env (probe_bufsize ver) hstart hrd hb.1
    hb.2 (start_len msg) (start_len msg) 0 [] (Nat.le_refl _) (start_len_lt msg)
  have hrun : _i2c_xfer env (probe_bufsize ver) msg =
      some ⟨0, 0, if (0 : Int) = 0 ∧ (decide (msg.flags &&& I2C_M_RD ≠ 0)) = true ∧
          msg.flags &&& I2C_M_RECV_LEN ≠ 0 ∧ msg.len % 2 ^ 16 + env.buf0 % 2 ^ 8 ≤ start_len msg
        then (msg.len % 2 ^ 16 + env.buf0 % 2 ^ 8) % 2 ^ 16 else msg.len % 2 ^ 16, new⟩ := by
    unfold _i2c_xfer
    simp only [hwait, ne_eq, not_true_eq_false, if_false, hread, decide_True, decide_not,
      decide_False, Bool.not_false]
    rw [hnew]
    simp
  refine ⟨_, hrun, rfl, rfl, hsum, fun c hc => ⟨(hall c hc).1, (hall c hc).2.1⟩, ?_, ?_⟩
  · intro hv c hc
    have h256 : probe_bufsize ver = 256 := by
      rcases probe_bufsize_cases ver with ⟨_, h⟩ | ⟨h4, _⟩
      · exact h
      · omega
    rw [(hall c hc).1, (hall c hc).2.1, h256]
  · intro hv hlen
    have h512 : probe_bufsize ver = 512 := by
      rcases probe_bufsize_cases ver with ⟨h4, _⟩ | ⟨_, h⟩
      · omega
      · exact h
    obtain ⟨c, rest, hcr, hcl⟩ := hfirst (by omega)
    have hc : c ∈ new := by rw [hcr]; exact List.mem_cons_self _ _
    have h1 := (hall c hc).1
    have h2 := (hall c hc).2.1
    rw [hcl] at h1 h2
    rw [h512] at h2
    refine ⟨c, rest, hcr, ?_, h2, ?_⟩
    · rw [h1]; exact Nat.min_eq_right (by omega)
    · rw [h1, h2]
      rw [Nat.min_eq_right (by omega : 256 ≤ start_len msg)]
      exact Nat.lt_min.mpr ⟨hlen, by decide⟩

set_option maxRecDepth 1000000 in
/-- C29 on a read of 300 bytes with block version 5: one chunk, `RDATASIZE`
is 256 and 300 bytes are copied out of the read buffer. -/
theorem i2c_xfer_read_sizes_witness :
    demo_env_ok.wait_done = 0 ∧ demo_msg_read.flags &&& I2C_M_RD ≠ 0 ∧
    (∃ r, _i2c_xfer demo_env_ok (probe_bufsize 5) demo_msg_read = some r ∧ r.status = 0 ∧
      ∃ c rest, r.chunks = c :: rest ∧ c.rdatasize = 256 ∧ c.copied = min 300 512) ∧
    (_i2c_xfer demo_env_ok (probe_bufsize 5) demo_msg_read).map
      (fun r => (r.status, r.len, r.chunks.map (fun c => (c.rdatasize, c.copied, c.words))))
      = some (0, 0, [(256, 300, 75)]) := by
  obtain ⟨r, hr, hs, _, _, _, _, h5⟩ := i2c_xfer_read_sizes demo_env_ok 5 demo_msg_read rfl
    (fun _ => rfl) (fun _ _ => rfl) (by decide)
  obtain ⟨c, rest, hc, h1, h2, _⟩ := h5 (by decide) (by decide)
  exact ⟨rfl, by decide, ⟨r, hr, hs, c, rest, hc, h1, h2⟩, by decide⟩

end CiscoI2cExt

namespace CiscoGpio

/-! ## Input pins in `_gpio_parse_descriptor` (cisco-fpga-gpio-init.c) -/

/-- For the five interrupt types other than `disable`, the `strcmp` chain
leaves `v` as it is. -/
theorem parse_int_type_keeps (v : Nat) (t : List Char) (code : Nat)
    (ht : (t, code) ∈ in_types) : (parse_int_type v t).1 = v := by
  unfold in_types at ht
  simp only [List.mem_cons, Prod.mk.injEq, List.mem_singleton, List.not_mem_nil, or_false] at ht
  rcases ht with ⟨h, _⟩ | ⟨h, _⟩ | ⟨h, _⟩ | ⟨h, _⟩ | ⟨h, _⟩ <;> subst h <;> rfl

set_option maxRecDepth 1000000 in
/-- C30: for an input pin whose interrupt type is level-high, level-low,
positive-edge, negative-edge or any-edge, the value that the `in,` branch of
`_gpio_parse_descriptor` computes from the register value `v` and the parsed
`<enable>` has the `INTTYPE` field of `v` itself (the code of the type is
assigned to the local `intType` only), `DIR` set to input and `INTENB` set
from `<enable>`.  On a cold reboot with `cfg_stat` reading 0, the descriptor
`sfp,1,2,0,in,1,level-high` returns pin 7 and writes `0x20`, whose `INTTYPE`
is 0 and not 1. -/
theorem gpio_in_cfg_stat_fields (v : Nat) (intEnb : Int) (t : List Char) (code : Nat)
    (ht : (t, code) ∈ in_types) :
    REG_GET GPIO_IO_CFG_STAT_INTTYPE (in_cfg_stat v intEnb t) =
      REG_GET GPIO_IO_CFG_STAT_INTTYPE v ∧
    REG_GET GPIO_IO_CFG_STAT_DIR (in_cfg_stat v intEnb t) = gpio_io_cfg_stat_dir__input ∧
    REG_GET GPIO_IO_CFG_STAT_INTENB (in_cfg_stat v intEnb t) = (if intEnb ≠ 0 then 1 else 0) ∧
    (_gpio_parse_descriptor demo_gpio_env demo_descriptor demo_k_table 1).map
      (fun r => (r.ret, r.written, r.v.map (REG_GET GPIO_IO_CFG_STAT_INTTYPE)))
      = some (7, some (7, 0x20), some 0) := by
  have hin : in_cfg_stat v intEnb t =
      REG_REPLACEe GPIO_IO_CFG_STAT_DIR
        (REG_REPLACEe GPIO_IO_CFG_STAT_INTENB v (if intEnb ≠ 0 then 1 else 0)) 0 := by
    unfold in_cfg_stat
    simp only [parse_int_type_keeps _ t code ht, gpio_io_cfg_stat_dir__input,
      gpio_io_cfg_stat_intEnb__enable, gpio_io_cfg_stat_intEnb__disable]
    split_ifs <;> rfl
  rw [hin]
  unfold REG_GET REG_REPLACEe GPIO_IO_CFG_STAT_INTTYPE GPIO_IO_CFG_STAT_DIR
    GPIO_IO_CFG_STAT_INTENB gpio_io_cfg_stat_dir__input
  refine ⟨?_, ?_, ?_, by decide⟩
  · rw [CiscoReg.reg_get_reg_replace_disjoint (by decide) (by decide) (by decide) (by decide)
      (by decide), CiscoReg.reg_get_reg_replace_disjoint (by decide) (by decide) (by decide)
      (by decide) (by decide)]
  · rw [CiscoReg.reg_get_reg_replace (by decide) (by decide)]
    exact Nat.zero_mod _
  · rw [CiscoReg.reg_get_reg_replace_disjoint (by decide) (by decide) (by decide) (by decide)
      (by decide), CiscoReg.reg_get_reg_replace (by decide) (by decide)]
    split_ifs <;> rfl

set_option maxRecDepth 1000000 in
/-- C30 at `v = 0`, `<enable> = 1`, type `level-high` (code 1): the computed
value is `0x20` and its `INTTYPE` field is 0. -/
theorem gpio_in_cfg_stat_fields_witness :
    ("level-high".data, 1) ∈ in_types ∧
    in_cfg_stat 0 1 "level-high".data = 0x20 ∧
    REG_GET GPIO_IO_CFG_STAT_INTTYPE (in_cfg_stat 0 1 "level-high".data) =
      REG_GET GPIO_IO_CFG_STAT_INTTYPE 0 ∧
    REG_GET GPIO_IO_CFG_STAT_INTTYPE 0 = 0 :=
  ⟨by decide, by decide,
    (gpio_in_cfg_stat_fields 0 1 "level-high".data 1 (by decide)).1, by decide⟩

end CiscoGpio
